import Mathlib

/-!
# termic: input decoder and key table

A shallow embedding of `src/src/input.cpp` (`Input::setup_keys`, `Input::read`,
`Input::parse_mouse` and their helpers) together with the properties proved about it.

Conventions of the embedding:

* a byte is a natural number (values below 256); a `std::string` or `std::string_view`
  is a `List Byte`;
* `std::size_t` and `std::uint64_t` arithmetic is written with an explicit `% 2 ^ 64`, the
  `std::uint8_t` button with `% 256`;
* the input stream `_in` is the list of bytes that are buffered and not yet read; `putback`
  pushes one byte on its front;
* functions that can throw return `Except Exn`.
-/

namespace termic

/-- One byte (`char`) of input. -/
abbrev Byte := Nat

namespace key

/-- Modelled from the spec: the enumeration `key::Key`, whose header is not among the
sources.  The enumerators are those that `input.cpp` names, together with the digit keys
`_0` .. `_9` that it reaches by arithmetic on `key::_0` ("`0–9` → `Key{_0.._9}`"). -/
inductive Key
  | A | B | C | D | E | F | G | H | I | J | K | L | M
  | N | O | P | Q | R | S | T | U | V | W | X | Y | Z
  | _0 | _1 | _2 | _3 | _4 | _5 | _6 | _7 | _8 | _9
  | F1 | F2 | F3 | F4 | F5 | F6 | F7 | F8 | F9 | F10 | F11 | F12
  | BACKSPACE | SPACE | TAB | ENTER | ESCAPE
  | HOME | END | LEFT | RIGHT | UP | DOWN
  | PAGE_UP | PAGE_DOWN | INSERT | DELETE | NUMPAD_CENTER
  deriving DecidableEq, Repr

/-- Modelled from the spec: `key::Key(i + key::A)`.  The enumeration `key::Key` is declared in
a header that is not among the sources; following the spec ("`A–Z` → `Key{A..Z}`") the
enumerators `A` .. `Z` are consecutive, so that `A + i` is the key of the `i`-th letter. -/
def letter (i : Nat) : Key :=
  [Key.A, Key.B, Key.C, Key.D, Key.E, Key.F, Key.G, Key.H, Key.I, Key.J, Key.K, Key.L, Key.M,
   Key.N, Key.O, Key.P, Key.Q, Key.R, Key.S, Key.T, Key.U, Key.V, Key.W, Key.X, Key.Y,
   Key.Z].getD i Key.A

/-- Modelled from the spec: `key::Key(i + key::_0)`.  As for `letter`, the enumerators
`_0` .. `_9` are consecutive ("`0–9` → `Key{_0.._9}`"). -/
def digit (i : Nat) : Key :=
  [Key._0, Key._1, Key._2, Key._3, Key._4, Key._5, Key._6, Key._7, Key._8, Key._9].getD i Key._0

/-- Modelled from the spec: the bit set `key::Modifier`, whose header is not among the
sources ("bitset over {Shift, Alt, Ctrl}"), with one flag per bit. -/
structure Modifier where
  shift : Bool
  alt : Bool
  ctrl : Bool
  deriving DecidableEq, Repr

/-- Bitwise or of two modifier sets (`operator |`). -/
def Modifier.or (a b : Modifier) : Modifier :=
  ⟨a.shift || b.shift, a.alt || b.alt, a.ctrl || b.ctrl⟩

instance : OrOp Modifier := ⟨Modifier.or⟩

def NoMod : Modifier := ⟨false, false, false⟩
def SHIFT : Modifier := ⟨true, false, false⟩
def ALT : Modifier := ⟨false, true, false⟩
def CTRL : Modifier := ⟨false, false, true⟩

end key

open key (Key Modifier)

/-- The struct `Input::KeySequence`. -/
structure KeySequence where
  sequence : List Byte
  mods : Modifier
  key : Key
  deriving DecidableEq, Repr

namespace Input

def ALT_CTRL : Modifier := key.ALT ||| key.CTRL
def ALT_CTRL_SHIFT : Modifier := key.ALT ||| key.CTRL ||| key.SHIFT
def ALT_SHIFT : Modifier := key.ALT ||| key.SHIFT
def CTRL_SHIFT : Modifier := key.CTRL ||| key.SHIFT

/-- The table literal assigned to `_key_sequences` at the start of `setup_keys`, in source
order.  A missing `.mods` is the default `key::NoMod`; the first entry is written without the
`sv` suffix and is the one-byte string `7f`. -/
@[irreducible]
def key_sequences_literal : List KeySequence := [
  KeySequence.mk [0x7f] key.NoMod Key.BACKSPACE,
  KeySequence.mk [0x00] key.CTRL Key.SPACE,
  KeySequence.mk [0x1b, 0x00] ALT_CTRL Key.SPACE,
  KeySequence.mk [0x1b, 0x1a] ALT_CTRL Key.Z,
  KeySequence.mk [0x1b, 0x19] ALT_CTRL Key.Y,
  KeySequence.mk [0x1b, 0x18] ALT_CTRL Key.X,
  KeySequence.mk [0x1b, 0x17] ALT_CTRL Key.W,
  KeySequence.mk [0x1b, 0x16] ALT_CTRL Key.V,
  KeySequence.mk [0x1b, 0x15] ALT_CTRL Key.U,
  KeySequence.mk [0x1b, 0x14] ALT_CTRL Key.T,
  KeySequence.mk [0x1b, 0x13] ALT_CTRL Key.S,
  KeySequence.mk [0x1b, 0x12] ALT_CTRL Key.R,
  KeySequence.mk [0x1b, 0x11] ALT_CTRL Key.Q,
  KeySequence.mk [0x1b, 0x10] ALT_CTRL Key.P,
  KeySequence.mk [0x1b, 0x0f] ALT_CTRL Key.O,
  KeySequence.mk [0x1b, 0x0e] ALT_CTRL Key.N,
  KeySequence.mk [0x1b, 0x0d] ALT_CTRL Key.M,
  KeySequence.mk [0x1b, 0x0c] ALT_CTRL Key.L,
  KeySequence.mk [0x1b, 0x0b] ALT_CTRL Key.K,
  KeySequence.mk [0x1b, 0x0a] ALT_CTRL Key.J,
  KeySequence.mk [0x1b, 0x09] key.ALT Key.TAB,
  KeySequence.mk [0x1b, 0x08] ALT_CTRL Key.BACKSPACE,
  KeySequence.mk [0x1b, 0x07] ALT_CTRL Key.G,
  KeySequence.mk [0x1b, 0x06] ALT_CTRL Key.F,
  KeySequence.mk [0x1b, 0x05] ALT_CTRL Key.E,
  KeySequence.mk [0x1b, 0x04] ALT_CTRL Key.D,
  KeySequence.mk [0x1b, 0x03] ALT_CTRL Key.C,
  KeySequence.mk [0x1b, 0x02] ALT_CTRL Key.B,
  KeySequence.mk [0x1b, 0x01] ALT_CTRL Key.A,
  KeySequence.mk [0x1b, 0x7a] key.ALT Key.Z,
  KeySequence.mk [0x1b, 0x79] key.ALT Key.Y,
  KeySequence.mk [0x1b, 0x78] key.ALT Key.X,
  KeySequence.mk [0x1b, 0x77] key.ALT Key.W,
  KeySequence.mk [0x1b, 0x76] key.ALT Key.V,
  KeySequence.mk [0x1b, 0x75] key.ALT Key.U,
  KeySequence.mk [0x1b, 0x74] key.ALT Key.T,
  KeySequence.mk [0x1b, 0x73] key.ALT Key.S,
  KeySequence.mk [0x1b, 0x72] key.ALT Key.R,
  KeySequence.mk [0x1b, 0x71] key.ALT Key.Q,
  KeySequence.mk [0x1b, 0x70] key.ALT Key.P,
  KeySequence.mk [0x1b, 0x6f] key.ALT Key.O,
  KeySequence.mk [0x1b, 0x6e] key.ALT Key.N,
  KeySequence.mk [0x1b, 0x6d] key.ALT Key.M,
  KeySequence.mk [0x1b, 0x6c] key.ALT Key.L,
  KeySequence.mk [0x1b, 0x6b] key.ALT Key.K,
  KeySequence.mk [0x1b, 0x6a] key.ALT Key.J,
  KeySequence.mk [0x1b, 0x69] key.ALT Key.I,
  KeySequence.mk [0x1b, 0x68] key.ALT Key.H,
  KeySequence.mk [0x1b, 0x67] key.ALT Key.G,
  KeySequence.mk [0x1b, 0x66] key.ALT Key.F,
  KeySequence.mk [0x1b, 0x65] key.ALT Key.E,
  KeySequence.mk [0x1b, 0x64] key.ALT Key.D,
  KeySequence.mk [0x1b, 0x63] key.ALT Key.C,
  KeySequence.mk [0x1b, 0x62] key.ALT Key.B,
  KeySequence.mk [0x1b, 0x61] key.ALT Key.A,
  KeySequence.mk [0x1b, 0x5b, 0x48] key.NoMod Key.HOME,
  KeySequence.mk [0x1b, 0x5b, 0x46] key.NoMod Key.END,
  KeySequence.mk [0x1b, 0x5b, 0x44] key.NoMod Key.LEFT,
  KeySequence.mk [0x1b, 0x5b, 0x43] key.NoMod Key.RIGHT,
  KeySequence.mk [0x1b, 0x5b, 0x42] key.NoMod Key.DOWN,
  KeySequence.mk [0x1b, 0x5b, 0x41] key.NoMod Key.UP,
  KeySequence.mk [0x1b, 0x5b, 0x36, 0x7e] key.NoMod Key.PAGE_DOWN,
  KeySequence.mk [0x1b, 0x5b, 0x45] key.NoMod Key.NUMPAD_CENTER,
  KeySequence.mk [0x1b, 0x5b, 0x5a] key.SHIFT Key.TAB,
  KeySequence.mk [0x1b, 0x5b, 0x31, 0x3b, 0x33, 0x45] key.CTRL Key.NUMPAD_CENTER,
  KeySequence.mk [0x1b, 0x5b, 0x31, 0x3b, 0x37, 0x45] ALT_CTRL Key.NUMPAD_CENTER,
  KeySequence.mk [0x1b, 0x5b, 0x36, 0x3b, 0x37, 0x7e] ALT_CTRL Key.PAGE_DOWN,
  KeySequence.mk [0x1b, 0x5b, 0x36, 0x3b, 0x35, 0x7e] key.CTRL Key.PAGE_DOWN,
  KeySequence.mk [0x1b, 0x5b, 0x36, 0x3b, 0x33, 0x7e] key.ALT Key.PAGE_DOWN,
  KeySequence.mk [0x1b, 0x5b, 0x35, 0x7e] key.NoMod Key.PAGE_UP,
  KeySequence.mk [0x1b, 0x5b, 0x35, 0x3b, 0x37, 0x7e] ALT_CTRL Key.PAGE_UP,
  KeySequence.mk [0x1b, 0x5b, 0x35, 0x3b, 0x35, 0x7e] key.CTRL Key.PAGE_UP,
  KeySequence.mk [0x1b, 0x5b, 0x35, 0x3b, 0x33, 0x7e] key.ALT Key.PAGE_UP,
  KeySequence.mk [0x1b, 0x5b, 0x33, 0x7e] key.NoMod Key.DELETE,
  KeySequence.mk [0x1b, 0x5b, 0x33, 0x3b, 0x38, 0x7e] ALT_CTRL_SHIFT Key.DELETE,
  KeySequence.mk [0x1b, 0x5b, 0x33, 0x3b, 0x37, 0x7e] ALT_CTRL Key.DELETE,
  KeySequence.mk [0x1b, 0x5b, 0x33, 0x3b, 0x35, 0x7e] key.CTRL Key.DELETE,
  KeySequence.mk [0x1b, 0x5b, 0x33, 0x3b, 0x33, 0x7e] key.ALT Key.DELETE,
  KeySequence.mk [0x1b, 0x5b, 0x32, 0x7e] key.NoMod Key.INSERT,
  KeySequence.mk [0x1b, 0x5b, 0x32, 0x3b, 0x35, 0x7e] key.CTRL Key.INSERT,
  KeySequence.mk [0x1b, 0x5b, 0x32, 0x3b, 0x33, 0x7e] key.ALT Key.INSERT,
  KeySequence.mk [0x1b, 0x5b, 0x32, 0x30, 0x7e] key.NoMod Key.F9,
  KeySequence.mk [0x1b, 0x5b, 0x32, 0x30, 0x3b, 0x32, 0x7e] key.SHIFT Key.F9,
  KeySequence.mk [0x1b, 0x5b, 0x32, 0x30, 0x3b, 0x33, 0x7e] key.ALT Key.F9,
  KeySequence.mk [0x1b, 0x5b, 0x32, 0x30, 0x3b, 0x34, 0x7e] ALT_SHIFT Key.F9,
  KeySequence.mk [0x1b, 0x5b, 0x32, 0x30, 0x3b, 0x35, 0x7e] key.CTRL Key.F9,
  KeySequence.mk [0x1b, 0x5b, 0x32, 0x30, 0x3b, 0x36, 0x7e] CTRL_SHIFT Key.F9,
  KeySequence.mk [0x1b, 0x5b, 0x32, 0x30, 0x3b, 0x37, 0x7e] ALT_CTRL Key.F9,
  KeySequence.mk [0x1b, 0x5b, 0x32, 0x30, 0x3b, 0x38, 0x7e] ALT_CTRL_SHIFT Key.F9,
  KeySequence.mk [0x1b, 0x5b, 0x32, 0x31, 0x7e] key.NoMod Key.F10,
  KeySequence.mk [0x1b, 0x5b, 0x32, 0x31, 0x3b, 0x32, 0x7e] key.SHIFT Key.F10,
  KeySequence.mk [0x1b, 0x5b, 0x32, 0x31, 0x3b, 0x33, 0x7e] key.ALT Key.F10,
  KeySequence.mk [0x1b, 0x5b, 0x32, 0x31, 0x3b, 0x34, 0x7e] ALT_SHIFT Key.F10,
  KeySequence.mk [0x1b, 0x5b, 0x32, 0x31, 0x3b, 0x35, 0x7e] key.CTRL Key.F10,
  KeySequence.mk [0x1b, 0x5b, 0x32, 0x31, 0x3b, 0x36, 0x7e] CTRL_SHIFT Key.F10,
  KeySequence.mk [0x1b, 0x5b, 0x32, 0x31, 0x3b, 0x37, 0x7e] ALT_CTRL Key.F10,
  KeySequence.mk [0x1b, 0x5b, 0x32, 0x31, 0x3b, 0x38, 0x7e] ALT_CTRL_SHIFT Key.F10,
  KeySequence.mk [0x1b, 0x5b, 0x32, 0x33, 0x7e] key.NoMod Key.F11,
  KeySequence.mk [0x1b, 0x5b, 0x32, 0x33, 0x3b, 0x32, 0x7e] key.SHIFT Key.F11,
  KeySequence.mk [0x1b, 0x5b, 0x32, 0x33, 0x3b, 0x33, 0x7e] key.ALT Key.F11,
  KeySequence.mk [0x1b, 0x5b, 0x32, 0x33, 0x3b, 0x34, 0x7e] ALT_SHIFT Key.F11,
  KeySequence.mk [0x1b, 0x5b, 0x32, 0x33, 0x3b, 0x35, 0x7e] key.CTRL Key.F11,
  KeySequence.mk [0x1b, 0x5b, 0x32, 0x33, 0x3b, 0x36, 0x7e] CTRL_SHIFT Key.F11,
  KeySequence.mk [0x1b, 0x5b, 0x32, 0x33, 0x3b, 0x37, 0x7e] ALT_CTRL Key.F11,
  KeySequence.mk [0x1b, 0x5b, 0x32, 0x33, 0x3b, 0x38, 0x7e] ALT_CTRL_SHIFT Key.F11,
  KeySequence.mk [0x1b, 0x5b, 0x32, 0x34, 0x7e] key.NoMod Key.F12,
  KeySequence.mk [0x1b, 0x5b, 0x32, 0x34, 0x3b, 0x32, 0x7e] key.SHIFT Key.F12,
  KeySequence.mk [0x1b, 0x5b, 0x32, 0x34, 0x3b, 0x33, 0x7e] key.ALT Key.F12,
  KeySequence.mk [0x1b, 0x5b, 0x32, 0x34, 0x3b, 0x34, 0x7e] ALT_SHIFT Key.F12,
  KeySequence.mk [0x1b, 0x5b, 0x32, 0x34, 0x3b, 0x35, 0x7e] key.CTRL Key.F12,
  KeySequence.mk [0x1b, 0x5b, 0x32, 0x34, 0x3b, 0x36, 0x7e] CTRL_SHIFT Key.F12,
  KeySequence.mk [0x1b, 0x5b, 0x32, 0x34, 0x3b, 0x37, 0x7e] ALT_CTRL Key.F12,
  KeySequence.mk [0x1b, 0x5b, 0x32, 0x34, 0x3b, 0x38, 0x7e] ALT_CTRL_SHIFT Key.F11,
  KeySequence.mk [0x1b, 0x5b, 0x31, 0x3b, 0x38, 0x44] ALT_CTRL_SHIFT Key.LEFT,
  KeySequence.mk [0x1b, 0x5b, 0x31, 0x3b, 0x38, 0x43] ALT_CTRL_SHIFT Key.RIGHT,
  KeySequence.mk [0x1b, 0x5b, 0x31, 0x3b, 0x38, 0x42] ALT_CTRL_SHIFT Key.DOWN,
  KeySequence.mk [0x1b, 0x5b, 0x31, 0x3b, 0x38, 0x41] ALT_CTRL_SHIFT Key.UP,
  KeySequence.mk [0x1b, 0x5b, 0x31, 0x3b, 0x37, 0x48] ALT_CTRL Key.HOME,
  KeySequence.mk [0x1b, 0x5b, 0x31, 0x3b, 0x37, 0x46] ALT_CTRL Key.END,
  KeySequence.mk [0x1b, 0x5b, 0x31, 0x3b, 0x37, 0x44] ALT_CTRL Key.LEFT,
  KeySequence.mk [0x1b, 0x5b, 0x31, 0x3b, 0x37, 0x43] ALT_CTRL Key.RIGHT,
  KeySequence.mk [0x1b, 0x5b, 0x31, 0x3b, 0x37, 0x42] ALT_CTRL Key.DOWN,
  KeySequence.mk [0x1b, 0x5b, 0x31, 0x3b, 0x37, 0x41] ALT_CTRL Key.UP,
  KeySequence.mk [0x1b, 0x5b, 0x31, 0x3b, 0x36, 0x44] ALT_CTRL Key.LEFT,
  KeySequence.mk [0x1b, 0x5b, 0x31, 0x3b, 0x36, 0x43] ALT_CTRL Key.RIGHT,
  KeySequence.mk [0x1b, 0x5b, 0x31, 0x3b, 0x36, 0x42] ALT_CTRL Key.DOWN,
  KeySequence.mk [0x1b, 0x5b, 0x31, 0x3b, 0x36, 0x41] ALT_CTRL Key.UP,
  KeySequence.mk [0x1b, 0x5b, 0x31, 0x3b, 0x35, 0x48] key.CTRL Key.HOME,
  KeySequence.mk [0x1b, 0x5b, 0x31, 0x3b, 0x35, 0x46] key.CTRL Key.END,
  KeySequence.mk [0x1b, 0x5b, 0x31, 0x3b, 0x35, 0x44] key.CTRL Key.LEFT,
  KeySequence.mk [0x1b, 0x5b, 0x31, 0x3b, 0x35, 0x43] key.CTRL Key.RIGHT,
  KeySequence.mk [0x1b, 0x5b, 0x31, 0x3b, 0x35, 0x42] key.CTRL Key.DOWN,
  KeySequence.mk [0x1b, 0x5b, 0x31, 0x3b, 0x35, 0x41] key.CTRL Key.UP,
  KeySequence.mk [0x1b, 0x5b, 0x31, 0x3b, 0x32, 0x44] key.SHIFT Key.LEFT,
  KeySequence.mk [0x1b, 0x5b, 0x31, 0x3b, 0x32, 0x43] key.SHIFT Key.RIGHT,
  KeySequence.mk [0x1b, 0x5b, 0x31, 0x3b, 0x32, 0x42] key.SHIFT Key.DOWN,
  KeySequence.mk [0x1b, 0x5b, 0x31, 0x3b, 0x32, 0x41] key.SHIFT Key.UP,
  KeySequence.mk [0x1b, 0x5b, 0x31, 0x3b, 0x32, 0x50] key.SHIFT Key.F1,
  KeySequence.mk [0x1b, 0x5b, 0x31, 0x3b, 0x33, 0x50] key.ALT Key.F1,
  KeySequence.mk [0x1b, 0x5b, 0x31, 0x3b, 0x34, 0x50] ALT_SHIFT Key.F1,
  KeySequence.mk [0x1b, 0x5b, 0x31, 0x3b, 0x35, 0x50] key.CTRL Key.F1,
  KeySequence.mk [0x1b, 0x5b, 0x31, 0x3b, 0x36, 0x50] CTRL_SHIFT Key.F1,
  KeySequence.mk [0x1b, 0x5b, 0x31, 0x3b, 0x37, 0x50] ALT_CTRL Key.F1,
  KeySequence.mk [0x1b, 0x5b, 0x31, 0x3b, 0x38, 0x50] ALT_CTRL_SHIFT Key.F1,
  KeySequence.mk [0x1b, 0x5b, 0x31, 0x3b, 0x32, 0x51] key.SHIFT Key.F2,
  KeySequence.mk [0x1b, 0x5b, 0x31, 0x3b, 0x33, 0x51] key.ALT Key.F2,
  KeySequence.mk [0x1b, 0x5b, 0x31, 0x3b, 0x34, 0x51] ALT_SHIFT Key.F2,
  KeySequence.mk [0x1b, 0x5b, 0x31, 0x3b, 0x35, 0x51] key.CTRL Key.F2,
  KeySequence.mk [0x1b, 0x5b, 0x31, 0x3b, 0x36, 0x51] CTRL_SHIFT Key.F2,
  KeySequence.mk [0x1b, 0x5b, 0x31, 0x3b, 0x37, 0x51] ALT_CTRL Key.F2,
  KeySequence.mk [0x1b, 0x5b, 0x31, 0x3b, 0x38, 0x51] ALT_CTRL_SHIFT Key.F2,
  KeySequence.mk [0x1b, 0x5b, 0x31, 0x3b, 0x32, 0x52] key.SHIFT Key.F3,
  KeySequence.mk [0x1b, 0x5b, 0x31, 0x3b, 0x33, 0x52] key.ALT Key.F3,
  KeySequence.mk [0x1b, 0x5b, 0x31, 0x3b, 0x34, 0x52] ALT_SHIFT Key.F3,
  KeySequence.mk [0x1b, 0x5b, 0x31, 0x3b, 0x35, 0x52] key.CTRL Key.F3,
  KeySequence.mk [0x1b, 0x5b, 0x31, 0x3b, 0x36, 0x52] CTRL_SHIFT Key.F3,
  KeySequence.mk [0x1b, 0x5b, 0x31, 0x3b, 0x37, 0x52] ALT_CTRL Key.F3,
  KeySequence.mk [0x1b, 0x5b, 0x31, 0x3b, 0x38, 0x52] ALT_CTRL_SHIFT Key.F3,
  KeySequence.mk [0x1b, 0x5b, 0x31, 0x3b, 0x32, 0x53] key.SHIFT Key.F4,
  KeySequence.mk [0x1b, 0x5b, 0x31, 0x3b, 0x33, 0x53] key.ALT Key.F4,
  KeySequence.mk [0x1b, 0x5b, 0x31, 0x3b, 0x34, 0x53] ALT_SHIFT Key.F4,
  KeySequence.mk [0x1b, 0x5b, 0x31, 0x3b, 0x35, 0x53] key.CTRL Key.F4,
  KeySequence.mk [0x1b, 0x5b, 0x31, 0x3b, 0x36, 0x53] CTRL_SHIFT Key.F4,
  KeySequence.mk [0x1b, 0x5b, 0x31, 0x3b, 0x37, 0x53] ALT_CTRL Key.F4,
  KeySequence.mk [0x1b, 0x5b, 0x31, 0x3b, 0x38, 0x53] ALT_CTRL_SHIFT Key.F4,
  KeySequence.mk [0x1b, 0x5b, 0x31, 0x3b, 0x33, 0x48] key.ALT Key.HOME,
  KeySequence.mk [0x1b, 0x5b, 0x31, 0x3b, 0x33, 0x46] key.ALT Key.END,
  KeySequence.mk [0x1b, 0x5b, 0x31, 0x3b, 0x33, 0x44] key.ALT Key.LEFT,
  KeySequence.mk [0x1b, 0x5b, 0x31, 0x3b, 0x33, 0x43] key.ALT Key.RIGHT,
  KeySequence.mk [0x1b, 0x5b, 0x31, 0x3b, 0x33, 0x42] key.ALT Key.DOWN,
  KeySequence.mk [0x1b, 0x5b, 0x31, 0x3b, 0x33, 0x41] key.ALT Key.UP,
  KeySequence.mk [0x1b, 0x5b, 0x31, 0x35, 0x7e] key.NoMod Key.F5,
  KeySequence.mk [0x1b, 0x5b, 0x31, 0x35, 0x3b, 0x32, 0x7e] key.SHIFT Key.F5,
  KeySequence.mk [0x1b, 0x5b, 0x31, 0x35, 0x3b, 0x33, 0x7e] key.ALT Key.F5,
  KeySequence.mk [0x1b, 0x5b, 0x31, 0x35, 0x3b, 0x34, 0x7e] ALT_SHIFT Key.F5,
  KeySequence.mk [0x1b, 0x5b, 0x31, 0x35, 0x3b, 0x35, 0x7e] key.CTRL Key.F5,
  KeySequence.mk [0x1b, 0x5b, 0x31, 0x35, 0x3b, 0x36, 0x7e] CTRL_SHIFT Key.F5,
  KeySequence.mk [0x1b, 0x5b, 0x31, 0x35, 0x3b, 0x37, 0x7e] ALT_CTRL Key.F5,
  KeySequence.mk [0x1b, 0x5b, 0x31, 0x35, 0x3b, 0x38, 0x7e] ALT_CTRL_SHIFT Key.F5,
  KeySequence.mk [0x1b, 0x5b, 0x31, 0x37, 0x7e] key.NoMod Key.F6,
  KeySequence.mk [0x1b, 0x5b, 0x31, 0x37, 0x3b, 0x32, 0x7e] key.SHIFT Key.F6,
  KeySequence.mk [0x1b, 0x5b, 0x31, 0x37, 0x3b, 0x33, 0x7e] key.ALT Key.F6,
  KeySequence.mk [0x1b, 0x5b, 0x31, 0x37, 0x3b, 0x34, 0x7e] ALT_SHIFT Key.F6,
  KeySequence.mk [0x1b, 0x5b, 0x31, 0x37, 0x3b, 0x35, 0x7e] key.CTRL Key.F6,
  KeySequence.mk [0x1b, 0x5b, 0x31, 0x37, 0x3b, 0x36, 0x7e] CTRL_SHIFT Key.F6,
  KeySequence.mk [0x1b, 0x5b, 0x31, 0x37, 0x3b, 0x37, 0x7e] ALT_CTRL Key.F6,
  KeySequence.mk [0x1b, 0x5b, 0x31, 0x37, 0x3b, 0x38, 0x7e] ALT_CTRL_SHIFT Key.F6,
  KeySequence.mk [0x1b, 0x5b, 0x31, 0x38, 0x7e] key.NoMod Key.F7,
  KeySequence.mk [0x1b, 0x5b, 0x31, 0x38, 0x3b, 0x32, 0x7e] key.SHIFT Key.F7,
  KeySequence.mk [0x1b, 0x5b, 0x31, 0x38, 0x3b, 0x33, 0x7e] key.ALT Key.F7,
  KeySequence.mk [0x1b, 0x5b, 0x31, 0x38, 0x3b, 0x34, 0x7e] ALT_SHIFT Key.F7,
  KeySequence.mk [0x1b, 0x5b, 0x31, 0x38, 0x3b, 0x35, 0x7e] key.CTRL Key.F7,
  KeySequence.mk [0x1b, 0x5b, 0x31, 0x38, 0x3b, 0x36, 0x7e] CTRL_SHIFT Key.F7,
  KeySequence.mk [0x1b, 0x5b, 0x31, 0x38, 0x3b, 0x37, 0x7e] ALT_CTRL Key.F7,
  KeySequence.mk [0x1b, 0x5b, 0x31, 0x38, 0x3b, 0x38, 0x7e] ALT_CTRL_SHIFT Key.F7,
  KeySequence.mk [0x1b, 0x5b, 0x31, 0x39, 0x7e] key.NoMod Key.F8,
  KeySequence.mk [0x1b, 0x5b, 0x31, 0x39, 0x3b, 0x32, 0x7e] key.SHIFT Key.F8,
  KeySequence.mk [0x1b, 0x5b, 0x31, 0x39, 0x3b, 0x33, 0x7e] key.ALT Key.F8,
  KeySequence.mk [0x1b, 0x5b, 0x31, 0x39, 0x3b, 0x34, 0x7e] ALT_SHIFT Key.F8,
  KeySequence.mk [0x1b, 0x5b, 0x31, 0x39, 0x3b, 0x35, 0x7e] key.CTRL Key.F8,
  KeySequence.mk [0x1b, 0x5b, 0x31, 0x39, 0x3b, 0x36, 0x7e] CTRL_SHIFT Key.F8,
  KeySequence.mk [0x1b, 0x5b, 0x31, 0x39, 0x3b, 0x37, 0x7e] ALT_CTRL Key.F8,
  KeySequence.mk [0x1b, 0x5b, 0x31, 0x39, 0x3b, 0x38, 0x7e] ALT_CTRL_SHIFT Key.F8,
  KeySequence.mk [0x1b, 0x5a] ALT_SHIFT Key.Z,
  KeySequence.mk [0x1b, 0x59] ALT_SHIFT Key.Y,
  KeySequence.mk [0x1b, 0x58] ALT_SHIFT Key.X,
  KeySequence.mk [0x1b, 0x57] ALT_SHIFT Key.W,
  KeySequence.mk [0x1b, 0x56] ALT_SHIFT Key.V,
  KeySequence.mk [0x1b, 0x55] ALT_SHIFT Key.U,
  KeySequence.mk [0x1b, 0x54] ALT_SHIFT Key.T,
  KeySequence.mk [0x1b, 0x53] ALT_SHIFT Key.S,
  KeySequence.mk [0x1b, 0x52] ALT_SHIFT Key.R,
  KeySequence.mk [0x1b, 0x51] ALT_SHIFT Key.Q,
  KeySequence.mk [0x1b, 0x50] ALT_SHIFT Key.P,
  KeySequence.mk [0x1b, 0x4f, 0x53] key.NoMod Key.F4,
  KeySequence.mk [0x1b, 0x4f, 0x52] key.NoMod Key.F3,
  KeySequence.mk [0x1b, 0x4f, 0x51] key.NoMod Key.F2,
  KeySequence.mk [0x1b, 0x4f, 0x50] key.NoMod Key.F1,
  KeySequence.mk [0x1b, 0x41] ALT_SHIFT Key.A,
  KeySequence.mk [0x1b, 0x42] ALT_SHIFT Key.B,
  KeySequence.mk [0x1b, 0x43] ALT_SHIFT Key.C,
  KeySequence.mk [0x1b, 0x44] ALT_SHIFT Key.D,
  KeySequence.mk [0x1b, 0x45] ALT_SHIFT Key.E,
  KeySequence.mk [0x1b, 0x46] ALT_SHIFT Key.F,
  KeySequence.mk [0x1b, 0x47] ALT_SHIFT Key.G,
  KeySequence.mk [0x1b, 0x48] ALT_SHIFT Key.H,
  KeySequence.mk [0x1b, 0x49] ALT_SHIFT Key.I,
  KeySequence.mk [0x1b, 0x4a] ALT_SHIFT Key.J,
  KeySequence.mk [0x1b, 0x4b] ALT_SHIFT Key.K,
  KeySequence.mk [0x1b, 0x4c] ALT_SHIFT Key.L,
  KeySequence.mk [0x1b, 0x4d] ALT_SHIFT Key.M,
  KeySequence.mk [0x1b, 0x4e] ALT_SHIFT Key.N,
  KeySequence.mk [0x1b, 0x4f] ALT_SHIFT Key.O,
  KeySequence.mk [0x1b] key.NoMod Key.ESCAPE,
  KeySequence.mk [0x1b, 0x1b] key.ALT Key.ESCAPE,
  KeySequence.mk [0x01] key.CTRL Key.A,
  KeySequence.mk [0x02] key.CTRL Key.B,
  KeySequence.mk [0x03] key.CTRL Key.C,
  KeySequence.mk [0x04] key.CTRL Key.D,
  KeySequence.mk [0x05] key.CTRL Key.E,
  KeySequence.mk [0x06] key.CTRL Key.F,
  KeySequence.mk [0x07] key.CTRL Key.G,
  KeySequence.mk [0x08] key.CTRL Key.BACKSPACE,
  KeySequence.mk [0x09] key.NoMod Key.TAB,
  KeySequence.mk [0x0a] key.NoMod Key.ENTER,
  KeySequence.mk [0x0b] key.CTRL Key.K,
  KeySequence.mk [0x0c] key.CTRL Key.L,
  KeySequence.mk [0x0d] key.NoMod Key.ENTER,
  KeySequence.mk [0x0e] key.CTRL Key.N,
  KeySequence.mk [0x0f] key.CTRL Key.O,
  KeySequence.mk [0x10] key.CTRL Key.P,
  KeySequence.mk [0x11] key.CTRL Key.Q,
  KeySequence.mk [0x12] key.CTRL Key.R,
  KeySequence.mk [0x13] key.CTRL Key.S,
  KeySequence.mk [0x14] key.CTRL Key.T,
  KeySequence.mk [0x15] key.CTRL Key.U,
  KeySequence.mk [0x16] key.CTRL Key.V,
  KeySequence.mk [0x17] key.CTRL Key.W,
  KeySequence.mk [0x18] key.CTRL Key.X,
  KeySequence.mk [0x19] key.CTRL Key.Y,
  KeySequence.mk [0x1a] key.CTRL Key.Z
]

/-- The map `seen_sequences` of `setup_keys`: byte sequence to (index, entry), as an
association list (newest first). -/
abbrev Seen := List (List Byte × (Nat × KeySequence))

/-- The duplicate check of `setup_keys` (the `for` loop over `_key_sequences`): `false` as soon
as an entry's sequence is already in `seen_sequences`, `true` when the loop runs to its end. -/
def check_sequences : Seen → Nat → List KeySequence → Bool
  | _, _, [] => true
  | seen, idx, ks :: rest =>
    if (seen.find? (fun e => e.1 = ks.sequence)).isSome then false
    else check_sequences ((ks.sequence, (idx, ks)) :: seen) (idx + 1) rest

/-- The order that the comparator of the `std::sort` call leaves between an earlier entry `A`
and a later entry `B`: `B` must not go before `A`, i.e. not `B.sequence.size() >
A.sequence.size()`. -/
def longest_first (A B : KeySequence) : Prop := B.sequence.length ≤ A.sequence.length

instance : DecidableRel longest_first := fun A B =>
  inferInstanceAs (Decidable (B.sequence.length ≤ A.sequence.length))

/-- The `std::sort` call of `setup_keys`, longest sequence first.  `std::sort` leaves the order
of entries of equal length unspecified; this model is the stable insertion sort.  The
properties below that depend on the table are proved for every outcome the call may have
(see `SortedTable`). -/
def sort_sequences (t : List KeySequence) : List KeySequence :=
  t.insertionSort longest_first

/-- `Input::setup_keys` on a table literal: the return value and the content of
`_key_sequences` afterwards (on a duplicate the function returns before the sort). -/
def setup_keys (literal : List KeySequence) : Bool × List KeySequence :=
  if check_sequences [] 0 literal then (true, sort_sequences literal) else (false, literal)

/-- Any content that `_key_sequences` may have after `setup_keys` on the built-in literal: the
entries of the literal in some order that the comparator accepts as sorted. -/
def SortedTable (t : List KeySequence) : Prop :=
  t.Perm key_sequences_literal ∧ t.Pairwise longest_first

end Input

/-- The exceptions of the standard library that the decoder can raise. -/
inductive Exn
  | invalid_argument
  | out_of_range
  deriving DecidableEq, Repr

deriving instance DecidableEq for Except

namespace event

/-- Modelled from the spec: the variant `event::Event`, whose header is not among the sources,
with one constructor per kind of event and the fields that the spec lists for it
(`Key{key, modifiers}`, `Input{codepoint}`, `MouseButton{button, pressed, released,
double_clicked, x, y, modifiers}`, ...).  A boolean field that a designated initialiser of
`input.cpp` leaves out is `false`. -/
inductive Event
  | Key (key : Key) (modifiers : Modifier)
  | Input (codepoint : Nat)
  | MouseButton (button : Nat) (pressed released double_clicked : Bool) (x y : Nat)
      (modifiers : Modifier)
  | MouseMove (x y : Nat) (modifiers : Modifier)
  | MouseWheel (delta : Int) (x y : Nat) (modifiers : Modifier)
  | Resize (size old_size : Nat × Nat)
  | Focus (focused : Bool)
  | Render
  deriving DecidableEq, Repr

/-- The coordinates that a mouse event carries. -/
def Event.position : Event → Option (Nat × Nat)
  | Event.MouseButton _ _ _ _ x y _ => some (x, y)
  | Event.MouseMove x y _ => some (x, y)
  | Event.MouseWheel _ x y _ => some (x, y)
  | _ => none

end event

open event (Event)

namespace utf8

/-- A continuation byte `10xxxxxx`. -/
def is_continuation (b : Byte) : Bool := 0x80 ≤ b && b < 0xc0

/-- Modelled from the spec: `utf8::read_one`, which is declared in `utf8.h` and whose body is
not among the sources ("Decode one codepoint starting at offset 0").  The result is the
codepoint and `eaten`, the number of bytes it occupies; `eaten = 0` when the bytes do not start
with a complete UTF-8 sequence. -/
def read_one (s : List Byte) : Nat × Nat :=
  match s with
  | [] => (0, 0)
  | b0 :: rest =>
    if b0 < 0x80 then (b0, 1)
    else if 0xc0 ≤ b0 ∧ b0 < 0xe0 then
      match rest with
      | b1 :: _ =>
        if is_continuation b1 then ((b0 % 0x20) * 0x40 + b1 % 0x40, 2) else (0, 0)
      | _ => (0, 0)
    else if 0xe0 ≤ b0 ∧ b0 < 0xf0 then
      match rest with
      | b1 :: b2 :: _ =>
        if is_continuation b1 && is_continuation b2 then
          ((b0 % 0x10) * 0x1000 + (b1 % 0x40) * 0x40 + b2 % 0x40, 3)
        else (0, 0)
      | _ => (0, 0)
    else if 0xf0 ≤ b0 ∧ b0 < 0xf8 then
      match rest with
      | b1 :: b2 :: b3 :: _ =>
        if is_continuation b1 && is_continuation b2 && is_continuation b3 then
          ((b0 % 0x08) * 0x40000 + (b1 % 0x40) * 0x1000 + (b2 % 0x40) * 0x40 + b3 % 0x40, 4)
        else (0, 0)
      | _ => (0, 0)
    else (0, 0)

end utf8

/-- The static `parse_utf8`: the `Input` event of the first codepoint and the number of bytes
eaten, or `none` (the `-1` alternative) when `read_one` eats nothing. -/
def parse_utf8 (inp : List Byte) : Option (Event × Nat) :=
  let ch := utf8.read_one inp
  if ch.2 = 0 then none else some (Event.Input ch.1, ch.2)

/-- The static `split`, for a separator of one byte (the only call passes `";"`): the parts as
pairs (start, end) of offsets into `s`, counted from the offset `pos` of the first byte of
`s`, with `start` the offset where the current part began. -/
def split_from : List Byte → Byte → Nat → Nat → List (Nat × Nat)
  | [], _, pos, start => [(start, pos)]
  | c :: cs, sep, pos, start =>
    if c = sep then (start, pos) :: split_from cs sep (pos + 1) (pos + 1)
    else split_from cs sep (pos + 1) start

/-- The static `split`: the parts of `s` between occurrences of `sep`, as offset pairs. -/
def split (s : List Byte) (sep : Byte) : List (Nat × Nat) := split_from s sep 0 0

/-- The C library predicate `isspace` in the "C" locale. -/
def isspace (c : Byte) : Bool := c = 0x20 || (0x09 ≤ c && c ≤ 0x0d)

/-- An ASCII decimal digit. -/
def isdigit (c : Byte) : Bool := 0x30 ≤ c && c ≤ 0x39

/-- The value of a string of decimal digits. -/
def digits_value (ds : List Byte) : Nat := ds.foldl (fun a d => a * 10 + (d - 0x30)) 0

/-- The bytes of the C string that starts at the head of `mem`: everything before the first
NUL. -/
def c_str (mem : List Byte) : List Byte := mem.takeWhile (fun c => c ≠ 0)

/-- The optional sign that `std::stoul` reads: whether it is a minus sign, and the bytes
after it. -/
def stoul_sign (s : List Byte) : Bool × List Byte :=
  match s with
  | 0x2d :: r => (true, r)
  | 0x2b :: r => (false, r)
  | _ => (false, s)

/-- The call `std::stoul(p)` on a C string (base 10): white space is skipped, an optional sign
is read, then the longest run of digits.  No digit raises `std::invalid_argument`, a value that
does not fit 64 bits raises `std::out_of_range`, and a minus sign negates the value modulo
`2 ^ 64`. -/
def stoul (str : List Byte) : Except Exn Nat :=
  let signed := stoul_sign (str.dropWhile isspace)
  let ds := signed.2.takeWhile isdigit
  if ds.isEmpty then Except.error Exn.invalid_argument
  else if 2 ^ 64 ≤ digits_value ds then Except.error Exn.out_of_range
  else if signed.1 then Except.ok ((2 ^ 64 - digits_value ds) % 2 ^ 64)
  else Except.ok (digits_value ds)

/-- The result of `Input::wait`. -/
inductive WaitResult
  | Invalid
  | InputReceived
  | SignalReceived
  | RenderTriggered
  | TimerTriggered
  deriving DecidableEq, Repr

/-- The part of the state of `Input` that `read` uses.  `_in` holds the bytes buffered in the
stream (`in_avail()` is its length); `_mouse_button_press` is the stopwatch, kept as the
instant at which it was last reset (see `elapsed_s`); instants and `_double_click_duration`
are counted in the same unit of time. -/
structure Input where
  _in : List Byte
  _key_sequences : List KeySequence
  _mouse_button_press : Nat
  _double_click_duration : Nat
  deriving DecidableEq, Repr

namespace Input

/-- The prefix `ESC [ <` of a mouse report. -/
def mouse_prefix : List Byte := [0x1b, 0x5b, 0x3c]
/-- The constant `max_mouse_seq_len`: the size of the view from which a mouse report is
parsed, the three bytes of the prefix included. -/
def max_mouse_seq_len : Nat := 16
/-- The report `ESC [ I`. -/
def focus_in : List Byte := [0x1b, 0x5b, 0x49]
/-- The report `ESC [ O`. -/
def focus_out : List Byte := [0x1b, 0x5b, 0x4f]

/-- The call `_in.putback(c)`. -/
def putback (stream : List Byte) (c : Byte) : List Byte := c :: stream

/-- The lambda `revert` of `read`: the bytes of `chars` are put back last byte first. -/
def revert (stream : List Byte) (chars : List Byte) : List Byte :=
  chars.reverse.foldl putback stream

/-- Modelled from the spec: the call `_mouse_button_press.elapsed_s()` at the instant `now`.
The class `StopWatch` is declared in a header that is not among the sources ("a stopwatch
records the last button-0 press time"); the stopwatch reads the time since its last reset
and `reset()` restarts it at `now`. -/
def elapsed_s (s : Input) (now : Nat) : Nat := now - s._mouse_button_press

/-- The scan loop at the head of `parse_mouse`: the number of bytes up to and including the
first `M` or `m`, or the size of the view when there is none. -/
def scan_len : List Byte → Nat
  | [] => 0
  | c :: cs => if c = 0x4d ∨ c = 0x6d then 1 else scan_len cs + 1

/-- The modifier set that `parse_mouse` reads off the bits `0x04`, `0x08` and `0x10` of the
button field. -/
def mouse_mods (buttons_modifiers : Nat) : Modifier :=
  let mods := key.NoMod
  let mods := if (buttons_modifiers &&& 0x04) > 0 then mods ||| key.SHIFT else mods
  let mods := if (buttons_modifiers &&& 0x08) > 0 then mods ||| key.ALT else mods
  if (buttons_modifiers &&& 0x10) > 0 then mods ||| key.CTRL else mods

/-- The value of `mouse_button` that `parse_mouse` computes when the report is not a movement.
The masks `~0x80u` and `~0x40u` are 32-bit values widened to 64 bits, and the result is cast
to `std::uint8_t`. -/
def mouse_button_of (buttons_modifiers : Nat) : Nat :=
  if buttons_modifiers ≥ 128 then ((buttons_modifiers &&& 0xffffff7f) + 5) % 256
  else if buttons_modifiers ≥ 64 then ((buttons_modifiers &&& 0xffffffbf) + 3) % 256
  else buttons_modifiers &&& 0x0f

/-- The value of `mouse_wheel` that `parse_mouse` computes when the report is not a movement:
`-(mouse_button - 3)*2 + 1` in the wheel range, `0` otherwise. -/
def mouse_wheel_of (buttons_modifiers : Nat) : Int :=
  if buttons_modifiers ≥ 128 then 0
  else if buttons_modifiers ≥ 64 then
    -((mouse_button_of buttons_modifiers : Int) - 3) * 2 + 1
  else 0

/-- The second half of `parse_mouse`, from the three numbers of the report, its final byte
`tail` and its length `len` to the event: the result is the event and the value of `eaten`, or
`none` for the alternative `-1` (with `eaten = 0`); the state is returned because a press of
button 0 may reset the stopwatch. -/
def mouse_event (s : Input) (now : Nat) (buttons_modifiers mouse_x mouse_y : Nat) (tail : Byte)
    (len : Nat) : Option (Event × Nat) × Input :=
  let movement : Bool := (buttons_modifiers &&& 0x20) > 0
  let wheel_range : Bool := !movement && !(decide (buttons_modifiers ≥ 128)) &&
    decide (buttons_modifiers ≥ 64)
  let button_pressed : Bool := !movement && tail = 0x4d && !wheel_range
  let button_released : Bool := !movement && tail = 0x6d && !wheel_range
  let mouse_button : Nat := if movement then 0 else mouse_button_of buttons_modifiers
  let mouse_wheel : Int := if movement then 0 else mouse_wheel_of buttons_modifiers
  let mods := mouse_mods buttons_modifiers
  if movement then
    (some (Event.MouseMove mouse_x mouse_y mods, len), s)
  else if button_pressed then
    if mouse_button = 0 then
      if elapsed_s s now < s._double_click_duration then
        (some (Event.MouseButton mouse_button false false true mouse_x mouse_y mods, len), s)
      else
        (some (Event.MouseButton mouse_button true false false mouse_x mouse_y mods, len),
          { s with _mouse_button_press := now })
    else
      (some (Event.MouseButton mouse_button true false false mouse_x mouse_y mods, len), s)
  else if button_released then
    (some (Event.MouseButton mouse_button false true false mouse_x mouse_y mods, len), s)
  else if mouse_wheel ≠ 0 then
    (some (Event.MouseWheel mouse_wheel mouse_x mouse_y mods, len), s)
  else
    (none, s)

/-- The value of `n - 1` in `std::size_t` arithmetic, for `n` below `2 ^ 64`. -/
def size_t_pred (n : Nat) : Nat := (n + (2 ^ 64 - 1)) % 2 ^ 64

/-- `Input::parse_mouse` on the view `v`; `after` holds the bytes that follow the view in
memory, which `std::stoul` can reach because it is handed the `data()` pointer of a part, a C
string that ends at the next NUL and not at the end of the part. -/
def parse_mouse (s : Input) (now : Nat) (v after : List Byte) :
    Except Exn (Option (Event × Nat) × Input) :=
  let len := scan_len v
  if len < 6 then Except.ok (none, s)
  else
    let tail := v.getD (len - 1) 0
    if tail ≠ 0x4d ∧ tail ≠ 0x6d then Except.ok (none, s)
    else
      let seq := v.take (len - 1)
      let parts := split seq 0x3b
      if parts.length ≠ 3 then Except.ok (none, s)
      else
        let data := fun (i : Nat) => c_str ((v ++ after).drop (parts.getD i (0, 0)).1)
        match stoul (data 0) with
        | Except.error e => Except.error e
        | Except.ok buttons_modifiers =>
          match stoul (data 1) with
          | Except.error e => Except.error e
          | Except.ok x =>
            match stoul (data 2) with
            | Except.error e => Except.error e
            | Except.ok y =>
              let mouse_x := size_t_pred x
              let mouse_y := size_t_pred y
              Except.ok (mouse_event s now buttons_modifiers mouse_x mouse_y tail len)

/-- The synthesised `Key` event that `read` appends after an `Input` event, if any. -/
def companion_key (codepoint : Nat) : List Event :=
  if 0x41 ≤ codepoint ∧ codepoint ≤ 0x5a then
    [Event.Key (key.letter (codepoint - 0x41)) key.SHIFT]
  else if 0x61 ≤ codepoint ∧ codepoint ≤ 0x7a then
    [Event.Key (key.letter (codepoint - 0x61)) key.NoMod]
  else if 0x30 ≤ codepoint ∧ codepoint ≤ 0x39 then
    [Event.Key (key.digit (codepoint - 0x30)) key.NoMod]
  else if codepoint = 0x20 then
    [Event.Key Key.SPACE key.NoMod]
  else []

/-- The key-table stage of `read`: the first entry, in table order, whose sequence the input
starts with. -/
def scan_keys (table : List KeySequence) (inp : List Byte) : Option KeySequence :=
  table.find? (fun kseq => kseq.sequence.isPrefixOf inp)

/-- The statement pair `revert(in.substr(pos)); return events;` that ends every successful
stage of `read`: the bytes of `in` from offset `pos` on are put back and `events` is returned.
The call `in.substr(pos)` raises `std::out_of_range` when `pos` exceeds the size of `in`. -/
def revert_substr (s : Input) (inp : List Byte) (pos : Nat) (events : List Event) :
    Except Exn (List Event) × Input :=
  if inp.length < pos then (Except.error Exn.out_of_range, s)
  else (Except.ok events, { s with _in := revert s._in (inp.drop pos) })

/-- The stages of `read` after the mouse stage, on the bytes `inp` read from the stream:
focus report, key table, UTF-8 codepoint, parse failure. -/
def decode_rest (s : Input) (inp : List Byte) : Except Exn (List Event) × Input :=
  if 3 ≤ inp.length ∧ focus_in.isPrefixOf inp then
    revert_substr s inp focus_in.length [Event.Focus true]
  else if 3 ≤ inp.length ∧ focus_out.isPrefixOf inp then
    revert_substr s inp focus_out.length [Event.Focus false]
  else
    match scan_keys s._key_sequences inp with
    | some kseq => revert_substr s inp kseq.sequence.length [Event.Key kseq.key kseq.mods]
    | none =>
      match parse_utf8 inp with
      | some (Event.Input codepoint, eaten) =>
        revert_substr s inp eaten (Event.Input codepoint :: companion_key codepoint)
      | _ => (Except.ok [], s)

/-- The view `mouse_seq` that `read` hands to `parse_mouse`.  It spans the 16 bytes from
`in.begin()` whatever the size of `in`, less the three bytes of the prefix; `junk` stands for
the bytes that lie in the storage of the string after its terminating NUL, which the view
covers when fewer than 16 bytes were read. -/
def mouse_window (inp junk : List Byte) : List Byte :=
  ((inp ++ 0 :: junk).take max_mouse_seq_len).drop (List.length mouse_prefix)

/-- The mouse stage of `read`: `parse_mouse` on the view `mouse_seq`, when at least 9 bytes
were read and they start with the mouse prefix. -/
def mouse_stage (s : Input) (now : Nat) (inp junk : List Byte) :
    Except Exn (Option (Event × Nat) × Input) :=
  if 9 ≤ inp.length ∧ List.isPrefixOf mouse_prefix inp then
    parse_mouse s now (mouse_window inp junk) ((inp ++ 0 :: junk).drop max_mouse_seq_len)
  else Except.ok (none, s)

/-- The body of `read` from the point where the bytes `inp` have been read off the stream
(`s._in` is what the stream holds after that). -/
def decode (s : Input) (now : Nat) (inp junk : List Byte) : Except Exn (List Event) × Input :=
  match mouse_stage s now inp junk with
  | Except.error e => (Except.error e, s)
  | Except.ok (some (event, eaten), s1) =>
    if eaten > 0 then revert_substr s1 inp (List.length mouse_prefix + eaten) [event]
    else decode_rest s1 inp
  | Except.ok (none, s1) => decode_rest s1 inp

/-- The bytes that `read` takes off the stream: the buffered bytes when there are any;
otherwise `read` calls `wait`, whose result is `w`, returns early unless input was received,
and then takes the bytes `arrived` that the stream has buffered by then. -/
def fetch (s : Input) (w : WaitResult) (arrived : List Byte) : Option (List Byte) :=
  if s._in.length = 0 then
    if w = WaitResult.TimerTriggered ∨ w = WaitResult.SignalReceived then none
    else if w = WaitResult.RenderTriggered then none
    else some arrived
  else some s._in

/-- `Input::read`.  `w` is the result of the call of `wait` and `arrived` the bytes buffered
after it (both are used only when nothing is buffered at entry), `junk` the bytes behind the
string `in` (see `mouse_stage`) and `now` the reading of the clock. -/
def read (s : Input) (w : WaitResult) (arrived junk : List Byte) (now : Nat) :
    Except Exn (List Event) × Input :=
  if s._in.length = 0 ∧ (w = WaitResult.TimerTriggered ∨ w = WaitResult.SignalReceived) then
    (Except.ok [], s)
  else if s._in.length = 0 ∧ w = WaitResult.RenderTriggered then
    (Except.ok [Event.Render], s)
  else
    let inp := if s._in.length = 0 then arrived else s._in
    decode { s with _in := [] } now inp junk

/-- The state of `Input` after its constructor: the key table as `setup_keys` leaves it, an
empty stream, the stopwatch started at `t0` and the default double-click duration `d`. -/
def init (t0 d : Nat) : Input :=
  { _in := [],
    _key_sequences := (setup_keys key_sequences_literal).2,
    _mouse_button_press := t0,
    _double_click_duration := d }

/-- A number for a byte sequence, used to compare the sequences of the table quickly. -/
def sequence_code (seq : List Byte) : Nat := seq.foldl (fun a b => a * 257 + (b + 1)) 0

/-- A field of a well-formed mouse report: a non-empty string of decimal digits. -/
def is_decimal (ds : List Byte) : Bool := !ds.isEmpty && ds.all isdigit

/-- The mouse report `ESC [ < btn ; x ; y t` with the three fields given as strings and the
final byte `t` (`M` or `m`). -/
def mouse_report (btn x y : List Byte) (t : Byte) : List Byte :=
  mouse_prefix ++ (btn ++ 0x3b :: (x ++ 0x3b :: (y ++ [t])))

end Input

end termic

namespace termic

open key (Key Modifier)

namespace event

/-- The modifier set that a mouse event carries. -/
def Event.mouse_modifiers : Event → Option Modifier
  | Event.MouseButton _ _ _ _ _ _ modifiers => some modifiers
  | Event.MouseMove _ _ modifiers => some modifiers
  | Event.MouseWheel _ _ _ modifiers => some modifiers
  | _ => none

end event

namespace Input

/-- `Input::set_double_click_duration`, with the stored duration kept in milliseconds (the
source divides by `1000.f` to store seconds): `max(10, duration)`. -/
def set_double_click_duration (s : Input) (duration : Int) : Input :=
  { s with _double_click_duration := (max 10 duration).toNat }

end Input

end termic

namespace termic

open key (Key Modifier)

namespace Input

/-- The key that the spec writes `Fn`, for `n` in 1..12. -/
def function_key (n : Nat) : Key :=
  [Key.F1, Key.F2, Key.F3, Key.F4, Key.F5, Key.F6, Key.F7, Key.F8, Key.F9, Key.F10, Key.F11,
    Key.F12].getD (n - 1) Key.F1

/-- The modifier set that the spec encodes as `mod = 1 + (shift?1) + (alt?2) + (ctrl?4)`. -/
def modifier_of_mod (mod : Nat) : Modifier :=
  ⟨(mod - 1) % 2 = 1, (mod - 1) / 2 % 2 = 1, (mod - 1) / 4 % 2 = 1⟩

/-- The conventional sequence of the function key `Fn` with the modifier number `mod`, as the
spec describes it: `ESC O P/Q/R/S` unmodified and `ESC [ 1 ; mod P/Q/R/S` for F1..F4;
`ESC [ c ~` unmodified and `ESC [ c ; mod ~` with `c` = 15, 17, 18, 19, 20, 21, 23, 24 for
F5..F12. -/
def function_key_sequence (n mod : Nat) : List Byte :=
  if n ≤ 4 then
    if mod = 1 then [0x1b, 0x4f, 0x50 + (n - 1)]
    else [0x1b, 0x5b, 0x31, 0x3b, 0x30 + mod, 0x50 + (n - 1)]
  else
    let c := [15, 17, 18, 19, 20, 21, 23, 24].getD (n - 5) 0
    if mod = 1 then [0x1b, 0x5b, 0x30 + c / 10, 0x30 + c % 10, 0x7e]
    else [0x1b, 0x5b, 0x30 + c / 10, 0x30 + c % 10, 0x3b, 0x30 + mod, 0x7e]

end Input

/-! ## Timers -/

/-- The struct `pollfd` of `poll.h`. -/
structure pollfd where
  fd : Int
  events : Int
  revents : Int
  deriving DecidableEq, Repr

/-- The event flag `POLLIN`. -/
def POLLIN : Int := 1
/-- The descriptor of standard input. -/
def STDIN_FILENO : Int := 0

/-- Modelled from the spec: the struct `Timer::Data`, whose header is not among the sources,
with the fields that `set_timer` and `wait` use and the spec lists for a timer registration
(`initial_delay`, `interval`, `creation_time`, `trigger_count`, `triggers_missed`,
`last_trigger_time`, `lag`).  Durations are in milliseconds, readings of the clock in
nanoseconds. -/
structure Timer.Data where
  initial : Int
  interval : Int
  creation_time : Int
  trigger_count : Nat
  triggers_missed : Nat
  last_trigger_time : Int
  lag : Int
  deriving DecidableEq, Repr

/-- Modelled from the spec: the handle `Timer`, whose header is not among the sources: the id
of the timer, and whether the handle is valid (`operator bool`; `Timer()` is not, `Timer(id,
data)` is).  The data that the handle shares with the timer table is read from the table. -/
structure Timer where
  id : Nat
  valid : Bool
  deriving DecidableEq, Repr

/-- The struct `Input::TimerInfo`.  The callback is kept as the name of the function, `none`
for an empty `std::function`; `data` is the record that the shared pointer refers to. -/
structure TimerInfo where
  callback : Option Nat
  single_shot : Bool
  id : Nat
  data : Timer.Data
  deriving DecidableEq, Repr

/-- The `std::runtime_error`s that `set_timer` throws, one per message. -/
inductive SetTimerError
  | too_many_timers
  | both_zero
  | initial_too_small
  | interval_too_small
  deriving DecidableEq, Repr

/-- The part of the state of `Input` that the timer functions use.  The two
`std::unordered_map`s are association lists with at most one entry per key (their size is the
length of the list, their iteration order the order of the list, which the standard leaves
open).  `s_timer_id` is the static counter of timer ids; `closed` records the descriptors
passed to `::close` and `called` the callbacks invoked, latest first. -/
structure Timers where
  _timer_id_fd : List (Nat × Int)
  _render_trigger_fd : Int
  _timer_info : List (Int × TimerInfo)
  _pollfds : List pollfd
  s_timer_id : Nat
  closed : List Int
  called : List Nat
  deriving DecidableEq, Repr

namespace Timers

def max_timers : Nat := 16
/-- The constant `min_timer_duration`, in milliseconds. -/
def min_timer_duration : Int := 10
def trigger_fd_idx : Nat := 1
def first_timer_fd_idx : Nat := 2

/-- The call `m.find(k)` on an unordered map: the value stored for `k`, if any. -/
def map_find {κ ν : Type} [DecidableEq κ] (m : List (κ × ν)) (k : κ) : Option ν :=
  (m.find? (fun e => e.1 = k)).map Prod.snd

/-- The call `m.erase(k)` on an unordered map. -/
def map_erase {κ ν : Type} [DecidableEq κ] (m : List (κ × ν)) (k : κ) : List (κ × ν) :=
  m.filter (fun e => e.1 ≠ k)

/-- The assignment `m[k] = v` on an unordered map: the entry for `k` is replaced or added. -/
def map_assign {κ ν : Type} [DecidableEq κ] (m : List (κ × ν)) (k : κ) (v : ν) :
    List (κ × ν) :=
  (k, v) :: map_erase m k

/-- The loop of `build_pollfds` over `_timer_id_fd`: the descriptor of each timer is written
to the next slot, from slot `idx` on. -/
def write_timer_fds : List pollfd → Nat → List (Nat × Int) → List pollfd
  | p, _, [] => p
  | p, idx, (_, fd) :: rest => write_timer_fds (p.set idx ⟨fd, POLLIN, 0⟩) (idx + 1) rest

/-- `Input::build_pollfds`: slot 0 is standard input, slot 1 the render trigger, the slots
from 2 on the timers; the slots behind the last timer keep what they held. -/
def build_pollfds (s : Timers) : Timers :=
  let slots := (s._pollfds.set 0 ⟨STDIN_FILENO, POLLIN, 0⟩).set trigger_fd_idx
    ⟨s._render_trigger_fd, POLLIN, 0⟩
  { s with _pollfds := write_timer_fds slots first_timer_fd_idx s._timer_id_fd }

/-- `Input::set_timer`.  `fd` is what `timerfd_create` returns and `rc` what
`timerfd_settime` returns (both are called only when no exception was thrown before), `now`
the reading of the clock.  The result is the exception or the handle, and the state. -/
def set_timer (s : Timers) (initial interval : Int) (callback : Option Nat) (fd rc : Int)
    (now : Int) : Except SetTimerError Timer × Timers :=
  if s._timer_id_fd.length = max_timers then (Except.error SetTimerError.too_many_timers, s)
  else if initial = 0 ∧ interval = 0 then (Except.error SetTimerError.both_zero, s)
  else if initial > 0 ∧ initial < min_timer_duration then
    (Except.error SetTimerError.initial_too_small, s)
  else if interval > 0 ∧ interval < min_timer_duration then
    (Except.error SetTimerError.interval_too_small, s)
  else if rc ≠ 0 then (Except.ok ⟨0, false⟩, s)
  else
    let single_shot : Bool := interval = 0
    let data : Timer.Data := ⟨initial, interval, now, 0, 0, 0, 0⟩
    let id := (s.s_timer_id + 1) % 2 ^ 64
    (Except.ok ⟨id, true⟩,
      build_pollfds
        { s with
          s_timer_id := id,
          _timer_id_fd := map_assign s._timer_id_fd id fd,
          _timer_info := map_assign s._timer_info fd ⟨callback, single_shot, id, data⟩ })

/-- `Input::_cancel_timer`. -/
def _cancel_timer (s : Timers) (id : Nat) : Timers :=
  match map_find s._timer_id_fd id with
  | none => s
  | some fd =>
    build_pollfds
      { s with
        closed := fd :: s.closed,
        _timer_info := map_erase s._timer_info fd,
        _timer_id_fd := map_erase s._timer_id_fd id }

/-- `Input::cancel_timer`. -/
def cancel_timer (s : Timers) (t : Timer) : Timers :=
  if t.valid = false then s else _cancel_timer s t.id

/-- `Input::cancel_all_timers`: `_cancel_timer` on every id of a copy of `_timer_id_fd`. -/
def cancel_all_timers (s : Timers) : Timers :=
  s._timer_id_fd.foldl (fun st e => _cancel_timer st e.1) s

/-- The value of `data->lag` that `wait` computes at the instant `now`, in whole
milliseconds. -/
def lag_at (data : Timer.Data) (now : Int) : Int :=
  if data.trigger_count = 0 ∧ now > data.creation_time + data.initial * 1000000 then
    Int.tdiv (now - data.creation_time - data.initial * 1000000) 1000000
  else if now > data.last_trigger_time + data.interval * 1000000 then
    Int.tdiv (now - data.last_trigger_time - data.interval * 1000000) 1000000
  else 0

/-- A write through the shared pointer `data` of the timer with descriptor `fd`: the record
in the table becomes `data`. -/
def set_data (m : List (Int × TimerInfo)) (fd : Int) (data : Timer.Data) :
    List (Int × TimerInfo) :=
  m.map (fun e => if e.1 = fd then (e.1, { e.2 with data := data }) else e)

/-- The body of the loop of `wait` for one timer slot that is ready: `fd` is the descriptor
of the slot, `now` the reading of the clock and `count` the number that `::read` returns for
a periodic timer.  The record of the timer is updated in the table (the table and the handle
share it), the callback is invoked, and a single-shot timer is cancelled.  What the callback
itself does to the timers is a matter of the operations it calls. -/
def fire (s : Timers) (fd : Int) (now : Int) (count : Nat) : Timers :=
  match map_find s._timer_info fd with
  | none => s
  | some info =>
    let data : Timer.Data :=
      { info.data with
        lag := lag_at info.data now,
        last_trigger_time := now,
        trigger_count := info.data.trigger_count + 1 }
    let called : List Nat :=
      match info.callback with
      | some f => f :: s.called
      | none => s.called
    let s1 : Timers :=
      { s with _timer_info := set_data s._timer_info fd data, called := called }
    if info.single_shot then _cancel_timer s1 info.id
    else
      let missed := (data.triggers_missed + count + (2 ^ 64 - 1)) % 2 ^ 64
      { s1 with
        _timer_info := set_data s1._timer_info fd { data with triggers_missed := missed } }

/-- The timer state of a fresh `Input`: no timer, the render trigger `render_fd` that
`eventfd` returned, the static counter at 0, and `build_pollfds` run on the array `_pollfds`,
whose 18 slots hold `mem` before the constructor writes to them. -/
def fresh (render_fd : Int) (mem : List pollfd) : Timers :=
  build_pollfds
    { _timer_id_fd := [],
      _render_trigger_fd := render_fd,
      _timer_info := [],
      _pollfds := mem,
      s_timer_id := 0,
      closed := [],
      called := [] }

/-- One operation on the timers. -/
inductive Op
  | set_timer (initial interval : Int) (callback : Option Nat) (fd rc : Int) (now : Int)
  | cancel_timer (t : Timer)
  | cancel_all_timers
  | fire (fd : Int) (now : Int) (count : Nat)

/-- The state after one operation. -/
def step (s : Timers) : Op → Timers
  | Op.set_timer initial interval callback fd rc now =>
    (set_timer s initial interval callback fd rc now).2
  | Op.cancel_timer t => cancel_timer s t
  | Op.cancel_all_timers => cancel_all_timers s
  | Op.fire fd now count => fire s fd now count

/-- The state after a sequence of operations. -/
def run (s : Timers) (ops : List Op) : Timers := ops.foldl step s

end Timers

end termic
namespace termic

namespace Timers

/-- The constant `input_fd_idx`. -/
def input_fd_idx : Nat := 0

/-- The timer states in which the two tables describe the same timers: no id and no
descriptor occurs twice in `_timer_id_fd` (the system never returns a descriptor that is
still open), the entries of `_timer_info` are those of `_timer_id_fd` seen from the
descriptor, at most `max_timers` timers are registered, and `_pollfds` is the array of
`first_timer_fd_idx + max_timers` slots. -/
def WellFormed (s : Timers) : Prop :=
  (s._timer_id_fd.map Prod.fst).Nodup ∧ (s._timer_id_fd.map Prod.snd).Nodup ∧
    (s._timer_info.map (fun e => (e.2.id, e.1))).Perm s._timer_id_fd ∧
    s._timer_id_fd.length ≤ max_timers ∧
    s._pollfds.length = first_timer_fd_idx + max_timers

instance (s : Timers) : Decidable (WellFormed s) := by
  unfold WellFormed
  infer_instance

/-- The number of slots that `wait` hands to `ppoll`: `first_timer_fd_idx + timers_enabled`,
where `timers_enabled` is `_timer_info.size()`. -/
def nfds (s : Timers) : Nat := first_timer_fd_idx + s._timer_info.length

/-- The poll set: the slots of `_pollfds` that `wait` hands to `ppoll`. -/
def poll_set (s : Timers) : List pollfd := s._pollfds.take (nfds s)

/-- What one call of `ppoll` in `wait` and the calls that follow it deliver: whether `ppoll`
was interrupted (`rc == -1` and `errno == EINTR`), the value of `revents` that it stored in
each slot handed to it (0 for a slot it stored nothing in), and, for the timer slot `idx`,
the reading `now[idx]` of the clock and the number `count[idx]` that `::read` stores for a
periodic timer. -/
structure Wakeup where
  eintr : Bool
  revents : List Int
  now : List Int
  count : List Nat
  deriving DecidableEq, Repr

/-- The local array `pollfds` of `wait` after `ppoll`: the copy of `_pollfds`, with `revents`
of the slots handed to `ppoll` as the system stored them. -/
def polled (s : Timers) (w : Wakeup) : List pollfd :=
  s._pollfds.enum.map (fun e =>
    if e.1 < nfds s then { e.2 with revents := w.revents.getD e.1 0 } else e.2)

/-- The state of the timer loop of `wait`: the timers, the flag `got_event`, and the
descriptors passed to `::read`, latest first. -/
structure Service where
  timers : Timers
  got_event : Bool
  reads : List Int
  deriving DecidableEq, Repr

/-- One round of the timer loop of `wait`, for the timer slot `idx`. -/
def service_slot (pollfds : List pollfd) (w : Wakeup) (acc : Service) (idx : Nat) : Service :=
  let pfd := pollfds.getD (idx + first_timer_fd_idx) ⟨0, 0, 0⟩
  if pfd.revents > 0 then
    match map_find acc.timers._timer_info pfd.fd with
    | none => acc
    | some info =>
      let reads := if info.single_shot then acc.reads else pfd.fd :: acc.reads
      ⟨fire acc.timers pfd.fd (w.now.getD idx 0) (w.count.getD idx 0), true, reads⟩
  else acc

/-- One round of the loop `while(true)` of `Input::wait`: the result returned, or `none` when
the loop goes round again, with the timers and the descriptors passed to `::read`. -/
def wait_once (s : Timers) (w : Wakeup) : Option WaitResult × Timers × List Int :=
  let pollfds := polled s w
  let timers_enabled := s._timer_info.length
  if w.eintr then (some WaitResult.SignalReceived, s, [])
  else if (pollfds.getD input_fd_idx ⟨0, 0, 0⟩).revents > 0 then
    (some WaitResult.InputReceived, s, [])
  else if (pollfds.getD trigger_fd_idx ⟨0, 0, 0⟩).revents > 0 then
    (some WaitResult.RenderTriggered, s, [(pollfds.getD trigger_fd_idx ⟨0, 0, 0⟩).fd])
  else
    let r := (List.range timers_enabled).foldl (service_slot pollfds w) ⟨s, false, []⟩
    if r.got_event then (some WaitResult.TimerTriggered, r.timers, r.reads)
    else (none, r.timers, r.reads)

/-- The record of a timer after the block `if(data)` of `wait` at the instant `now`: `lag`,
`last_trigger_time` and `trigger_count` are updated as in `fire`. -/
def triggered (data : Timer.Data) (now : Int) : Timer.Data :=
  { data with
    lag := lag_at data now,
    last_trigger_time := now,
    trigger_count := data.trigger_count + 1 }

end Timers

end termic
namespace termic

open event (Event)

/-- The value `static_cast<std::size_t>(-1)`. -/
def SIZE_MAX : Nat := 2 ^ 64 - 1

namespace App

/-- The calls that `App` makes to its virtual handlers and to its collaborators, which the
state records in the order in which they are made: `dispatch_event e` stands for the call
`dispatch_event(e)`, which hands `e` to the handler of its kind. -/
inductive Call
  | on_app_start
  | on_app_exit (code : Int)
  | restore_terminal
  | get_terminal_size
  | set_size (size : Nat × Nat)
  | update
  | dispatch_event (e : Event)
  deriving DecidableEq, Repr

end App

/-- The part of the state of `App` that `run` and `shutdown` use.  `screen_size` is what
`_screen.size()` returns and `calls` the calls made so far, earliest first. -/
structure App where
  _initialized : Bool
  _should_quit : Bool
  _emit_resize_event : Bool
  _internal_events : List Event
  screen_size : Nat × Nat
  calls : List App.Call
  deriving DecidableEq, Repr

namespace App

/-- `App::shutdown`. -/
def shutdown (a : App) : App :=
  let a1 := { a with calls := a.calls ++ [Call.on_app_exit 0] }
  if a1._initialized then
    { a1 with _initialized := false, calls := a1.calls ++ [Call.restore_terminal] }
  else a1

/-- `App::dispatch_event`, as the call it is recorded as. -/
def dispatch_event (a : App) (e : Event) : App :=
  { a with calls := a.calls ++ [Call.dispatch_event e] }

/-- `App::enqueue_resize_event`. -/
def enqueue_resize_event (a : App) (size : Nat × Nat) : App :=
  { a with _internal_events := a._internal_events ++ [Event.Resize size a.screen_size] }

/-- The block `if(_emit_resize_event)` of `App::run`; `size` is what `get_terminal_size`
returns.  After `_screen.set_size(size)` the size of the screen is `size`. -/
def resize_block (a : App) (size : Nat × Nat) : App :=
  if a._emit_resize_event then
    let a1 := { a with _emit_resize_event := false }
    let before := a1.screen_size
    let first_resize : Bool := before.1 = 0 ∧ before.2 = 0
    let a2 := { a1 with calls := a1.calls ++ [Call.get_terminal_size] }
    let a3 := enqueue_resize_event a2 size
    let a4 := { a3 with screen_size := size, calls := a3.calls ++ [Call.set_size size] }
    if first_resize then { a4 with calls := a4.calls ++ [Call.on_app_start] } else a4
  else a

/-- The loop of `App::run` over the internal events, and the call of `clear` after it. -/
def drain_internal_events (a : App) : App :=
  { a._internal_events.foldl dispatch_event a with _internal_events := [] }

/-- The loop of `App::run` over the events that `_input.read()` returned; `prev` holds
`prev_mx` and `prev_my`. -/
def dispatch_input (a : App) (prev : Nat × Nat) : List Event → App × (Nat × Nat)
  | [] => (a, prev)
  | Event.MouseMove x y m :: rest =>
    if x = prev.1 ∧ y = prev.2 then dispatch_input a prev rest
    else dispatch_input (dispatch_event a (Event.MouseMove x y m)) (x, y) rest
  | e :: rest => dispatch_input (dispatch_event a e) prev rest

/-- What one iteration of the loop of `App::run` receives from outside: the size that
`get_terminal_size` returns if it is called, the events that `_input.read()` returns, whether
a handler called during the iteration calls `quit()`, and whether `SIGWINCH` arrives during
the iteration. -/
structure Tick where
  terminal_size : Nat × Nat
  events : List Event
  quit : Bool
  sigwinch : Bool
  deriving DecidableEq, Repr

/-- The body of the loop `while(not _should_quit)` of `App::run`. -/
def iteration (a : App) (prev : Nat × Nat) (t : Tick) : App × (Nat × Nat) :=
  let a1 := resize_block a t.terminal_size
  let a2 := drain_internal_events a1
  let a3 := { a2 with calls := a2.calls ++ [Call.update] }
  let r := dispatch_input a3 prev t.events
  ({ r.1 with
      _should_quit := r.1._should_quit || t.quit,
      _emit_resize_event := r.1._emit_resize_event || t.sigwinch }, r.2)

/-- The loop of `App::run`, for the ticks of its successive iterations. -/
def run_loop (a : App) (prev : Nat × Nat) : List Tick → App × (Nat × Nat)
  | [] => (a, prev)
  | t :: rest =>
    if a._should_quit then (a, prev)
    else run_loop (iteration a prev t).1 (iteration a prev t).2 rest

/-- `App::run`, for the ticks of its successive iterations. -/
def run (a : App) (ticks : List Tick) : App :=
  (run_loop { a with _emit_resize_event := true } (SIZE_MAX, SIZE_MAX) ticks).1

/-- Whether an event is a `MouseMove` event (`std::get_if<event::MouseMove>` succeeds). -/
def is_mouse_move : Event → Bool
  | Event.MouseMove _ _ _ => true
  | _ => false

/-- The coordinates of the `MouseMove` events among the calls of `dispatch_event`, in the
order of the calls. -/
def dispatched_moves : List Call → List (Nat × Nat)
  | [] => []
  | Call.dispatch_event (Event.MouseMove x y _) :: rest => (x, y) :: dispatched_moves rest
  | _ :: rest => dispatched_moves rest

/-- The events of the calls of `dispatch_event`, in the order of the calls. -/
def dispatched : List Call → List Event
  | [] => []
  | Call.dispatch_event e :: rest => e :: dispatched rest
  | _ :: rest => dispatched rest

end App

end termic
namespace termic

/-! ## The screen -/

/-- The struct `Pos` (column `x`, row `y`). -/
structure Pos where
  x : Nat
  y : Nat
  deriving DecidableEq, Repr

/-- The struct `Rectangle`: its top left corner and its size. -/
structure Rectangle where
  top_left : Pos
  width : Nat
  height : Nat
  deriving DecidableEq, Repr

/-- A colour, as its code. -/
abbrev Color := Nat
/-- A style, as its bit set. -/
abbrev Style := Nat

/-- Modelled from the spec: the colour `color::Default`; the header of the colours is not
among the sources. -/
def color.Default : Color := 0
/-- Modelled from the spec: the colour `color::NoChange` ("a `NoChange` request for a
component suppresses emission for that component"). -/
def color.NoChange : Color := 1
/-- Modelled from the spec: the style `style::Default`. -/
def style.Default : Style := 0

/-- Modelled from the spec: the struct `Look`, whose header is not among the sources: the
foreground, the background and the style of a cell. -/
structure Look where
  fg : Color
  bg : Color
  style : Style
  deriving DecidableEq, Repr

/-- Modelled from the spec: the struct `Cell` of `cell.h`, which is not among the sources: a
grapheme (its bytes and its width in columns), its look, and whether the cell is virtual (the
right half of a grapheme of width 2). -/
structure Cell where
  ch : List Byte
  width : Nat
  look : Look
  is_virtual : Bool
  deriving DecidableEq, Repr

/-- Modelled from the spec: the cell that a buffer starts with ("newly-exposed cells start at
defaults"). -/
def Cell.default : Cell := ⟨[], 1, ⟨color.Default, color.Default, style.Default⟩, false⟩

/-- Modelled from the spec: the virtual cell that follows a grapheme of width 2. -/
def Cell.virtual (lk : Look) : Cell := ⟨[], 0, lk, true⟩

/-- The struct `ScreenBuffer`: the rows of cells, and the width and the height. -/
structure ScreenBuffer where
  _rows : List (List Cell)
  _width : Nat
  _height : Nat
  deriving DecidableEq, Repr

namespace ScreenBuffer

/-- The cell at column `x` of row `y`. -/
def cell (b : ScreenBuffer) (x y : Nat) : Cell := (b._rows.getD y []).getD x Cell.default

/-- The buffer with the cell at column `x` of row `y` replaced. -/
def put (b : ScreenBuffer) (x y : Nat) (c : Cell) : ScreenBuffer :=
  { b with _rows := b._rows.set y ((b._rows.getD y []).set x c) }

/-- Modelled from the spec: a buffer of the given size with every cell at its default. -/
def blank (width height : Nat) : ScreenBuffer :=
  ⟨List.replicate height (List.replicate width Cell.default), width, height⟩

end ScreenBuffer

/-- What the renderer sends to the terminal: a cursor position (`CUP`, 1-based), the
sub-parameters of one `SGR` sequence (style, foreground, background, each only when it is
sent), or the bytes of a grapheme. -/
inductive Out
  | CUP (row col : Nat)
  | SGR (style : Option Style) (fg bg : Option Color)
  | grapheme (bytes : List Byte)
  deriving DecidableEq, Repr

/-- The struct `Screen::Cursor`: what the terminal is believed to hold. -/
structure Cursor where
  position : Pos
  fg : Color
  bg : Color
  style : Style
  deriving DecidableEq, Repr

/-- The struct `Screen`.  `written` is what has been sent to the descriptor `_fd`. -/
structure Screen where
  _client_cursor : Pos
  _fd : Int
  _back_buffer : ScreenBuffer
  _front_buffer : ScreenBuffer
  _cursor : Cursor
  _output_buffer : List Out
  written : List Out
  deriving DecidableEq, Repr

namespace Screen

/-- Modelled from the spec: `Screen::set_cell`, whose body is not among the sources.  "Writes
the grapheme into the cell at `pos` and, if `width==2`, marks the cell at `pos+(1,0)` as
virtual.  Writing at a virtual cell position first clears the parent cell (both halves) to the
default and then writes.  Out-of-bounds writes are silently discarded"; "writing a width-2
grapheme at the last column clears just that cell without writing its virtual partner". -/
def set_cell (s : Screen) (pos : Pos) (ch : List Byte) (width : Nat) (lk : Look) : Screen :=
  let b := s._back_buffer
  if pos.x < b._width ∧ pos.y < b._height then
    let b1 :=
      if (b.cell pos.x pos.y).is_virtual then
        (b.put (pos.x - 1) pos.y Cell.default).put pos.x pos.y Cell.default
      else b
    if width = 2 ∧ ¬ pos.x + 1 < b._width then
      { s with _back_buffer := b1.put pos.x pos.y Cell.default }
    else
      let b2 := b1.put pos.x pos.y ⟨ch, width, lk, false⟩
      if width = 2 then { s with _back_buffer := b2.put (pos.x + 1) pos.y (Cell.virtual lk) }
      else { s with _back_buffer := b2 }
  else s

/-- Modelled from the spec: `Screen::clear(rect, bg, fg)`, whose body is not among the
sources: the cells of the back buffer inside `rect` become blank cells with the background
`bg` and the foreground `fg`, a colour `NoChange` keeping what the cell has. -/
def clear (s : Screen) (rect : Rectangle) (bg fg : Color) : Screen :=
  let inside := fun (x y : Nat) =>
    decide (rect.top_left.x ≤ x ∧ x < rect.top_left.x + rect.width ∧
      rect.top_left.y ≤ y ∧ y < rect.top_left.y + rect.height)
  let blank := fun (c : Cell) =>
    (⟨[0x20], 1, ⟨if fg = color.NoChange then c.look.fg else fg,
      if bg = color.NoChange then c.look.bg else bg, style.Default⟩, false⟩ : Cell)
  let rows := s._back_buffer._rows.enum.map (fun r =>
    r.2.enum.map (fun c => if inside c.1 r.1 then blank c.2 else c.2))
  { s with _back_buffer := { s._back_buffer with _rows := rows } }

/-- Modelled from the spec: `Screen::print(pos, s, lk)`, whose body is not among the sources,
on a text given as its graphemes (bytes and width): each grapheme is written with `set_cell`
and the client cursor advances by its width. -/
def print (s : Screen) (pos : Pos) (text : List (List Byte × Nat)) (lk : Look) : Screen :=
  text.foldl (fun st g =>
    { set_cell st st._client_cursor g.1 g.2 lk with
      _client_cursor := ⟨st._client_cursor.x + g.2, st._client_cursor.y⟩ })
    { s with _client_cursor := pos }

/-- Modelled from the spec: step 2 of the flush algorithm for the changed cell `c` at
`(x, y)`: "ensure the physical cursor is at `(x,y)` (emit `CUP` only when the last emitted
position ≠ target), ensure foreground/background/style match (emit only the SGR
sub-parameters that differ from the current cursor state), then emit the grapheme bytes".
The result is the cursor state and the output buffer. -/
def emit_cell (st : Cursor × List Out) (x y : Nat) (c : Cell) : Cursor × List Out :=
  let cur := st.1
  let out1 := if cur.position = ⟨x, y⟩ then st.2 else st.2 ++ [Out.CUP (y + 1) (x + 1)]
  let sty := if c.look.style = cur.style then none else some c.look.style
  let fg := if c.look.fg = color.NoChange ∨ c.look.fg = cur.fg then none else some c.look.fg
  let bg := if c.look.bg = color.NoChange ∨ c.look.bg = cur.bg then none else some c.look.bg
  let out2 :=
    if sty = none ∧ fg = none ∧ bg = none then out1 else out1 ++ [Out.SGR sty fg bg]
  (⟨⟨x + c.width, y⟩, fg.getD cur.fg, bg.getD cur.bg, sty.getD cur.style⟩,
    out2 ++ [Out.grapheme c.ch])

/-- Modelled from the spec: steps 1 to 3 of the flush algorithm on one row, from column `x`
on: "compare back vs front"; if changed, emit, then "copy the back cell to the front".  The
result is the cursor state with the output buffer and the new front row. -/
def flush_row (st : Cursor × List Out) (y : Nat) :
    Nat → List Cell → List Cell → (Cursor × List Out) × List Cell
  | x, b :: back, f :: front =>
    let r := if b ≠ f then (emit_cell st x y b, b) else (st, f)
    let rest := flush_row r.1 y (x + 1) back front
    (rest.1, r.2 :: rest.2)
  | _, _, front => (st, front)

/-- Modelled from the spec: the flush algorithm over the rows, "in row-major order", from row
`y` on. -/
def flush_rows (st : Cursor × List Out) :
    Nat → List (List Cell) → List (List Cell) → (Cursor × List Out) × List (List Cell)
  | y, b :: back, f :: front =>
    let r := flush_row st y 0 b f
    let rest := flush_rows r.1 (y + 1) back front
    (rest.1, r.2 :: rest.2)
  | _, _, front => (st, front)

/-- Modelled from the spec: `Screen::update`, whose body is not among the sources: the flush
algorithm of section 4.3, with "one fflush at the end". -/
def update (s : Screen) : Screen :=
  let r := flush_rows (s._cursor, s._output_buffer) 0 s._back_buffer._rows
    s._front_buffer._rows
  { s with
    _front_buffer := { s._front_buffer with _rows := r.2 },
    _cursor := r.1.1,
    _output_buffer := [],
    written := s.written ++ r.1.2 }

/-- Modelled from the spec: "Dirty cell: a back-buffer cell that differs from its
front-buffer counterpart." -/
def dirty (s : Screen) (x y : Nat) : Bool :=
  decide (s._back_buffer.cell x y ≠ s._front_buffer.cell x y)

/-- A write to the back buffer. -/
inductive Write
  | set_cell (pos : Pos) (ch : List Byte) (width : Nat) (lk : Look)
  | clear (rect : Rectangle) (bg fg : Color)
  | print (pos : Pos) (text : List (List Byte × Nat)) (lk : Look)
  deriving DecidableEq, Repr

/-- The screen after one write to the back buffer. -/
def write (s : Screen) : Write → Screen
  | Write.set_cell pos ch width lk => set_cell s pos ch width lk
  | Write.clear rect bg fg => clear s rect bg fg
  | Write.print pos text lk => print s pos text lk

/-- The screens whose two buffers have the same size: row for row, the front buffer has as
many cells as the back buffer. -/
def SameSize (s : Screen) : Prop :=
  s._front_buffer._rows.map List.length = s._back_buffer._rows.map List.length

/-- Modelled from the spec: a screen of the given size on which nothing has been written. -/
def blank (fd : Int) (width height : Nat) : Screen :=
  ⟨⟨0, 0⟩, fd, ScreenBuffer.blank width height, ScreenBuffer.blank width height,
    ⟨⟨0, 0⟩, color.Default, color.Default, style.Default⟩, [], []⟩

end Screen

end termic
namespace termic

namespace utf8

/-- The table `spacechars` of `is_space`. -/
def spacechars : List Nat := [0x00A0, 0x202F, 0xFEFF]

/-- The table `breaking_spacechars` of `is_brk_space`. -/
def breaking_spacechars : List Nat :=
  [0x0020, 0x1680, 0x180E, 0x2000, 0x2001, 0x2002, 0x2003, 0x2004, 0x2005, 0x2006, 0x2007,
    0x2008, 0x2009, 0x200A, 0x200B, 0x205F, 0x3000]

/-- The loop of `utf8::is_brk_space` over the rest of its table: it returns `false` at the
first entry above the codepoint, `true` at an entry equal to it, and `false` at the end. -/
def is_brk_space_loop : List Nat → Nat → Bool
  | [], _ => false
  | sc :: rest, codepoint =>
    if sc > codepoint then false
    else if sc = codepoint then true
    else is_brk_space_loop rest codepoint

/-- `utf8::is_brk_space`. -/
def is_brk_space (codepoint : Nat) : Bool := is_brk_space_loop breaking_spacechars codepoint

/-- The loop of `utf8::is_space` over the rest of its table: it returns
`is_brk_space(codepoint)` at the first entry above the codepoint and at the end, `true` at an
entry equal to the codepoint. -/
def is_space_loop : List Nat → Nat → Bool
  | [], codepoint => is_brk_space codepoint
  | sc :: rest, codepoint =>
    if sc > codepoint then is_brk_space codepoint
    else if sc = codepoint then true
    else is_space_loop rest codepoint

/-- `utf8::is_space`. -/
def is_space (codepoint : Nat) : Bool := is_space_loop spacechars codepoint

end utf8

namespace Input

/-- The modifier number `m` of a byte sequence of the form `ESC [ <n> ; <m> <final byte>`,
with `n` a decimal number and `m` a digit; `none` for a sequence of another form. -/
def modifier_parameter (seq : List Byte) : Option Nat :=
  match seq with
  | 0x1b :: 0x5b :: rest =>
    match rest.dropWhile isdigit with
    | [0x3b, m, _] =>
      if (rest.takeWhile isdigit).length ≠ 0 ∧ isdigit m then some (m - 0x30) else none
    | _ => none
  | _ => none

end Input

namespace Timers

/-- The indices of `_pollfds` that the loop of `build_pollfds` writes to, from `idx` on: one
for each entry of `_timer_id_fd`. -/
def timer_slots : Nat → List (Nat × Int) → List Nat
  | _, [] => []
  | idx, _ :: rest => idx :: timer_slots (idx + 1) rest

/-- The indices of `_pollfds` that `build_pollfds` writes to. -/
def written_slots (s : Timers) : List Nat :=
  0 :: trigger_fd_idx :: timer_slots first_timer_fd_idx s._timer_id_fd

end Timers

end termic

namespace termic

open event (Event)
open key (Key Modifier)

namespace Input

/-! ## The stream -/

theorem revert_eq (stream chars : List Byte) : revert stream chars = chars ++ stream := by
  unfold revert
  induction chars with
  | nil => rfl
  | cons c cs ih =>
    rw [List.reverse_cons, List.foldl_append, List.foldl_cons, List.foldl_nil, ih]
    rfl

theorem read_of_fetch {s : Input} {w : WaitResult} {arrived inp : List Byte}
    (junk : List Byte) (now : Nat) (h : fetch s w arrived = some inp) :
    read s w arrived junk now = decode { s with _in := [] } now inp junk := by
  unfold fetch at h
  unfold read
  by_cases h0 : s._in.length = 0
  · simp only [h0, if_true, true_and] at h ⊢
    by_cases h1 : w = WaitResult.TimerTriggered ∨ w = WaitResult.SignalReceived
    · simp [h1] at h
    · by_cases h2 : w = WaitResult.RenderTriggered
      · simp [h1, h2] at h
      · simp only [h1, h2, if_false] at h ⊢
        cases h
        rfl
  · simp only [h0, if_false, false_and] at h ⊢
    cases h
    rfl

/-! ## The key table -/

set_option maxRecDepth 100000 in
theorem nodup_codes_literal :
    ((key_sequences_literal.map KeySequence.sequence).map sequence_code).Nodup := by
  decide!

theorem nodup_literal : (key_sequences_literal.map KeySequence.sequence).Nodup :=
  List.Nodup.of_map _ nodup_codes_literal

theorem check_sequences_iff (seen : Seen) (idx : Nat) (l : List KeySequence) :
    check_sequences seen idx l = true ↔
      (∀ k ∈ l, ∀ e ∈ seen, e.1 ≠ k.sequence) ∧ (l.map KeySequence.sequence).Nodup := by
  induction l generalizing seen idx with
  | nil => simp [check_sequences]
  | cons k ks ih =>
    rw [check_sequences]
    by_cases h : (seen.find? (fun e => decide (e.1 = k.sequence))).isSome = true
    · rw [if_pos h]
      rw [List.find?_isSome] at h
      obtain ⟨e, he, hek⟩ := h
      simp only [decide_eq_true_eq] at hek
      constructor
      · intro hc; cases hc
      · rintro ⟨hall, -⟩
        exact absurd hek (hall k (List.mem_cons_self _ _) e he)
    · rw [if_neg h, ih]
      rw [List.find?_isSome] at h
      simp only [decide_eq_true_eq, not_exists, not_and] at h
      simp only [List.mem_cons, List.map_cons, List.nodup_cons, List.mem_map, not_exists,
        not_and, forall_eq_or_imp]
      constructor
      · rintro ⟨hall, hnd⟩
        refine ⟨⟨h, fun a ha e he => (hall a ha).2 e he⟩, ?_, hnd⟩
        intro a ha heq
        exact (hall a ha).1 heq.symm
      · rintro ⟨⟨-, hall⟩, hk, hnd⟩
        exact ⟨fun a ha => ⟨fun heq => hk a ha heq.symm, hall a ha⟩, hnd⟩

theorem setup_keys_of_nodup {l : List KeySequence}
    (hn : (l.map KeySequence.sequence).Nodup) : setup_keys l = (true, sort_sequences l) := by
  have h : check_sequences [] 0 l = true :=
    (check_sequences_iff [] 0 l).2 ⟨fun _ _ e he => absurd he (List.not_mem_nil e), hn⟩
  unfold setup_keys
  rw [if_pos h]

theorem setup_keys_literal :
    setup_keys key_sequences_literal = (true, sort_sequences key_sequences_literal) :=
  setup_keys_of_nodup nodup_literal

theorem sort_sequences_perm (t : List KeySequence) : (sort_sequences t).Perm t :=
  List.perm_insertionSort _ t

theorem sort_sequences_sorted (t : List KeySequence) :
    (sort_sequences t).Pairwise longest_first := by
  haveI : IsTotal KeySequence longest_first := ⟨fun a b => Nat.le_total _ _⟩
  haveI : IsTrans KeySequence longest_first := ⟨fun a b c h1 h2 => Nat.le_trans h2 h1⟩
  exact List.sorted_insertionSort longest_first t

theorem sortedTable_sort : SortedTable (sort_sequences key_sequences_literal) :=
  And.intro (sort_sequences_perm _) (sort_sequences_sorted _)

theorem setup_keys_snd_of_nodup {l : List KeySequence}
    (hn : (l.map KeySequence.sequence).Nodup) : (setup_keys l).2 = sort_sequences l := by
  rw [setup_keys_of_nodup hn]

theorem setup_keys_fst_of_nodup {l : List KeySequence}
    (hn : (l.map KeySequence.sequence).Nodup) : (setup_keys l).1 = true := by
  rw [setup_keys_of_nodup hn]

theorem sortedTable_setup_keys : SortedTable (setup_keys key_sequences_literal).2 := by
  rw [setup_keys_snd_of_nodup nodup_literal]
  exact sortedTable_sort

theorem SortedTable.nodup {t : List KeySequence} (h : SortedTable t) :
    (t.map KeySequence.sequence).Nodup :=
  ((h.1.map KeySequence.sequence).nodup_iff).2 nodup_literal

set_option maxRecDepth 100000 in
theorem literal_shape : ∀ k ∈ key_sequences_literal,
    1 ≤ k.sequence.length ∧ k.sequence.length ≤ 7 ∧
      focus_in.isPrefixOf k.sequence = false ∧ focus_out.isPrefixOf k.sequence = false := by
  decide!

theorem SortedTable.shape {t : List KeySequence} (h : SortedTable t) {k : KeySequence}
    (hk : k ∈ t) :
    1 ≤ k.sequence.length ∧ k.sequence.length ≤ 7 ∧
      focus_in.isPrefixOf k.sequence = false ∧ focus_out.isPrefixOf k.sequence = false :=
  literal_shape k (h.1.mem_iff.1 hk)

/-! ## The key-table scan -/

theorem scan_keys_some {table : List KeySequence} {inp : List Byte} {k : KeySequence}
    (h : scan_keys table inp = some k) : k ∈ table ∧ k.sequence <+: inp := by
  unfold scan_keys at h
  refine ⟨List.mem_of_find?_eq_some h, ?_⟩
  have := List.find?_some h
  simpa [List.isPrefixOf_iff_prefix] using this

theorem scan_keys_longest {table : List KeySequence} {inp : List Byte} {k : KeySequence}
    (hs : table.Pairwise longest_first) (h : scan_keys table inp = some k) :
    ∀ k' ∈ table, k'.sequence <+: inp → k'.sequence.length ≤ k.sequence.length := by
  induction table with
  | nil => intro k' hk'; cases hk'
  | cons a t ih =>
    rw [List.pairwise_cons] at hs
    unfold scan_keys at h ih
    rw [List.find?_cons] at h
    intro k' hk' hpre
    by_cases ha : a.sequence.isPrefixOf inp = true
    · simp only [ha] at h
      cases h
      rcases List.mem_cons.1 hk' with rfl | hk'
      · exact le_refl _
      · exact hs.1 k' hk'
    · simp only [ha] at h
      rcases List.mem_cons.1 hk' with rfl | hk'
      · exact absurd (List.isPrefixOf_iff_prefix.2 hpre) ha
      · exact ih hs.2 h k' hk' hpre

theorem scan_keys_exists {table : List KeySequence} {inp : List Byte}
    (h : ∃ k ∈ table, k.sequence <+: inp) : ∃ k, scan_keys table inp = some k := by
  obtain ⟨k, hk, hpre⟩ := h
  unfold scan_keys
  cases hf : table.find? (fun kseq => kseq.sequence.isPrefixOf inp) with
  | some k0 => exact ⟨k0, rfl⟩
  | none =>
    rw [List.find?_eq_none] at hf
    exact absurd (List.isPrefixOf_iff_prefix.2 hpre) (hf k hk)

theorem prefix_eq_of_length_eq {a b l : List Byte} (ha : a <+: l) (hb : b <+: l)
    (h : a.length = b.length) : a = b :=
  (List.prefix_of_prefix_length_le ha hb (le_of_eq h)).eq_of_length h

/-- In a table with pairwise different sequences, sorted longest first, the scan returns the
entry with the longest matching sequence, and that entry is the only one of its length. -/
theorem scan_keys_unique {table : List KeySequence} {inp : List Byte} {k k' : KeySequence}
    (hs : table.Pairwise longest_first) (hn : (table.map KeySequence.sequence).Nodup)
    (h : scan_keys table inp = some k) (hk' : k' ∈ table) (hpre : k'.sequence <+: inp)
    (hlen : k.sequence.length ≤ k'.sequence.length) : k' = k := by
  obtain ⟨hk, hkpre⟩ := scan_keys_some h
  have hle := scan_keys_longest hs h k' hk' hpre
  have hseq : k'.sequence = k.sequence :=
    prefix_eq_of_length_eq hpre hkpre (le_antisymm hle hlen)
  exact List.inj_on_of_nodup_map hn hk' hk hseq

end Input

end termic

namespace termic

open event (Event)
open key (Key Modifier)

namespace Input

/-! ## The stages of `read` -/

theorem mouse_stage_short {s : Input} {now : Nat} {inp junk : List Byte}
    (h : inp.length < 9) : mouse_stage s now inp junk = Except.ok (none, s) := by
  unfold mouse_stage
  rw [if_neg]
  exact fun hc => absurd hc.1 (by omega)

theorem decode_of_mouse_none {s s1 : Input} {now : Nat} {inp junk : List Byte}
    (h : mouse_stage s now inp junk = Except.ok (none, s1)) :
    decode s now inp junk = decode_rest s1 inp := by
  unfold decode
  rw [h]

theorem decode_rest_key {s : Input} {inp : List Byte} {k : KeySequence}
    (hfi : focus_in.isPrefixOf inp = false) (hfo : focus_out.isPrefixOf inp = false)
    (hscan : scan_keys s._key_sequences inp = some k) :
    decode_rest s inp =
      (Except.ok [Event.Key k.key k.mods],
        { s with _in := inp.drop k.sequence.length ++ s._in }) := by
  have hle : ¬ inp.length < k.sequence.length :=
    Nat.not_lt.2 (scan_keys_some hscan).2.length_le
  unfold decode_rest revert_substr
  simp only [hfi, hfo, hscan, and_false, if_false, revert_eq, Bool.false_eq_true, hle]

theorem scan_keys_self {table : List KeySequence} {k : KeySequence}
    (hs : table.Pairwise longest_first) (hn : (table.map KeySequence.sequence).Nodup)
    (hk : k ∈ table) : scan_keys table k.sequence = some k := by
  obtain ⟨k0, h0⟩ := scan_keys_exists ⟨k, hk, List.prefix_refl _⟩
  have hlen : k0.sequence.length ≤ k.sequence.length := (scan_keys_some h0).2.length_le
  rw [h0, scan_keys_unique hs hn h0 hk (List.prefix_refl _) hlen]

/-- Claim C1. For every entry `k` of the key table, whatever order `std::sort` left it in,
`read` on an input that consists of exactly the bytes `k.sequence` returns the single event
`Key{k.key, k.mods}` and leaves the stream empty: every byte is consumed and none is pushed
back. -/
theorem read_key_sequence (s : Input) (w : WaitResult) (arrived junk : List Byte) (now : Nat)
    (k : KeySequence) (ht : SortedTable s._key_sequences) (hk : k ∈ s._key_sequences)
    (hb : fetch s w arrived = some k.sequence) :
    read s w arrived junk now =
      (Except.ok [Event.Key k.key k.mods], { s with _in := [] }) := by
  obtain ⟨-, h7, hfi, hfo⟩ := ht.shape hk
  rw [read_of_fetch junk now hb, decode_of_mouse_none (mouse_stage_short (by omega)),
    decode_rest_key (s := { s with _in := [] }) hfi hfo (scan_keys_self ht.2 ht.nodup hk)]
  simp

/-- Claim C2. For an input that the mouse stage and the focus stage do not take and that
starts with at least one sequence of the key table, the scan of `read` returns the entry whose
sequence is the longest table sequence the input starts with (no other entry matches with that
length), `read` returns its `Key` event, and exactly the bytes after that sequence are pushed
back. -/
theorem read_longest_key (s : Input) (w : WaitResult) (arrived junk : List Byte) (now : Nat)
    (inp : List Byte) (ht : SortedTable s._key_sequences)
    (hb : fetch s w arrived = some inp)
    (hmouse : mouse_stage { s with _in := [] } now inp junk =
      Except.ok (none, { s with _in := [] }))
    (hfocus : ¬ focus_in <+: inp ∧ ¬ focus_out <+: inp)
    (hex : ∃ k ∈ s._key_sequences, k.sequence <+: inp) :
    ∃ k ∈ s._key_sequences, k.sequence <+: inp ∧
      (∀ k' ∈ s._key_sequences, k'.sequence <+: inp →
        k'.sequence.length ≤ k.sequence.length ∧
          (k'.sequence.length = k.sequence.length → k' = k)) ∧
      scan_keys s._key_sequences inp = some k ∧
      read s w arrived junk now =
        (Except.ok [Event.Key k.key k.mods],
          { s with _in := inp.drop k.sequence.length }) := by
  obtain ⟨k, hscan⟩ := scan_keys_exists hex
  obtain ⟨hk, hpre⟩ := scan_keys_some hscan
  refine ⟨k, hk, hpre, ?_, hscan, ?_⟩
  · intro k' hk' hpre'
    exact ⟨scan_keys_longest ht.2 hscan k' hk' hpre',
      fun h => scan_keys_unique ht.2 ht.nodup hscan hk' hpre' (le_of_eq h.symm)⟩
  · have hfi : focus_in.isPrefixOf inp = false :=
      Bool.eq_false_iff.2 (fun h => hfocus.1 (List.isPrefixOf_iff_prefix.1 h))
    have hfo : focus_out.isPrefixOf inp = false :=
      Bool.eq_false_iff.2 (fun h => hfocus.2 (List.isPrefixOf_iff_prefix.1 h))
    rw [read_of_fetch junk now hb, decode_of_mouse_none hmouse,
      decode_rest_key (s := { s with _in := [] }) hfi hfo hscan]
    simp

/-- Claim C4. After `setup_keys` has run on the built-in table it has returned `true`, no two
entries of the table have the same byte sequence, the entries are ordered by sequence length,
longest first, and the table is a permutation of the literal in the source. -/
theorem setup_keys_builtin :
    (setup_keys key_sequences_literal).1 = true ∧
      ((setup_keys key_sequences_literal).2.map KeySequence.sequence).Nodup ∧
      (setup_keys key_sequences_literal).2.Pairwise
        (fun a b => b.sequence.length ≤ a.sequence.length) ∧
      (setup_keys key_sequences_literal).2.Perm key_sequences_literal :=
  ⟨setup_keys_fst_of_nodup nodup_literal, sortedTable_setup_keys.nodup,
    sortedTable_setup_keys.2, sortedTable_setup_keys.1⟩

end Input

end termic

namespace termic

open event (Event)
open key (Key Modifier)

namespace Input

theorem init_eq (t0 d : Nat) :
    init t0 d = Input.mk [] (sort_sequences key_sequences_literal) t0 d := by
  unfold init
  rw [setup_keys_snd_of_nodup nodup_literal]

theorem sortedTable_mk (b : List Byte) (t0 d : Nat) :
    SortedTable (Input.mk b (sort_sequences key_sequences_literal) t0 d)._key_sequences :=
  sortedTable_sort

theorem mem_mk_of_mem_literal (b : List Byte) (t0 d : Nat) {k : KeySequence}
    (hk : k ∈ key_sequences_literal) :
    k ∈ (Input.mk b (sort_sequences key_sequences_literal) t0 d)._key_sequences :=
  sortedTable_sort.1.mem_iff.2 hk

set_option maxRecDepth 100000 in
/-- The scenarios of claim C1 on the table that `setup_keys` builds: `1b 5b 41` is
`Key{UP, NoMod}`, `1b 5b 31 3b 35 41` is `Key{UP, CTRL}`, `1b` alone is `Key{ESCAPE, NoMod}`
and `1b 1b` is `Key{ESCAPE, ALT}`, each with nothing left on the stream. -/
theorem read_key_sequence_witness :
    read { init 0 300 with _in := [0x1b, 0x5b, 0x41] } WaitResult.InputReceived [] [] 1000 =
        (Except.ok [Event.Key Key.UP key.NoMod], { init 0 300 with _in := [] }) ∧
      read { init 0 300 with _in := [0x1b, 0x5b, 0x31, 0x3b, 0x35, 0x41] }
          WaitResult.InputReceived [] [] 1000 =
        (Except.ok [Event.Key Key.UP key.CTRL], { init 0 300 with _in := [] }) ∧
      read { init 0 300 with _in := [0x1b] } WaitResult.InputReceived [] [] 1000 =
        (Except.ok [Event.Key Key.ESCAPE key.NoMod], { init 0 300 with _in := [] }) ∧
      read { init 0 300 with _in := [0x1b, 0x1b] } WaitResult.InputReceived [] [] 1000 =
        (Except.ok [Event.Key Key.ESCAPE key.ALT], { init 0 300 with _in := [] }) := by
  rw [init_eq]
  exact
  ⟨read_key_sequence _ _ _ _ _ (KeySequence.mk [0x1b, 0x5b, 0x41] key.NoMod Key.UP)
      (sortedTable_mk _ _ _)
      (mem_mk_of_mem_literal _ _ _ (List.getElem?_mem (n := 60) (by decide!))) rfl,
    read_key_sequence _ _ _ _ _ (KeySequence.mk [0x1b, 0x5b, 0x31, 0x3b, 0x35, 0x41] key.CTRL
      Key.UP) (sortedTable_mk _ _ _)
      (mem_mk_of_mem_literal _ _ _ (List.getElem?_mem (n := 132) (by decide!))) rfl,
    read_key_sequence _ _ _ _ _ (KeySequence.mk [0x1b] key.NoMod Key.ESCAPE)
      (sortedTable_mk _ _ _)
      (mem_mk_of_mem_literal _ _ _ (List.getElem?_mem (n := 233) (by decide!))) rfl,
    read_key_sequence _ _ _ _ _ (KeySequence.mk [0x1b, 0x1b] key.ALT Key.ESCAPE)
      (sortedTable_mk _ _ _)
      (mem_mk_of_mem_literal _ _ _ (List.getElem?_mem (n := 234) (by decide!))) rfl⟩


set_option maxRecDepth 100000 in
/-- The scenario of claim C2: on the input `ESC [ 1 ; 5 A x` the scan finds the longest
matching entry, which is `Key{UP, CTRL}` with its six bytes consumed and `x` pushed back, and
not `Key{ESCAPE}` with one byte. -/
theorem read_longest_key_witness :
    (∃ k ∈ (Input.mk [0x1b, 0x5b, 0x31, 0x3b, 0x35, 0x41, 0x78]
          (sort_sequences key_sequences_literal) 0 300)._key_sequences,
        k.sequence <+: [0x1b, 0x5b, 0x31, 0x3b, 0x35, 0x41, 0x78] ∧
        (∀ k' ∈ (Input.mk [0x1b, 0x5b, 0x31, 0x3b, 0x35, 0x41, 0x78]
            (sort_sequences key_sequences_literal) 0 300)._key_sequences,
          k'.sequence <+: [0x1b, 0x5b, 0x31, 0x3b, 0x35, 0x41, 0x78] →
            k'.sequence.length ≤ k.sequence.length ∧
              (k'.sequence.length = k.sequence.length → k' = k)) ∧
        scan_keys (Input.mk [0x1b, 0x5b, 0x31, 0x3b, 0x35, 0x41, 0x78]
            (sort_sequences key_sequences_literal) 0 300)._key_sequences
          [0x1b, 0x5b, 0x31, 0x3b, 0x35, 0x41, 0x78] = some k ∧
        read (Input.mk [0x1b, 0x5b, 0x31, 0x3b, 0x35, 0x41, 0x78]
            (sort_sequences key_sequences_literal) 0 300) WaitResult.InputReceived [] [] 1000 =
          (Except.ok [Event.Key k.key k.mods],
            { Input.mk [0x1b, 0x5b, 0x31, 0x3b, 0x35, 0x41, 0x78]
                (sort_sequences key_sequences_literal) 0 300 with
              _in := List.drop k.sequence.length
                [0x1b, 0x5b, 0x31, 0x3b, 0x35, 0x41, 0x78] })) ∧
      read (Input.mk [0x1b, 0x5b, 0x31, 0x3b, 0x35, 0x41, 0x78]
          (sort_sequences key_sequences_literal) 0 300) WaitResult.InputReceived [] [] 1000 =
        (Except.ok [Event.Key Key.UP key.CTRL],
          Input.mk [0x78] (sort_sequences key_sequences_literal) 0 300) :=
  ⟨read_longest_key _ WaitResult.InputReceived [] [] 1000 _ (sortedTable_mk _ _ _) rfl
      (mouse_stage_short (by decide)) ⟨by decide, by decide⟩
      ⟨KeySequence.mk [0x1b] key.NoMod Key.ESCAPE,
        mem_mk_of_mem_literal _ _ _ (List.getElem?_mem (n := 233) (by decide!)), by decide⟩,
    by decide!⟩

end Input

end termic

namespace termic

open event (Event)
open key (Key Modifier)

namespace Input

/-! ## Decimal fields and `std::stoul` -/

theorem isdigit_iff {c : Nat} : isdigit c = true ↔ 48 ≤ c ∧ c ≤ 57 := by
  simp [isdigit]

theorem is_decimal_iff {ds : List Byte} :
    is_decimal ds = true ↔ ds ≠ [] ∧ ∀ c ∈ ds, isdigit c = true := by
  cases ds <;> simp [is_decimal]

theorem digits_value_foldl_lt (ds : List Nat) (a : Nat) (h : ∀ c ∈ ds, isdigit c = true) :
    ds.foldl (fun a d => a * 10 + (d - 0x30)) a < (a + 1) * 10 ^ ds.length := by
  induction ds generalizing a with
  | nil => simp
  | cons d ds ih =>
    have hd := isdigit_iff.1 (h d (List.mem_cons_self _ _))
    have := ih (a * 10 + (d - 0x30)) (fun c hc => h c (List.mem_cons_of_mem _ hc))
    rw [List.foldl_cons, List.length_cons, pow_succ]
    calc _ < (a * 10 + (d - 0x30) + 1) * 10 ^ ds.length := this
      _ ≤ ((a + 1) * 10) * 10 ^ ds.length := Nat.mul_le_mul_right _ (by omega)
      _ = (a + 1) * (10 ^ ds.length * 10) := by ring

theorem digits_value_lt {ds : List Byte} (h : ∀ c ∈ ds, isdigit c = true) :
    digits_value ds < 10 ^ ds.length := by
  simpa [digits_value] using digits_value_foldl_lt ds 0 h

theorem digits_value_lt_of_length {ds : List Byte} (h : ∀ c ∈ ds, isdigit c = true)
    (hl : ds.length ≤ 13) : digits_value ds < 2 ^ 64 :=
  calc digits_value ds < 10 ^ ds.length := digits_value_lt h
    _ ≤ 10 ^ 13 := Nat.pow_le_pow_right (by norm_num) hl
    _ < 2 ^ 64 := by norm_num

theorem c_str_append {a b : List Byte} (h : ∀ c ∈ a, c ≠ 0) : c_str (a ++ b) = a ++ c_str b := by
  unfold c_str
  induction a with
  | nil => rfl
  | cons x xs ih =>
    have hx : x ≠ 0 := h x (List.mem_cons_self _ _)
    simp only [List.cons_append, List.takeWhile_cons, hx, ne_eq, not_false_eq_true,
      decide_True, if_true]
    rw [ih (fun c hc => h c (List.mem_cons_of_mem _ hc))]

theorem c_str_cons {c : Byte} {b : List Byte} (h : c ≠ 0) : c_str (c :: b) = c :: c_str b :=
  c_str_append (a := [c]) (by simpa using h)

theorem takeWhile_isdigit_append {ds : List Byte} {c : Byte} {r : List Byte}
    (h : ∀ x ∈ ds, isdigit x = true) (hc : isdigit c = false) :
    (ds ++ c :: r).takeWhile isdigit = ds := by
  induction ds with
  | nil => simp [List.takeWhile_cons, hc]
  | cons x xs ih =>
    simp only [List.cons_append, List.takeWhile_cons, h x (List.mem_cons_self _ _), if_true]
    rw [ih (fun y hy => h y (List.mem_cons_of_mem _ hy))]

/-- The call `std::stoul` on a C string that starts with a decimal field followed by a byte
that is neither a digit nor NUL returns the value of the field. -/
theorem stoul_decimal {ds : List Nat} {c : Nat} {r : List Nat}
    (hds : is_decimal ds = true) (hc : isdigit c = false) (hc0 : c ≠ 0)
    (hv : digits_value ds < 2 ^ 64) :
    stoul (c_str (ds ++ c :: r)) = Except.ok (digits_value ds) := by
  obtain ⟨hne, hall⟩ := is_decimal_iff.1 hds
  have hnz : ∀ x ∈ ds, x ≠ 0 := fun x hx h0 => by
    have := isdigit_iff.1 (hall x hx); omega
  rw [c_str_append hnz, c_str_cons hc0]
  obtain ⟨d, ds', rfl⟩ := List.exists_cons_of_ne_nil hne
  have hd := isdigit_iff.1 (hall d (List.mem_cons_self _ _))
  have hsp : isspace d = false := by
    have h1 : ¬ d = 32 := by omega
    have h2 : ¬ d ≤ 13 := by omega
    simp [isspace, h1, h2]
  have htw := takeWhile_isdigit_append (r := c_str r) hall hc
  have hsign : stoul_sign (d :: (ds' ++ c :: c_str r)) = (false, d :: (ds' ++ c :: c_str r)) := by
    unfold stoul_sign
    split
    · rename_i heq; cases heq; omega
    · rename_i heq; cases heq; omega
    · rfl
  simp only [List.cons_append] at htw
  unfold stoul
  simp only [List.cons_append, List.dropWhile_cons, hsp, Bool.false_eq_true, if_false, hsign,
    htw, List.isEmpty_cons, Nat.not_le.2 hv]

end Input

end termic

namespace termic

open event (Event)
open key (Key Modifier)

namespace Input

/-! ## The lexical part of `parse_mouse` -/

theorem scan_len_append {a : List Nat} {t : Nat} (b : List Nat)
    (h : ∀ c ∈ a, c ≠ 0x4d ∧ c ≠ 0x6d) (ht : t = 0x4d ∨ t = 0x6d) :
    scan_len (a ++ t :: b) = a.length + 1 := by
  induction a with
  | nil => simp [scan_len, ht]
  | cons x xs ih =>
    have hx := h x (List.mem_cons_self _ _)
    have hx' : ¬ (x = 0x4d ∨ x = 0x6d) := fun hc => hc.elim hx.1 hx.2
    rw [List.cons_append, scan_len, if_neg hx', ih (fun c hc => h c (List.mem_cons_of_mem _ hc)),
      List.length_cons]

theorem scan_len_le (v : List Nat) : scan_len v ≤ v.length := by
  induction v with
  | nil => simp [scan_len]
  | cons x xs ih =>
    unfold scan_len
    split
    · simp
    · simp only [List.length_cons]; omega

theorem scan_len_no_terminator {v : List Nat} (h : ∀ c ∈ v, c ≠ 0x4d ∧ c ≠ 0x6d) :
    scan_len v = v.length := by
  induction v with
  | nil => rfl
  | cons x xs ih =>
    have hx := h x (List.mem_cons_self _ _)
    have hx' : ¬ (x = 0x4d ∨ x = 0x6d) := fun hc => hc.elim hx.1 hx.2
    rw [scan_len, if_neg hx', ih (fun c hc => h c (List.mem_cons_of_mem _ hc)),
      List.length_cons]

theorem split_from_append {a : List Nat} {sep : Nat} (b : List Nat) (h : ∀ c ∈ a, c ≠ sep)
    (pos start : Nat) :
    split_from (a ++ sep :: b) sep pos start =
      (start, pos + a.length) ::
        split_from b sep (pos + a.length + 1) (pos + a.length + 1) := by
  induction a generalizing pos with
  | nil => simp [split_from]
  | cons x xs ih =>
    have hx : x ≠ sep := h x (List.mem_cons_self _ _)
    have e : pos + 1 + xs.length = pos + (xs.length + 1) := by omega
    rw [List.cons_append, split_from, if_neg hx,
      ih (fun c hc => h c (List.mem_cons_of_mem _ hc)) (pos + 1), List.length_cons, e]

theorem split_from_no_sep {a : List Nat} {sep : Nat} (h : ∀ c ∈ a, c ≠ sep) (pos start : Nat) :
    split_from a sep pos start = [(start, pos + a.length)] := by
  induction a generalizing pos with
  | nil => simp [split_from]
  | cons x xs ih =>
    have hx : x ≠ sep := h x (List.mem_cons_self _ _)
    have e : pos + 1 + xs.length = pos + (xs.length + 1) := by omega
    rw [split_from, if_neg hx, ih (fun c hc => h c (List.mem_cons_of_mem _ hc)) (pos + 1),
      List.length_cons, e]

theorem getD_append_length (a : List Nat) (t : Nat) (b : List Nat) :
    (a ++ t :: b).getD a.length 0 = t := by
  induction a with
  | nil => rfl
  | cons x xs ih => simpa using ih

theorem drop_append_cons (a : List Nat) (c : Nat) (b : List Nat) :
    (a ++ c :: b).drop (a.length + 1) = b := by
  induction a with
  | nil => rfl
  | cons x xs ih => simp [ih]

theorem decimal_not_special {ds : List Nat} (h : is_decimal ds = true) :
    ∀ c ∈ ds, c ≠ 0x3b ∧ c ≠ 0x4d ∧ c ≠ 0x6d ∧ c ≠ 0 := by
  intro c hc
  have := isdigit_iff.1 ((is_decimal_iff.1 h).2 c hc)
  omega

theorem decimal_length_pos {ds : List Nat} (h : is_decimal ds = true) : 1 ≤ ds.length :=
  List.length_pos.2 (is_decimal_iff.1 h).1

/-- On a view that starts with a report body `btn ; x ; y t` whose fields are decimal,
`parse_mouse` reads the three numbers and hands them to the second half of the function. -/
theorem parse_mouse_report (s : Input) (now : Nat) {d0 d1 d2 : List Nat} {t : Nat}
    (pad after : List Nat)
    (h0 : is_decimal d0 = true) (h1 : is_decimal d1 = true) (h2 : is_decimal d2 = true)
    (ht : t = 0x4d ∨ t = 0x6d)
    (hv0 : digits_value d0 < 2 ^ 64) (hv1 : digits_value d1 < 2 ^ 64)
    (hv2 : digits_value d2 < 2 ^ 64) :
    parse_mouse s now (d0 ++ 0x3b :: (d1 ++ 0x3b :: (d2 ++ t :: pad))) after =
      Except.ok (mouse_event s now (digits_value d0)
        (size_t_pred (digits_value d1)) (size_t_pred (digits_value d2))
        t (d0.length + d1.length + d2.length + 3)) := by
  have hs0 := decimal_not_special h0
  have hs1 := decimal_not_special h1
  have hs2 := decimal_not_special h2
  have hp0 := decimal_length_pos h0
  have hp1 := decimal_length_pos h1
  have hp2 := decimal_length_pos h2
  have hv : d0 ++ 0x3b :: (d1 ++ 0x3b :: (d2 ++ t :: pad)) =
      (d0 ++ 0x3b :: (d1 ++ 0x3b :: d2)) ++ t :: pad := by simp
  have hfl : (d0 ++ 0x3b :: (d1 ++ 0x3b :: d2)).length =
      d0.length + d1.length + d2.length + 2 := by
    simp only [List.length_append, List.length_cons]; omega
  have hfront : ∀ c ∈ d0 ++ 0x3b :: (d1 ++ 0x3b :: d2), c ≠ 0x4d ∧ c ≠ 0x6d := by
    intro c hc
    simp only [List.mem_append, List.mem_cons] at hc
    rcases hc with hc | rfl | hc | rfl | hc
    · exact ⟨(hs0 c hc).2.1, (hs0 c hc).2.2.1⟩
    · exact ⟨by norm_num, by norm_num⟩
    · exact ⟨(hs1 c hc).2.1, (hs1 c hc).2.2.1⟩
    · exact ⟨by norm_num, by norm_num⟩
    · exact ⟨(hs2 c hc).2.1, (hs2 c hc).2.2.1⟩
  have hlen : scan_len (d0 ++ 0x3b :: (d1 ++ 0x3b :: (d2 ++ t :: pad))) =
      d0.length + d1.length + d2.length + 3 := by
    rw [hv, scan_len_append pad hfront ht, hfl]
  have hlen1 : d0.length + d1.length + d2.length + 3 - 1 =
      (d0 ++ 0x3b :: (d1 ++ 0x3b :: d2)).length := by rw [hfl]; rfl
  have htail : (d0 ++ 0x3b :: (d1 ++ 0x3b :: (d2 ++ t :: pad))).getD
      (d0.length + d1.length + d2.length + 3 - 1) 0 = t := by
    rw [hlen1, hv, getD_append_length]
  have hseq : (d0 ++ 0x3b :: (d1 ++ 0x3b :: (d2 ++ t :: pad))).take
      (d0.length + d1.length + d2.length + 3 - 1) = d0 ++ 0x3b :: (d1 ++ 0x3b :: d2) := by
    rw [hlen1, hv, List.take_left]
  have hsplit : split (d0 ++ 0x3b :: (d1 ++ 0x3b :: d2)) 0x3b =
      [(0, 0 + d0.length), (0 + d0.length + 1, 0 + d0.length + 1 + d1.length),
        (0 + d0.length + 1 + d1.length + 1, 0 + d0.length + 1 + d1.length + 1 + d2.length)] := by
    unfold split
    rw [split_from_append _ (fun c hc => (hs0 c hc).1),
      split_from_append _ (fun c hc => (hs1 c hc).1),
      split_from_no_sep (fun c hc => (hs2 c hc).1)]
  have hnt : isdigit t = false := by
    rcases ht with rfl | rfl <;> rfl
  have ht0 : t ≠ 0 := by
    rcases ht with rfl | rfl <;> norm_num
  have hd0 : stoul (c_str (((d0 ++ 0x3b :: (d1 ++ 0x3b :: (d2 ++ t :: pad))) ++ after).drop 0)) =
      Except.ok (digits_value d0) := by
    rw [List.drop_zero, List.append_assoc, List.cons_append]
    exact stoul_decimal h0 rfl (by norm_num) hv0
  have hd1 : stoul (c_str (((d0 ++ 0x3b :: (d1 ++ 0x3b :: (d2 ++ t :: pad))) ++ after).drop
      (0 + d0.length + 1))) = Except.ok (digits_value d1) := by
    rw [List.append_assoc, List.cons_append, Nat.zero_add, drop_append_cons,
      List.append_assoc, List.cons_append]
    exact stoul_decimal h1 rfl (by norm_num) hv1
  have hd2 : stoul (c_str (((d0 ++ 0x3b :: (d1 ++ 0x3b :: (d2 ++ t :: pad))) ++ after).drop
      (0 + d0.length + 1 + d1.length + 1))) = Except.ok (digits_value d2) := by
    have : 0 + d0.length + 1 + d1.length + 1 = (d0 ++ 0x3b :: d1).length + 1 := by
      simp only [List.length_append, List.length_cons]; omega
    rw [this]
    have hre : (d0 ++ 0x3b :: (d1 ++ 0x3b :: (d2 ++ t :: pad))) ++ after =
        (d0 ++ 0x3b :: d1) ++ 0x3b :: (d2 ++ t :: (pad ++ after)) := by simp
    rw [hre, drop_append_cons]
    exact stoul_decimal h2 hnt ht0 hv2
  have hge : ¬ (d0.length + d1.length + d2.length + 3 < 6) := by omega
  have htl : ¬ (t ≠ 0x4d ∧ t ≠ 0x6d) := by
    rcases ht with rfl | rfl <;> simp
  unfold parse_mouse
  simp only [hlen, hge, if_false, htail, htl, hseq, hsplit, List.length_cons, List.length_nil,
    List.getD_cons_zero, List.getD_cons_succ, hd0, hd1, hd2, ne_eq, not_true_eq_false]

end Input

end termic

namespace termic

open event (Event)
open key (Key Modifier)

namespace Input

/-! ## The second half of `parse_mouse` -/

theorem mouse_wheel_of_ne_zero {bm : Nat} (h1 : ¬ bm ≥ 128) (h2 : bm ≥ 64) :
    mouse_wheel_of bm ≠ 0 := by
  unfold mouse_wheel_of
  rw [if_neg h1, if_pos h2]
  omega

/-- For a report that ends in `M` or `m` the second half of `parse_mouse` always produces an
event: it eats `len` bytes, the event carries the coordinates it was given, and only the
stopwatch of the state can change. -/
theorem mouse_event_some (s : Input) (now bm x y t len : Nat) (ht : t = 0x4d ∨ t = 0x6d) :
    ∃ ev s1, mouse_event s now bm x y t len = (some (ev, len), s1) ∧
      ev.position = some (x, y) ∧ s1._in = s._in ∧ s1._key_sequences = s._key_sequences ∧
      s1._double_click_duration = s._double_click_duration := by
  unfold mouse_event
  simp only []
  split_ifs with h1 h2 h3 h4 h5 h6
  · exact ⟨_, _, rfl, rfl, rfl, rfl, rfl⟩
  · exact ⟨_, _, rfl, rfl, rfl, rfl, rfl⟩
  · exact ⟨_, _, rfl, rfl, rfl, rfl, rfl⟩
  · exact ⟨_, _, rfl, rfl, rfl, rfl, rfl⟩
  · exact ⟨_, _, rfl, rfl, rfl, rfl, rfl⟩
  · exact ⟨_, _, rfl, rfl, rfl, rfl, rfl⟩
  · exfalso
    by_cases hw : bm ≥ 128
    · simp only [h1, hw, decide_True, Bool.not_true, Bool.and_false, Bool.false_and,
        Bool.not_false, Bool.and_true, Bool.true_and, decide_eq_true_eq] at h2 h5
      exact ht.elim h2 h5
    · by_cases hw2 : bm ≥ 64
      · exact h6 (mouse_wheel_of_ne_zero hw hw2)
      · simp only [h1, hw, hw2, decide_False, Bool.not_true, Bool.and_false, Bool.false_and,
          Bool.not_false, Bool.and_true, Bool.true_and, decide_eq_true_eq] at h2 h5
        exact ht.elim h2 h5

end Input

end termic

namespace termic

open event (Event)
open key (Key Modifier)

namespace Input

/-! ## Mouse reports through `read` -/

theorem size_t_pred_of_pos {n : Nat} (h1 : 1 ≤ n) (h2 : n < 2 ^ 64) : size_t_pred n = n - 1 := by
  unfold size_t_pred
  omega

theorem mouse_report_length (d0 d1 d2 : List Nat) (t : Nat) :
    (mouse_report d0 d1 d2 t).length = d0.length + d1.length + d2.length + 6 := by
  simp only [mouse_report, mouse_prefix, List.length_append, List.length_cons, List.length_nil]
  omega

theorem mouse_window_report (d0 d1 d2 : List Nat) (t : Nat) (rest junk : List Nat)
    (hfit : (mouse_report d0 d1 d2 t).length ≤ max_mouse_seq_len) :
    mouse_window (mouse_report d0 d1 d2 t ++ rest) junk =
      d0 ++ 0x3b :: (d1 ++ 0x3b :: (d2 ++ t ::
        (rest ++ 0 :: junk).take (max_mouse_seq_len - (mouse_report d0 d1 d2 t).length))) := by
  rw [mouse_report_length] at hfit ⊢
  unfold max_mouse_seq_len at hfit ⊢
  have hbody : (d0 ++ 0x3b :: (d1 ++ 0x3b :: (d2 ++ [t]))).length =
      d0.length + d1.length + d2.length + 3 := by
    simp only [List.length_append, List.length_cons, List.length_nil]; omega
  have hmem : mouse_report d0 d1 d2 t ++ rest ++ 0 :: junk =
      [0x1b, 0x5b, 0x3c] ++ ((d0 ++ 0x3b :: (d1 ++ 0x3b :: (d2 ++ [t]))) ++ (rest ++ 0 :: junk)) := by
    simp [mouse_report, mouse_prefix]
  unfold mouse_window max_mouse_seq_len
  rw [hmem]
  have h16 : (16 : Nat) = [0x1b, 0x5b, 0x3c].length + 13 := rfl
  rw [h16, List.take_append, show List.length mouse_prefix = [0x1b, 0x5b, 0x3c].length from rfl,
    List.drop_left, List.take_append_eq_append_take, hbody,
    List.take_of_length_le (by rw [hbody]; omega)]
  have e : [0x1b, 0x5b, 0x3c].length + 13 - (d0.length + d1.length + d2.length + 6) =
      13 - (d0.length + d1.length + d2.length + 3) := by
    simp only [List.length_cons, List.length_nil]; omega
  rw [e]
  simp

theorem mouse_prefix_report (d0 d1 d2 : List Nat) (t : Nat) (rest : List Nat) :
    List.isPrefixOf mouse_prefix (mouse_report d0 d1 d2 t ++ rest) = true := by
  simp [mouse_report, mouse_prefix, List.isPrefixOf]

/-- The mouse stage on a well-formed report that lies within the 16-byte view: the report is
parsed and the event of the second half of `parse_mouse` is returned. -/
theorem mouse_stage_report (s : Input) (now : Nat) {d0 d1 d2 : List Nat} {t : Nat}
    (rest junk : List Nat)
    (h0 : is_decimal d0 = true) (h1 : is_decimal d1 = true) (h2 : is_decimal d2 = true)
    (ht : t = 0x4d ∨ t = 0x6d)
    (hfit : (mouse_report d0 d1 d2 t).length ≤ max_mouse_seq_len) :
    mouse_stage s now (mouse_report d0 d1 d2 t ++ rest) junk =
      Except.ok (mouse_event s now (digits_value d0) (size_t_pred (digits_value d1))
        (size_t_pred (digits_value d2)) t (d0.length + d1.length + d2.length + 3)) := by
  have hp0 := decimal_length_pos h0
  have hp1 := decimal_length_pos h1
  have hp2 := decimal_length_pos h2
  have hl := mouse_report_length d0 d1 d2 t
  have hfit' := hfit
  rw [hl] at hfit'
  unfold max_mouse_seq_len at hfit'
  have h9 : 9 ≤ (mouse_report d0 d1 d2 t ++ rest).length := by
    rw [List.length_append, hl]; omega
  unfold mouse_stage
  rw [if_pos ⟨h9, mouse_prefix_report d0 d1 d2 t rest⟩, mouse_window_report d0 d1 d2 t rest junk hfit]
  exact parse_mouse_report s now _ _ h0 h1 h2 ht
    (digits_value_lt_of_length (is_decimal_iff.1 h0).2 (by omega))
    (digits_value_lt_of_length (is_decimal_iff.1 h1).2 (by omega))
    (digits_value_lt_of_length (is_decimal_iff.1 h2).2 (by omega))

/-- `read` on bytes that start with a well-formed report within the 16-byte view returns the
one event of the report and pushes back exactly the bytes after the report. -/
theorem read_report (s : Input) (w : WaitResult) (arrived junk : List Nat) (now : Nat)
    {d0 d1 d2 : List Nat} {t : Nat} (rest : List Nat)
    (h0 : is_decimal d0 = true) (h1 : is_decimal d1 = true) (h2 : is_decimal d2 = true)
    (ht : t = 0x4d ∨ t = 0x6d)
    (hfit : (mouse_report d0 d1 d2 t).length ≤ max_mouse_seq_len)
    (hb : fetch s w arrived = some (mouse_report d0 d1 d2 t ++ rest))
    {ev : Event} {n : Nat} {s1 : Input}
    (hev : mouse_event { s with _in := [] } now (digits_value d0)
      (size_t_pred (digits_value d1)) (size_t_pred (digits_value d2)) t
      (d0.length + d1.length + d2.length + 3) = (some (ev, n), s1)) :
    read s w arrived junk now = (Except.ok [ev], { s1 with _in := rest }) := by
  obtain ⟨ev', s1', hev', -, hin, -, -⟩ := mouse_event_some { s with _in := [] } now
    (digits_value d0) (size_t_pred (digits_value d1)) (size_t_pred (digits_value d2)) t
    (d0.length + d1.length + d2.length + 3) ht
  rw [hev] at hev'
  simp only [Prod.mk.injEq, Option.some.injEq] at hev'
  obtain ⟨⟨rfl, rfl⟩, rfl⟩ := hev'
  have hp0 := decimal_length_pos h0
  have hl := mouse_report_length d0 d1 d2 t
  have hstage := mouse_stage_report { s with _in := [] } now rest junk h0 h1 h2 ht hfit
  rw [hev] at hstage
  have hpos : 0 < d0.length + d1.length + d2.length + 3 := by omega
  have hlen : List.length mouse_prefix + (d0.length + d1.length + d2.length + 3) =
      (mouse_report d0 d1 d2 t).length := by
    rw [hl]; simp only [List.length_cons, List.length_nil, mouse_prefix]; omega
  have hnlt : ¬ (mouse_report d0 d1 d2 t ++ rest).length < (mouse_report d0 d1 d2 t).length := by
    rw [List.length_append]; omega
  rw [read_of_fetch junk now hb]
  unfold decode
  rw [hstage]
  simp only [gt_iff_lt, hpos, if_true]
  unfold revert_substr
  rw [hlen, if_neg hnlt, List.drop_left, revert_eq, hin]
  simp

end Input

end termic

namespace termic

open event (Event)
open key (Key Modifier)

namespace Input

/-! ## The events of mouse reports -/

theorem mouse_event_move (s : Input) (now : Nat) {bm : Nat} (x y t len : Nat)
    (h : bm &&& 0x20 ≠ 0) :
    mouse_event s now bm x y t len =
      (some (Event.MouseMove x y (mouse_mods bm), len), s) := by
  have h' : bm &&& 0x20 > 0 := Nat.pos_of_ne_zero h
  unfold mouse_event
  simp only [h', decide_True, if_true]

theorem mouse_event_release (s : Input) (now : Nat) {bm : Nat} (x y len : Nat)
    (h : bm &&& 0x20 = 0) (hlt : bm < 64) :
    mouse_event s now bm x y 0x6d len =
      (some (Event.MouseButton (bm &&& 0x0f) false true false x y (mouse_mods bm), len), s) := by
  have h1 : ¬ bm ≥ 128 := by omega
  have h2 : ¬ bm ≥ 64 := by omega
  unfold mouse_event mouse_button_of
  simp [h, h1, h2]

theorem mouse_event_press (s : Input) (now : Nat) {bm : Nat} (x y len : Nat)
    (h : bm &&& 0x20 = 0) (hlt : bm < 64) :
    mouse_event s now bm x y 0x4d len =
      if bm &&& 0x0f = 0 then
        if elapsed_s s now < s._double_click_duration then
          (some (Event.MouseButton (bm &&& 0x0f) false false true x y (mouse_mods bm), len), s)
        else
          (some (Event.MouseButton (bm &&& 0x0f) true false false x y (mouse_mods bm), len),
            { s with _mouse_button_press := now })
      else
        (some (Event.MouseButton (bm &&& 0x0f) true false false x y (mouse_mods bm), len), s) := by
  have h1 : ¬ bm ≥ 128 := by omega
  have h2 : ¬ bm ≥ 64 := by omega
  unfold mouse_event mouse_button_of
  simp [h, h1, h2]

/-- Claim C7. For every mouse report `ESC [ < btn ; x ; y (M|m)` with decimal fields that
`parse_mouse` accepts (the report lies within the 16-byte view) and wire coordinates `x ≥ 1`,
`y ≥ 1`, the one event that `read` returns is a mouse event that carries the coordinates
`(x - 1, y - 1)`; the bytes after the report are pushed back. -/
theorem read_mouse_position (s : Input) (w : WaitResult) (arrived junk : List Nat) (now : Nat)
    (btn x y : List Nat) (t : Nat) (rest : List Nat)
    (hbtn : is_decimal btn = true) (hx : is_decimal x = true) (hy : is_decimal y = true)
    (ht : t = 0x4d ∨ t = 0x6d)
    (hfit : (mouse_report btn x y t).length ≤ max_mouse_seq_len)
    (hx1 : 1 ≤ digits_value x) (hy1 : 1 ≤ digits_value y)
    (hb : fetch s w arrived = some (mouse_report btn x y t ++ rest)) :
    ∃ ev s1, read s w arrived junk now = (Except.ok [ev], s1) ∧ s1._in = rest ∧
      ev.position = some (digits_value x - 1, digits_value y - 1) := by
  obtain ⟨ev, s1, hev, hpos, -, -, -⟩ := mouse_event_some { s with _in := [] } now
    (digits_value btn) (size_t_pred (digits_value x)) (size_t_pred (digits_value y)) t
    (btn.length + x.length + y.length + 3) ht
  have hl := mouse_report_length btn x y t
  rw [hl] at hfit
  unfold max_mouse_seq_len at hfit
  have hvx := digits_value_lt_of_length (is_decimal_iff.1 hx).2 (by omega)
  have hvy := digits_value_lt_of_length (is_decimal_iff.1 hy).2 (by omega)
  rw [size_t_pred_of_pos hx1 hvx, size_t_pred_of_pos hy1 hvy] at hpos
  exact ⟨ev, { s1 with _in := rest },
    read_report s w arrived junk now rest hbtn hx hy ht
      (by rw [hl]; unfold max_mouse_seq_len; exact hfit) hb hev, rfl, hpos⟩

/-- Claim C8. For every accepted mouse report with `btn < 64` and bit `0x20` of `btn` clear:
with the final byte `M` the event is a `MouseButton` with `released = false`, and with
`pressed = true` and `double_clicked = false` unless the button is 0 and the press stopwatch
reads less than the double-click duration; with the final byte `m` the event is
`MouseButton{released = true, pressed = false, double_clicked = false}`. -/
theorem read_mouse_button (s : Input) (w : WaitResult) (arrived junk : List Nat) (now : Nat)
    (btn x y : List Nat) (t : Nat) (rest : List Nat)
    (hbtn : is_decimal btn = true) (hx : is_decimal x = true) (hy : is_decimal y = true)
    (hfit : (mouse_report btn x y t).length ≤ max_mouse_seq_len)
    (hlt : digits_value btn < 64) (hbit : digits_value btn &&& 0x20 = 0)
    (hb : fetch s w arrived = some (mouse_report btn x y t ++ rest)) :
    (t = 0x4d → ∃ pressed double_clicked s1,
        read s w arrived junk now =
          (Except.ok [Event.MouseButton (digits_value btn &&& 0x0f) pressed false double_clicked
            (size_t_pred (digits_value x)) (size_t_pred (digits_value y))
            (mouse_mods (digits_value btn))], s1) ∧
        s1._in = rest ∧
        (¬ (digits_value btn &&& 0x0f = 0 ∧ elapsed_s s now < s._double_click_duration) →
          pressed = true ∧ double_clicked = false)) ∧
      (t = 0x6d →
        read s w arrived junk now =
          (Except.ok [Event.MouseButton (digits_value btn &&& 0x0f) false true false
            (size_t_pred (digits_value x)) (size_t_pred (digits_value y))
            (mouse_mods (digits_value btn))], { s with _in := rest })) := by
  constructor
  · rintro rfl
    have hev := mouse_event_press { s with _in := [] } now (size_t_pred (digits_value x))
      (size_t_pred (digits_value y)) (btn.length + x.length + y.length + 3) hbit hlt
    by_cases hz : digits_value btn &&& 0x0f = 0
    · by_cases he : elapsed_s s now < s._double_click_duration
      · have he' : elapsed_s { s with _in := [] } now <
            ({ s with _in := [] } : Input)._double_click_duration := he
        rw [if_pos hz, if_pos he'] at hev
        exact ⟨false, true, _, read_report s w arrived junk now rest hbtn hx hy (Or.inl rfl)
          hfit hb hev, rfl, fun hn => absurd ⟨hz, he⟩ hn⟩
      · have he' : ¬ elapsed_s { s with _in := [] } now <
            ({ s with _in := [] } : Input)._double_click_duration := he
        rw [if_pos hz, if_neg he'] at hev
        exact ⟨true, false, _, read_report s w arrived junk now rest hbtn hx hy (Or.inl rfl)
          hfit hb hev, rfl, fun _ => ⟨rfl, rfl⟩⟩
    · rw [if_neg hz] at hev
      exact ⟨true, false, _, read_report s w arrived junk now rest hbtn hx hy (Or.inl rfl)
        hfit hb hev, rfl, fun _ => ⟨rfl, rfl⟩⟩
  · rintro rfl
    have hev := mouse_event_release { s with _in := [] } now (size_t_pred (digits_value x))
      (size_t_pred (digits_value y)) (btn.length + x.length + y.length + 3) hbit hlt
    rw [read_report s w arrived junk now rest hbtn hx hy (Or.inr rfl) hfit hb hev]

/-- Claim C9. For every accepted mouse report whose `btn` has bit `0x20` set, whatever the
final byte (`M` or `m`) and the other bits of `btn`, `read` returns the single event
`MouseMove{x - 1, y - 1, modifiers}` (the subtraction is that of `std::size_t`, which is
`x - 1` for `x ≥ 1`), so never a `MouseButton` or a `MouseWheel`. -/
theorem read_mouse_move (s : Input) (w : WaitResult) (arrived junk : List Nat) (now : Nat)
    (btn x y : List Nat) (t : Nat) (rest : List Nat)
    (hbtn : is_decimal btn = true) (hx : is_decimal x = true) (hy : is_decimal y = true)
    (ht : t = 0x4d ∨ t = 0x6d)
    (hfit : (mouse_report btn x y t).length ≤ max_mouse_seq_len)
    (hbit : digits_value btn &&& 0x20 ≠ 0)
    (hb : fetch s w arrived = some (mouse_report btn x y t ++ rest)) :
    read s w arrived junk now =
        (Except.ok [Event.MouseMove (size_t_pred (digits_value x)) (size_t_pred (digits_value y))
          (mouse_mods (digits_value btn))], { s with _in := rest }) ∧
      (1 ≤ digits_value x → size_t_pred (digits_value x) = digits_value x - 1) ∧
      (1 ≤ digits_value y → size_t_pred (digits_value y) = digits_value y - 1) := by
  have hl := mouse_report_length btn x y t
  have hfit' := hfit
  rw [hl] at hfit'
  unfold max_mouse_seq_len at hfit'
  have hvx := digits_value_lt_of_length (is_decimal_iff.1 hx).2 (by omega)
  have hvy := digits_value_lt_of_length (is_decimal_iff.1 hy).2 (by omega)
  refine ⟨?_, fun h => size_t_pred_of_pos h hvx, fun h => size_t_pred_of_pos h hvy⟩
  rw [read_report s w arrived junk now rest hbtn hx hy ht hfit hb
    (mouse_event_move { s with _in := [] } now _ _ t _ hbit)]

end Input

end termic

namespace termic

open event (Event)
open key (Key Modifier)

namespace Input

/-- The scenarios of claim C7: the wire coordinates `1;1` are delivered as `(0, 0)` and
`10;5` as `(9, 4)`. -/
theorem read_mouse_position_witness :
    (∃ ev s1,
        read (Input.mk [0x1b, 0x5b, 0x3c, 0x30, 0x3b, 0x31, 0x3b, 0x31, 0x4d]
          (sort_sequences key_sequences_literal) 0 300) WaitResult.InputReceived [] [] 1000 =
            (Except.ok [ev], s1) ∧ s1._in = [] ∧ ev.position = some (0, 0)) ∧
      (∃ ev s1,
        read (Input.mk [0x1b, 0x5b, 0x3c, 0x30, 0x3b, 0x31, 0x30, 0x3b, 0x35, 0x6d]
          (sort_sequences key_sequences_literal) 0 300) WaitResult.InputReceived [] [] 1000 =
            (Except.ok [ev], s1) ∧ s1._in = [] ∧ ev.position = some (9, 4)) :=
  ⟨read_mouse_position _ WaitResult.InputReceived [] [] 1000 [0x30] [0x31] [0x31] 0x4d []
      rfl rfl rfl (Or.inl rfl) (by decide) (by decide) (by decide) rfl,
    read_mouse_position _ WaitResult.InputReceived [] [] 1000 [0x30] [0x31, 0x30] [0x35] 0x6d []
      rfl rfl rfl (Or.inr rfl) (by decide) (by decide) (by decide) rfl⟩

/-- The scenarios of claim C8: `ESC [ < 0 ; 10 ; 5 M`, with the stopwatch past the
double-click duration, is `MouseButton{button=0, pressed=true, x=9, y=4}`, and
`ESC [ < 0 ; 10 ; 5 m` is `MouseButton{button=0, released=true, x=9, y=4}`. -/
theorem read_mouse_button_witness :
    (∃ s1,
        read (Input.mk [0x1b, 0x5b, 0x3c, 0x30, 0x3b, 0x31, 0x30, 0x3b, 0x35, 0x4d]
          (sort_sequences key_sequences_literal) 0 300) WaitResult.InputReceived [] [] 1000 =
            (Except.ok [Event.MouseButton 0 true false false 9 4 key.NoMod], s1) ∧
          s1._in = []) ∧
      read (Input.mk [0x1b, 0x5b, 0x3c, 0x30, 0x3b, 0x31, 0x30, 0x3b, 0x35, 0x6d]
          (sort_sequences key_sequences_literal) 0 300) WaitResult.InputReceived [] [] 1000 =
        (Except.ok [Event.MouseButton 0 false true false 9 4 key.NoMod],
          Input.mk [] (sort_sequences key_sequences_literal) 0 300) := by
  constructor
  · obtain ⟨pressed, double_clicked, s1, hr, hin, himp⟩ :=
      (read_mouse_button (Input.mk [0x1b, 0x5b, 0x3c, 0x30, 0x3b, 0x31, 0x30, 0x3b, 0x35, 0x4d]
        (sort_sequences key_sequences_literal) 0 300) WaitResult.InputReceived [] [] 1000
        [0x30] [0x31, 0x30] [0x35] 0x4d [] rfl rfl rfl (by decide) (by decide) (by decide)
        rfl).1 rfl
    obtain ⟨rfl, rfl⟩ := himp (by decide)
    exact ⟨s1, hr, hin⟩
  · exact (read_mouse_button (Input.mk [0x1b, 0x5b, 0x3c, 0x30, 0x3b, 0x31, 0x30, 0x3b, 0x35, 0x6d]
        (sort_sequences key_sequences_literal) 0 300) WaitResult.InputReceived [] [] 1000
        [0x30] [0x31, 0x30] [0x35] 0x6d [] rfl rfl rfl (by decide) (by decide) (by decide)
        rfl).2 rfl

/-- The scenarios of claim C9: `ESC [ < 35 ; 10 ; 5 M` is `MouseMove{9, 4}`, and so is
`ESC [ < 252 ; 10 ; 5 m`, whose `btn` has the bits `0x80`, `0x40` and all modifier bits set
besides `0x20`. -/
theorem read_mouse_move_witness :
    read (Input.mk [0x1b, 0x5b, 0x3c, 0x33, 0x35, 0x3b, 0x31, 0x30, 0x3b, 0x35, 0x4d]
          (sort_sequences key_sequences_literal) 0 300) WaitResult.InputReceived [] [] 1000 =
        (Except.ok [Event.MouseMove 9 4 key.NoMod],
          Input.mk [] (sort_sequences key_sequences_literal) 0 300) ∧
      read (Input.mk [0x1b, 0x5b, 0x3c, 0x32, 0x35, 0x32, 0x3b, 0x31, 0x30, 0x3b, 0x35, 0x6d]
          (sort_sequences key_sequences_literal) 0 300) WaitResult.InputReceived [] [] 1000 =
        (Except.ok [Event.MouseMove 9 4 ALT_CTRL_SHIFT],
          Input.mk [] (sort_sequences key_sequences_literal) 0 300) :=
  ⟨(read_mouse_move
      (Input.mk [0x1b, 0x5b, 0x3c, 0x33, 0x35, 0x3b, 0x31, 0x30, 0x3b, 0x35, 0x4d]
        (sort_sequences key_sequences_literal) 0 300) WaitResult.InputReceived [] [] 1000
      [0x33, 0x35] [0x31, 0x30] [0x35] 0x4d [] rfl rfl rfl (Or.inl rfl) (by decide) (by decide)
      rfl).1,
    (read_mouse_move
      (Input.mk [0x1b, 0x5b, 0x3c, 0x32, 0x35, 0x32, 0x3b, 0x31, 0x30, 0x3b, 0x35, 0x6d]
        (sort_sequences key_sequences_literal) 0 300) WaitResult.InputReceived [] [] 1000
      [0x32, 0x35, 0x32] [0x31, 0x30] [0x35] 0x6d [] rfl rfl rfl (Or.inr rfl) (by decide)
      (by decide) rfl).1⟩

set_option maxRecDepth 100000 in
/-- Claim C10, the code at its failing input.  The wheel reports `ESC [ < 64 ; 1 ; 1 M` and
`ESC [ < 65 ; 1 ; 1 M` give the deltas `+1` and `-1`, but the wheel report with Shift held,
`ESC [ < 68 ; 1 ; 1 M`, gives the delta `-7`. -/
theorem read_wheel_delta :
    read (Input.mk [0x1b, 0x5b, 0x3c, 0x36, 0x34, 0x3b, 0x31, 0x3b, 0x31, 0x4d]
          (sort_sequences key_sequences_literal) 0 300) WaitResult.InputReceived [] [] 1000 =
        (Except.ok [Event.MouseWheel 1 0 0 key.NoMod],
          Input.mk [] (sort_sequences key_sequences_literal) 0 300) ∧
      read (Input.mk [0x1b, 0x5b, 0x3c, 0x36, 0x35, 0x3b, 0x31, 0x3b, 0x31, 0x4d]
          (sort_sequences key_sequences_literal) 0 300) WaitResult.InputReceived [] [] 1000 =
        (Except.ok [Event.MouseWheel (-1) 0 0 key.NoMod],
          Input.mk [] (sort_sequences key_sequences_literal) 0 300) ∧
      read (Input.mk [0x1b, 0x5b, 0x3c, 0x36, 0x38, 0x3b, 0x31, 0x3b, 0x31, 0x4d]
          (sort_sequences key_sequences_literal) 0 300) WaitResult.InputReceived [] [] 1000 =
        (Except.ok [Event.MouseWheel (-7) 0 0 key.SHIFT],
          Input.mk [] (sort_sequences key_sequences_literal) 0 300) := by
  decide!

end Input

end termic

namespace termic

open event (Event)
open key (Key Modifier)

namespace Input

/-! ## The order of the stages -/

theorem mouse_event_in (s : Input) (now bm x y t len : Nat) :
    (mouse_event s now bm x y t len).2._in = s._in := by
  unfold mouse_event
  simp only []
  split_ifs <;> rfl

theorem parse_mouse_in {s s1 : Input} {now : Nat} {v after : List Nat}
    {r : Option (Event × Nat)} (h : parse_mouse s now v after = Except.ok (r, s1)) :
    s1._in = s._in := by
  unfold parse_mouse at h
  simp only [] at h
  split_ifs at h
  · cases h; rfl
  · cases h; rfl
  · cases h; rfl
  · split at h
    · cases h
    · split at h
      · cases h
      · split at h
        · cases h
        · rw [← mouse_event_in s now _ _ _ _ _]
          simp only [Except.ok.injEq] at h
          rw [h]

theorem mouse_stage_in {s s1 : Input} {now : Nat} {inp junk : List Nat}
    {r : Option (Event × Nat)} (h : mouse_stage s now inp junk = Except.ok (r, s1)) :
    s1._in = s._in := by
  unfold mouse_stage at h
  split_ifs at h
  · exact parse_mouse_in h
  · cases h; rfl

/-- The three ways in which `parse_mouse` gives up: no `M` or `m` in the view, fewer than six
bytes up to the final byte, or not exactly three fields. -/
theorem parse_mouse_fail (s : Input) (now : Nat) (v after : List Nat)
    (h : (∀ c ∈ v, c ≠ 0x4d ∧ c ≠ 0x6d) ∨ scan_len v < 6 ∨
      (split (v.take (scan_len v - 1)) 0x3b).length ≠ 3) :
    parse_mouse s now v after = Except.ok (none, s) := by
  unfold parse_mouse
  simp only []
  split_ifs with h1 h2 h3
  · rfl
  · rfl
  · rfl
  · exfalso
    rcases h with h | h | h
    · have hl := scan_len_no_terminator h
      have hmem : v.getD (scan_len v - 1) 0 ∈ v := by
        rw [hl] at h1 ⊢
        have hlt : v.length - 1 < v.length := by omega
        rw [List.getD_eq_getElem _ _ hlt]
        exact List.getElem_mem _
      have := h _ hmem
      exact h2 ⟨this.1, this.2⟩
    · exact h1 h
    · exact h3 h

theorem mouse_stage_fail (s : Input) (now : Nat) (inp junk : List Nat)
    (h : inp.length < 9 ∨ (∀ c ∈ mouse_window inp junk, c ≠ 0x4d ∧ c ≠ 0x6d) ∨
      scan_len (mouse_window inp junk) < 6 ∨
      (split ((mouse_window inp junk).take (scan_len (mouse_window inp junk) - 1)) 0x3b).length
        ≠ 3) :
    mouse_stage s now inp junk = Except.ok (none, s) := by
  rcases h with h | h
  · exact mouse_stage_short h
  · unfold mouse_stage
    split_ifs
    · exact parse_mouse_fail s now _ _ h
    · rfl

set_option maxRecDepth 100000 in
theorem literal_escape_only : ∀ k ∈ key_sequences_literal,
    (k.sequence.take 3).isPrefixOf [0x1b, 0x5b, 0x3c] = true → k.sequence = [0x1b] := by
  decide!

set_option maxRecDepth 100000 in
theorem literal_escape_mem :
    KeySequence.mk [0x1b] key.NoMod Key.ESCAPE ∈ key_sequences_literal :=
  List.getElem?_mem (n := 233) (by decide!)

/-- On bytes that start with `ESC [ <` the key-table scan finds the entry of the lone
Escape. -/
theorem scan_keys_escape {table : List KeySequence} (ht : SortedTable table)
    (r : List Nat) :
    scan_keys table (0x1b :: 0x5b :: 0x3c :: r) =
      some (KeySequence.mk [0x1b] key.NoMod Key.ESCAPE) := by
  have hesc : KeySequence.mk [0x1b] key.NoMod Key.ESCAPE ∈ table :=
    ht.1.mem_iff.2 literal_escape_mem
  obtain ⟨k, hk⟩ := @scan_keys_exists table (0x1b :: 0x5b :: 0x3c :: r)
    ⟨_, hesc, by simp⟩
  obtain ⟨hmem, hpre⟩ := scan_keys_some hk
  have h3 : (k.sequence.take 3).isPrefixOf [0x1b, 0x5b, 0x3c] = true := by
    have := List.IsPrefix.take hpre 3
    exact List.isPrefixOf_iff_prefix.2 (by simpa using this)
  have hseq := literal_escape_only k (ht.1.mem_iff.1 hmem) h3
  have : k = KeySequence.mk [0x1b] key.NoMod Key.ESCAPE :=
    List.inj_on_of_nodup_map ht.nodup hmem hesc hseq
  rw [hk, this]

end Input

end termic

namespace termic

open event (Event)
open key (Key Modifier)

namespace Input

theorem read_one_le (inp : List Nat) : (utf8.read_one inp).2 ≤ inp.length := by
  unfold utf8.read_one
  split
  · simp
  · rename_i b0 rest
    split_ifs
    · simp
    · split
      · split_ifs <;> simp
      · simp
    · split
      · split_ifs <;> simp
      · simp
    · split
      · split_ifs <;> simp
      · simp
    · simp

theorem parse_utf8_le {inp : List Nat} {ev : Event} {eaten : Nat}
    (h : parse_utf8 inp = some (ev, eaten)) : eaten ≤ inp.length := by
  unfold parse_utf8 at h
  simp only [] at h
  split_ifs at h
  simp only [Option.some.injEq, Prod.mk.injEq] at h
  rw [← h.2]
  exact read_one_le inp

theorem decode_rest_focus_in {s : Input} {inp : List Nat} (h : focus_in <+: inp) :
    decode_rest s inp = (Except.ok [Event.Focus true], { s with _in := inp.drop 3 ++ s._in }) := by
  have h3 : 3 ≤ inp.length := h.length_le
  have hp : focus_in.isPrefixOf inp = true := List.isPrefixOf_iff_prefix.2 h
  have hn : ¬ inp.length < focus_in.length := Nat.not_lt.2 h3
  unfold decode_rest revert_substr
  rw [if_pos ⟨h3, hp⟩, if_neg hn, revert_eq]
  rfl

theorem decode_rest_focus_out {s : Input} {inp : List Nat} (hi : ¬ focus_in <+: inp)
    (h : focus_out <+: inp) :
    decode_rest s inp = (Except.ok [Event.Focus false], { s with _in := inp.drop 3 ++ s._in }) := by
  have h3 : 3 ≤ inp.length := h.length_le
  have hp : focus_out.isPrefixOf inp = true := List.isPrefixOf_iff_prefix.2 h
  have hpi : ¬ (3 ≤ inp.length ∧ focus_in.isPrefixOf inp = true) :=
    fun hc => hi (List.isPrefixOf_iff_prefix.1 hc.2)
  have hn : ¬ inp.length < focus_out.length := Nat.not_lt.2 h3
  unfold decode_rest revert_substr
  rw [if_neg hpi, if_pos ⟨h3, hp⟩, if_neg hn, revert_eq]
  rfl

theorem decode_rest_utf8 {s : Input} {inp : List Nat} {cp eaten : Nat}
    (hfi : ¬ focus_in <+: inp) (hfo : ¬ focus_out <+: inp)
    (hscan : scan_keys s._key_sequences inp = none)
    (hu : parse_utf8 inp = some (Event.Input cp, eaten)) :
    decode_rest s inp =
      (Except.ok (Event.Input cp :: companion_key cp),
        { s with _in := inp.drop eaten ++ s._in }) := by
  have hpi : ¬ (3 ≤ inp.length ∧ focus_in.isPrefixOf inp = true) :=
    fun hc => hfi (List.isPrefixOf_iff_prefix.1 hc.2)
  have hpo : ¬ (3 ≤ inp.length ∧ focus_out.isPrefixOf inp = true) :=
    fun hc => hfo (List.isPrefixOf_iff_prefix.1 hc.2)
  have hn : ¬ inp.length < eaten := Nat.not_lt.2 (parse_utf8_le hu)
  unfold decode_rest
  rw [if_neg hpi, if_neg hpo, hscan, hu]
  simp only []
  unfold revert_substr
  rw [if_neg hn, revert_eq]

theorem decode_mouse_some {s s1 : Input} {now : Nat} {inp junk : List Nat} {ev : Event}
    {eaten : Nat} (h : mouse_stage s now inp junk = Except.ok (some (ev, eaten), s1))
    (hpos : 0 < eaten) (hle : 3 + eaten ≤ inp.length) :
    decode s now inp junk =
      (Except.ok [ev], { s1 with _in := inp.drop (3 + eaten) ++ s._in }) := by
  have hn : ¬ inp.length < List.length mouse_prefix + eaten := by
    simp only [List.length_cons, List.length_nil, mouse_prefix]; omega
  unfold decode
  rw [h]
  simp only [gt_iff_lt, hpos, if_true]
  unfold revert_substr
  rw [if_neg hn, revert_eq, mouse_stage_in h]
  rfl

/-- Claim C5. `read` tries the stages mouse, focus, key table, UTF-8 in that order and
returns the result of the first stage that consumes bytes.  In particular a well-formed mouse
report that lies within the 16-byte view is decoded as a mouse event (never as
`Key{ESCAPE}`), and bytes that start with `ESC [ <` whose mouse parse fails (fewer than six
interior bytes, no `M` or `m` in the view, or not exactly three fields) are decoded as
`Key{ESCAPE, NoMod}` with exactly one byte consumed. -/
theorem read_stage_order (s : Input) (w : WaitResult) (arrived junk : List Nat) (now : Nat)
    (inp : List Nat) (ht : SortedTable s._key_sequences)
    (hb : fetch s w arrived = some inp) :
    (∀ ev eaten s1,
        mouse_stage { s with _in := [] } now inp junk = Except.ok (some (ev, eaten), s1) →
        0 < eaten → 3 + eaten ≤ inp.length →
        read s w arrived junk now =
          (Except.ok [ev], { s1 with _in := inp.drop (3 + eaten) })) ∧
      (mouse_stage { s with _in := [] } now inp junk = Except.ok (none, { s with _in := [] }) →
        (focus_in <+: inp →
          read s w arrived junk now =
            (Except.ok [Event.Focus true], { s with _in := inp.drop 3 })) ∧
        (focus_out <+: inp →
          read s w arrived junk now =
            (Except.ok [Event.Focus false], { s with _in := inp.drop 3 })) ∧
        (¬ focus_in <+: inp → ¬ focus_out <+: inp →
          (∀ k, scan_keys s._key_sequences inp = some k →
            read s w arrived junk now =
              (Except.ok [Event.Key k.key k.mods],
                { s with _in := inp.drop k.sequence.length })) ∧
          (scan_keys s._key_sequences inp = none →
            ∀ cp eaten, parse_utf8 inp = some (Event.Input cp, eaten) →
              read s w arrived junk now =
                (Except.ok (Event.Input cp :: companion_key cp),
                  { s with _in := inp.drop eaten })))) ∧
      (∀ btn x y t rest, is_decimal btn = true → is_decimal x = true → is_decimal y = true →
        (t = 0x4d ∨ t = 0x6d) → (mouse_report btn x y t).length ≤ max_mouse_seq_len →
        inp = mouse_report btn x y t ++ rest →
        ∃ ev s1, read s w arrived junk now = (Except.ok [ev], s1) ∧ s1._in = rest ∧
          ev.position.isSome = true) ∧
      (∀ r, inp = 0x1b :: 0x5b :: 0x3c :: r →
        (inp.length < 9 ∨ (∀ c ∈ mouse_window inp junk, c ≠ 0x4d ∧ c ≠ 0x6d) ∨
          scan_len (mouse_window inp junk) < 6 ∨
          (split ((mouse_window inp junk).take (scan_len (mouse_window inp junk) - 1))
            0x3b).length ≠ 3) →
        read s w arrived junk now =
          (Except.ok [Event.Key Key.ESCAPE key.NoMod], { s with _in := inp.drop 1 })) := by
  refine ⟨?_, ?_, ?_, ?_⟩
  · intro ev eaten s1 hm hpos hle
    rw [read_of_fetch junk now hb, decode_mouse_some hm hpos hle]
    simp
  · intro hm
    refine ⟨?_, ?_, ?_⟩
    · intro hf
      rw [read_of_fetch junk now hb, decode_of_mouse_none hm, decode_rest_focus_in hf]
      simp
    · intro hf
      by_cases hi : focus_in <+: inp
      · exfalso
        have h1 := List.prefix_of_prefix_length_le hi hf (le_refl _)
        have := h1.eq_of_length rfl
        exact absurd this (by decide)
      · rw [read_of_fetch junk now hb, decode_of_mouse_none hm, decode_rest_focus_out hi hf]
        simp
    · intro hfi hfo
      refine ⟨?_, ?_⟩
      · intro k hk
        have hfi' : focus_in.isPrefixOf inp = false :=
          Bool.eq_false_iff.2 (fun h => hfi (List.isPrefixOf_iff_prefix.1 h))
        have hfo' : focus_out.isPrefixOf inp = false :=
          Bool.eq_false_iff.2 (fun h => hfo (List.isPrefixOf_iff_prefix.1 h))
        rw [read_of_fetch junk now hb, decode_of_mouse_none hm,
          decode_rest_key (s := { s with _in := [] }) hfi' hfo' hk]
        simp
      · intro hk cp eaten hu
        rw [read_of_fetch junk now hb, decode_of_mouse_none hm,
          decode_rest_utf8 (s := { s with _in := [] }) hfi hfo hk hu]
        simp
  · intro btn x y t rest hbtn hx hy htm hfit hinp
    subst hinp
    obtain ⟨ev, s1, hev, hpos, -, -, -⟩ := mouse_event_some { s with _in := [] } now
      (digits_value btn) (size_t_pred (digits_value x)) (size_t_pred (digits_value y)) t
      (btn.length + x.length + y.length + 3) htm
    exact ⟨ev, { s1 with _in := rest },
      read_report s w arrived junk now rest hbtn hx hy htm hfit hb hev, rfl, by rw [hpos]; rfl⟩
  · intro r hinp hfail
    have hm := mouse_stage_fail { s with _in := [] } now inp junk hfail
    have hscan : scan_keys s._key_sequences inp =
        some (KeySequence.mk [0x1b] key.NoMod Key.ESCAPE) := by
      rw [hinp]; exact scan_keys_escape ht r
    have hfi : focus_in.isPrefixOf inp = false := by rw [hinp]; rfl
    have hfo : focus_out.isPrefixOf inp = false := by rw [hinp]; rfl
    rw [read_of_fetch junk now hb, decode_of_mouse_none hm,
      decode_rest_key (s := { s with _in := [] }) hfi hfo hscan]
    simp

end Input

end termic

namespace termic

open event (Event)
open key (Key Modifier)

namespace Input

set_option maxRecDepth 100000 in
/-- The scenarios of claim C5: `ESC [ < 0 ; 10 ; 5 M` is decoded by the mouse stage as a mouse
event, and `ESC [ < 0 ; 1 ; 1 ; 1 M`, which has four fields, is decoded as
`Key{ESCAPE, NoMod}` with one byte consumed and the ten bytes after it pushed back. -/
theorem read_stage_order_witness :
    (∃ ev s1,
        read (Input.mk [0x1b, 0x5b, 0x3c, 0x30, 0x3b, 0x31, 0x30, 0x3b, 0x35, 0x4d]
          (sort_sequences key_sequences_literal) 0 300) WaitResult.InputReceived [] [] 1000 =
            (Except.ok [ev], s1) ∧ s1._in = [] ∧ ev.position.isSome = true) ∧
      read (Input.mk [0x1b, 0x5b, 0x3c, 0x30, 0x3b, 0x31, 0x3b, 0x31, 0x3b, 0x31, 0x4d]
          (sort_sequences key_sequences_literal) 0 300) WaitResult.InputReceived [] [] 1000 =
        (Except.ok [Event.Key Key.ESCAPE key.NoMod],
          Input.mk [0x5b, 0x3c, 0x30, 0x3b, 0x31, 0x3b, 0x31, 0x3b, 0x31, 0x4d]
            (sort_sequences key_sequences_literal) 0 300) :=
  ⟨(read_stage_order
      (Input.mk [0x1b, 0x5b, 0x3c, 0x30, 0x3b, 0x31, 0x30, 0x3b, 0x35, 0x4d]
        (sort_sequences key_sequences_literal) 0 300) WaitResult.InputReceived [] [] 1000
      [0x1b, 0x5b, 0x3c, 0x30, 0x3b, 0x31, 0x30, 0x3b, 0x35, 0x4d] sortedTable_sort
      rfl).2.2.1 [0x30] [0x31, 0x30] [0x35] 0x4d [] rfl rfl rfl (Or.inl rfl) (by decide) rfl,
    (read_stage_order
      (Input.mk [0x1b, 0x5b, 0x3c, 0x30, 0x3b, 0x31, 0x3b, 0x31, 0x3b, 0x31, 0x4d]
        (sort_sequences key_sequences_literal) 0 300) WaitResult.InputReceived [] [] 1000
      [0x1b, 0x5b, 0x3c, 0x30, 0x3b, 0x31, 0x3b, 0x31, 0x3b, 0x31, 0x4d] sortedTable_sort
      rfl).2.2.2 [0x30, 0x3b, 0x31, 0x3b, 0x31, 0x3b, 0x31, 0x4d] rfl
        (Or.inr (Or.inr (Or.inr (by decide!))))⟩

/-! ## What `read` puts back -/

theorem revert_substr_ok {s s' : Input} {inp : List Nat} {pos : Nat} {evs evs' : List Event}
    (h : revert_substr s inp pos evs = (Except.ok evs', s')) :
    evs' = evs ∧ pos ≤ inp.length ∧ s'._in = inp.drop pos ++ s._in := by
  unfold revert_substr at h
  split_ifs at h with hlt
  · cases h
  · simp only [Prod.mk.injEq, Except.ok.injEq] at h
    refine ⟨h.1.symm, Nat.not_lt.1 hlt, ?_⟩
    rw [← h.2, revert_eq]

set_option maxRecDepth 100000 in
/-- A report with an empty field: on `ESC [ < ; 1 ; 1 1 M a b c d e f g` the call of
`std::stoul` on the first field raises `std::invalid_argument`; `read` is left by the
exception after the sixteen bytes were taken off the stream, and none is put back. -/
theorem read_throws_on_empty_field :
    read (Input.mk [0x1b, 0x5b, 0x3c, 0x3b, 0x31, 0x3b, 0x31, 0x31, 0x4d, 0x61, 0x62, 0x63,
          0x64, 0x65, 0x66, 0x67] (sort_sequences key_sequences_literal) 0 300)
        WaitResult.InputReceived [] [] 1000 =
      (Except.error Exn.invalid_argument,
        Input.mk [] (sort_sequences key_sequences_literal) 0 300) := by
  decide!

end Input

end termic

namespace termic

open event (Event)
open key (Key Modifier)

namespace Input

/-! ## Printable ASCII -/

set_option maxRecDepth 100000 in
theorem literal_first_byte : ∀ k ∈ key_sequences_literal,
    k.sequence.headD 0x41 < 0x20 ∨ k.sequence.headD 0x41 = 0x7f := by
  decide!

theorem scan_keys_printable {table : List KeySequence} (ht : SortedTable table) {c : Nat}
    (rest : List Nat) (h1 : 0x20 ≤ c) (h2 : c < 0x7f) : scan_keys table (c :: rest) = none := by
  unfold scan_keys
  rw [List.find?_eq_none]
  intro k hk hpre
  have hfirst := literal_first_byte k (ht.1.mem_iff.1 hk)
  have hp := List.isPrefixOf_iff_prefix.1 hpre
  cases hseq : k.sequence with
  | nil => rw [hseq] at hfirst; simp at hfirst
  | cons a as =>
    rw [hseq] at hfirst hp
    have hac : a = c := by
      obtain ⟨t, ht'⟩ := hp
      simp only [List.cons_append, List.cons.injEq] at ht'
      exact ht'.1
    simp only [List.headD_cons] at hfirst
    rw [hac] at hfirst
    have hfirst' : c < 32 ∨ c = 127 := hfirst
    omega

theorem parse_utf8_ascii {c : Nat} (rest : List Nat) (h : c < 0x80) :
    parse_utf8 (c :: rest) = some (Event.Input c, 1) := by
  unfold parse_utf8 utf8.read_one
  simp [h]

/-- A printable ASCII byte other than DEL at the head of the input reaches the UTF-8 stage:
`read` consumes that one byte and returns its `Input` event followed by the companion `Key`
event, if any. -/
theorem read_printable (s : Input) (w : WaitResult) (arrived junk : List Nat) (now : Nat)
    (c : Nat) (rest : List Nat) (ht : SortedTable s._key_sequences)
    (hb : fetch s w arrived = some (c :: rest)) (h1 : 0x20 ≤ c) (h2 : c < 0x7f) :
    read s w arrived junk now =
      (Except.ok (Event.Input c :: companion_key c), { s with _in := rest }) := by
  have hc : c ≠ 0x1b := by omega
  have hm : mouse_stage { s with _in := [] } now (c :: rest) junk =
      Except.ok (none, { s with _in := [] }) := by
    unfold mouse_stage
    rw [if_neg]
    rintro ⟨-, hp⟩
    simp [List.isPrefixOf, mouse_prefix, Ne.symm hc] at hp
  have hfi : ¬ focus_in <+: c :: rest := by
    rintro ⟨t, ht'⟩
    simp only [focus_in, List.cons_append, List.cons.injEq] at ht'
    exact hc ht'.1.symm
  have hfo : ¬ focus_out <+: c :: rest := by
    rintro ⟨t, ht'⟩
    simp only [focus_out, List.cons_append, List.cons.injEq] at ht'
    exact hc ht'.1.symm
  rw [read_of_fetch junk now hb, decode_of_mouse_none hm,
    decode_rest_utf8 (s := { s with _in := [] }) hfi hfo (scan_keys_printable ht rest h1 h2)
      (parse_utf8_ascii rest (by omega))]
  simp

/-- Claim C6. For every input whose first byte `c` is an ASCII letter, digit or space, `read`
consumes exactly that byte and returns exactly two events, `Input{c}` and then a `Key` event:
`A..Z` gives `Key{A + (c - 'A'), SHIFT}`, `a..z` gives `Key{A + (c - 'a'), NoMod}`, `0..9`
gives `Key{_0 + (c - '0'), NoMod}` and space gives `Key{SPACE, NoMod}`.  For every other
codepoint that the UTF-8 stage decodes only the `Input` event is returned. -/
theorem read_ascii (s : Input) (w : WaitResult) (arrived junk : List Nat) (now : Nat)
    (inp : List Nat) (ht : SortedTable s._key_sequences)
    (hb : fetch s w arrived = some inp) :
    (∀ c rest, inp = c :: rest →
      (0x41 ≤ c ∧ c ≤ 0x5a →
        read s w arrived junk now =
          (Except.ok [Event.Input c, Event.Key (key.letter (c - 0x41)) key.SHIFT],
            { s with _in := rest })) ∧
      (0x61 ≤ c ∧ c ≤ 0x7a →
        read s w arrived junk now =
          (Except.ok [Event.Input c, Event.Key (key.letter (c - 0x61)) key.NoMod],
            { s with _in := rest })) ∧
      (0x30 ≤ c ∧ c ≤ 0x39 →
        read s w arrived junk now =
          (Except.ok [Event.Input c, Event.Key (key.digit (c - 0x30)) key.NoMod],
            { s with _in := rest })) ∧
      (c = 0x20 →
        read s w arrived junk now =
          (Except.ok [Event.Input c, Event.Key Key.SPACE key.NoMod],
            { s with _in := rest }))) ∧
    (∀ cp eaten,
      mouse_stage { s with _in := [] } now inp junk = Except.ok (none, { s with _in := [] }) →
      ¬ focus_in <+: inp → ¬ focus_out <+: inp → scan_keys s._key_sequences inp = none →
      parse_utf8 inp = some (Event.Input cp, eaten) →
      ¬ (0x41 ≤ cp ∧ cp ≤ 0x5a) → ¬ (0x61 ≤ cp ∧ cp ≤ 0x7a) → ¬ (0x30 ≤ cp ∧ cp ≤ 0x39) →
      cp ≠ 0x20 →
      read s w arrived junk now = (Except.ok [Event.Input cp], { s with _in := inp.drop eaten }))
    := by
  constructor
  · intro c rest hinp
    subst hinp
    refine ⟨?_, ?_, ?_, ?_⟩
    · intro h
      rw [read_printable s w arrived junk now c rest ht hb (by omega) (by omega)]
      unfold companion_key
      rw [if_pos h]
    · intro h
      have hn : ¬ (0x41 ≤ c ∧ c ≤ 0x5a) := by omega
      rw [read_printable s w arrived junk now c rest ht hb (by omega) (by omega)]
      unfold companion_key
      rw [if_neg hn, if_pos h]
    · intro h
      have hn : ¬ (0x41 ≤ c ∧ c ≤ 0x5a) := by omega
      have hn2 : ¬ (0x61 ≤ c ∧ c ≤ 0x7a) := by omega
      rw [read_printable s w arrived junk now c rest ht hb (by omega) (by omega)]
      unfold companion_key
      rw [if_neg hn, if_neg hn2, if_pos h]
    · intro h
      have hn : ¬ (0x41 ≤ c ∧ c ≤ 0x5a) := by omega
      have hn2 : ¬ (0x61 ≤ c ∧ c ≤ 0x7a) := by omega
      have hn3 : ¬ (0x30 ≤ c ∧ c ≤ 0x39) := by omega
      rw [read_printable s w arrived junk now c rest ht hb (by omega) (by omega)]
      unfold companion_key
      rw [if_neg hn, if_neg hn2, if_neg hn3, if_pos h]
  · intro cp eaten hm hfi hfo hscan hu h1 h2 h3 h4
    rw [read_of_fetch junk now hb, decode_of_mouse_none hm,
      decode_rest_utf8 (s := { s with _in := [] }) hfi hfo hscan hu]
    unfold companion_key
    rw [if_neg h1, if_neg h2, if_neg h3, if_neg h4]
    simp

/-- The scenario of claim C6: the byte `61` gives `Input{0x61}` and then `Key{A, NoMod}`. -/
theorem read_ascii_witness :
    read (Input.mk [0x61] (sort_sequences key_sequences_literal) 0 300)
        WaitResult.InputReceived [] [] 1000 =
      (Except.ok [Event.Input 0x61, Event.Key Key.A key.NoMod],
        Input.mk [] (sort_sequences key_sequences_literal) 0 300) :=
  ((read_ascii (Input.mk [0x61] (sort_sequences key_sequences_literal) 0 300)
    WaitResult.InputReceived [] [] 1000 [0x61] sortedTable_sort rfl).1 0x61 [] rfl).2.1
      (by decide)

end Input

end termic

namespace termic

open event (Event)
open key (Key Modifier)

namespace Input

/-! ## Modifiers, button index and double click of mouse reports -/

theorem mouse_mods_shift (bm : Nat) : (mouse_mods bm).shift = true ↔ bm &&& 0x04 ≠ 0 := by
  unfold mouse_mods
  by_cases h1 : bm &&& 0x04 > 0 <;> by_cases h2 : bm &&& 0x08 > 0 <;>
    by_cases h3 : bm &&& 0x10 > 0 <;>
    simp [h1, h2, h3, HOr.hOr, OrOp.or, Modifier.or, key.NoMod, key.SHIFT, key.ALT, key.CTRL] <;>
    omega

theorem mouse_mods_alt (bm : Nat) : (mouse_mods bm).alt = true ↔ bm &&& 0x08 ≠ 0 := by
  unfold mouse_mods
  by_cases h1 : bm &&& 0x04 > 0 <;> by_cases h2 : bm &&& 0x08 > 0 <;>
    by_cases h3 : bm &&& 0x10 > 0 <;>
    simp [h1, h2, h3, HOr.hOr, OrOp.or, Modifier.or, key.NoMod, key.SHIFT, key.ALT, key.CTRL] <;>
    omega

theorem mouse_mods_ctrl (bm : Nat) : (mouse_mods bm).ctrl = true ↔ bm &&& 0x10 ≠ 0 := by
  unfold mouse_mods
  by_cases h1 : bm &&& 0x04 > 0 <;> by_cases h2 : bm &&& 0x08 > 0 <;>
    by_cases h3 : bm &&& 0x10 > 0 <;>
    simp [h1, h2, h3, HOr.hOr, OrOp.or, Modifier.or, key.NoMod, key.SHIFT, key.ALT, key.CTRL] <;>
    omega

theorem mouse_event_modifiers {s s1 : Input} {now bm x y t len n : Nat} {ev : Event}
    (h : mouse_event s now bm x y t len = (some (ev, n), s1)) :
    ev.mouse_modifiers = some (mouse_mods bm) := by
  unfold mouse_event at h
  simp only [] at h
  split_ifs at h <;>
    first
    | (simp only [Prod.mk.injEq, Option.some.injEq] at h
       obtain ⟨⟨rfl, -⟩, -⟩ := h
       rfl)
    | (simp only [Prod.mk.injEq] at h
       exact absurd h.1 (by simp))

theorem mouse_event_button_press (s : Input) (now : Nat) {bm : Nat} (x y len : Nat)
    (h : bm &&& 0x20 = 0) (hr : bm < 64 ∨ 128 ≤ bm) :
    mouse_event s now bm x y 0x4d len =
      if mouse_button_of bm = 0 then
        if elapsed_s s now < s._double_click_duration then
          (some (Event.MouseButton (mouse_button_of bm) false false true x y (mouse_mods bm),
            len), s)
        else
          (some (Event.MouseButton (mouse_button_of bm) true false false x y (mouse_mods bm),
            len), { s with _mouse_button_press := now })
      else
        (some (Event.MouseButton (mouse_button_of bm) true false false x y (mouse_mods bm),
          len), s) := by
  unfold mouse_event
  rcases hr with hr | hr
  · have h1 : ¬ bm ≥ 128 := by omega
    have h2 : ¬ bm ≥ 64 := by omega
    simp [h, h1, h2]
  · have h1 : bm ≥ 128 := hr
    simp [h, h1]

theorem mouse_event_button_release (s : Input) (now : Nat) {bm : Nat} (x y len : Nat)
    (h : bm &&& 0x20 = 0) (hr : bm < 64 ∨ 128 ≤ bm) :
    mouse_event s now bm x y 0x6d len =
      (some (Event.MouseButton (mouse_button_of bm) false true false x y (mouse_mods bm), len),
        s) := by
  unfold mouse_event
  rcases hr with hr | hr
  · have h1 : ¬ bm ≥ 128 := by omega
    have h2 : ¬ bm ≥ 64 := by omega
    simp [h, h1, h2]
  · have h1 : bm ≥ 128 := hr
    simp [h, h1]

/-- Claim C11. For every accepted mouse report the event that `read` returns is a mouse event
whose modifier set holds SHIFT exactly when `btn & 0x04` is not zero, ALT exactly when
`btn & 0x08` is not zero and CTRL exactly when `btn & 0x10` is not zero; the set has no other
member. -/
theorem read_mouse_modifiers (s : Input) (w : WaitResult) (arrived junk : List Nat) (now : Nat)
    (btn x y : List Nat) (t : Nat) (rest : List Nat)
    (hbtn : is_decimal btn = true) (hx : is_decimal x = true) (hy : is_decimal y = true)
    (ht : t = 0x4d ∨ t = 0x6d)
    (hfit : (mouse_report btn x y t).length ≤ max_mouse_seq_len)
    (hb : fetch s w arrived = some (mouse_report btn x y t ++ rest)) :
    ∃ ev s1 m, read s w arrived junk now = (Except.ok [ev], s1) ∧
      ev.mouse_modifiers = some m ∧
      (m.shift = true ↔ digits_value btn &&& 0x04 ≠ 0) ∧
      (m.alt = true ↔ digits_value btn &&& 0x08 ≠ 0) ∧
      (m.ctrl = true ↔ digits_value btn &&& 0x10 ≠ 0) := by
  obtain ⟨ev, s1, hev, -, -, -, -⟩ := mouse_event_some { s with _in := [] } now
    (digits_value btn) (size_t_pred (digits_value x)) (size_t_pred (digits_value y)) t
    (btn.length + x.length + y.length + 3) ht
  exact ⟨ev, { s1 with _in := rest }, mouse_mods (digits_value btn),
    read_report s w arrived junk now rest hbtn hx hy ht hfit hb hev,
    mouse_event_modifiers hev, mouse_mods_shift _, mouse_mods_alt _, mouse_mods_ctrl _⟩

/-- Claim C12. For every accepted press or release report with bit `0x20` of `btn` clear, the
event is a `MouseButton` whose button is `btn & 0x0f` when `btn < 64`, and
`((btn & ~0x80) + 5)` truncated to 8 bits when `btn ≥ 128` (the mask `~0x80u` is the 32-bit
value `0xffffff7f`). -/
theorem read_mouse_button_index (s : Input) (w : WaitResult) (arrived junk : List Nat)
    (now : Nat) (btn x y : List Nat) (t : Nat) (rest : List Nat)
    (hbtn : is_decimal btn = true) (hx : is_decimal x = true) (hy : is_decimal y = true)
    (ht : t = 0x4d ∨ t = 0x6d)
    (hfit : (mouse_report btn x y t).length ≤ max_mouse_seq_len)
    (hbit : digits_value btn &&& 0x20 = 0)
    (hb : fetch s w arrived = some (mouse_report btn x y t ++ rest)) :
    (digits_value btn < 64 →
        ∃ pressed released double_clicked mx my m s1,
          read s w arrived junk now =
            (Except.ok [Event.MouseButton (digits_value btn &&& 0x0f) pressed released
              double_clicked mx my m], s1)) ∧
      (128 ≤ digits_value btn →
        ∃ pressed released double_clicked mx my m s1,
          read s w arrived junk now =
            (Except.ok [Event.MouseButton (((digits_value btn &&& 0xffffff7f) + 5) % 256)
              pressed released double_clicked mx my m], s1)) := by
  have key : (digits_value btn < 64 ∨ 128 ≤ digits_value btn) →
      ∃ pressed released double_clicked mx my m s1,
        read s w arrived junk now =
          (Except.ok [Event.MouseButton (mouse_button_of (digits_value btn)) pressed released
            double_clicked mx my m], s1) := by
    intro hr
    rcases ht with rfl | rfl
    · have hev := mouse_event_button_press { s with _in := [] } now
        (size_t_pred (digits_value x)) (size_t_pred (digits_value y))
        (btn.length + x.length + y.length + 3) hbit hr
      split_ifs at hev
      · exact ⟨_, _, _, _, _, _, _,
          read_report s w arrived junk now rest hbtn hx hy (Or.inl rfl) hfit hb hev⟩
      · exact ⟨_, _, _, _, _, _, _,
          read_report s w arrived junk now rest hbtn hx hy (Or.inl rfl) hfit hb hev⟩
      · exact ⟨_, _, _, _, _, _, _,
          read_report s w arrived junk now rest hbtn hx hy (Or.inl rfl) hfit hb hev⟩
    · exact ⟨_, _, _, _, _, _, _,
        read_report s w arrived junk now rest hbtn hx hy (Or.inr rfl) hfit hb
          (mouse_event_button_release { s with _in := [] } now _ _ _ hbit hr)⟩
  constructor
  · intro hlt
    have h1 : ¬ digits_value btn ≥ 128 := by omega
    have h2 : ¬ digits_value btn ≥ 64 := by omega
    have := key (Or.inl hlt)
    unfold mouse_button_of at this
    rwa [if_neg h1, if_neg h2] at this
  · intro hge
    have := key (Or.inr hge)
    unfold mouse_button_of at this
    rwa [if_pos hge] at this

/-- Claim C13. Double-click classification of a press (final byte `M`, bit `0x20` clear, not a
wheel report), with `e` the reading of the press stopwatch and `d` the double-click duration:
for button index 0, if `e < d` the event has `pressed = false`, `double_clicked = true` and
the stopwatch is left running; if `e ≥ d` (also when `e = d`) the event has `pressed = true`,
`double_clicked = false` and the stopwatch is reset; for any other button the event has
`pressed = true`, `double_clicked = false` and the stopwatch is untouched. -/
theorem read_double_click (s : Input) (w : WaitResult) (arrived junk : List Nat) (now : Nat)
    (btn x y : List Nat) (rest : List Nat)
    (hbtn : is_decimal btn = true) (hx : is_decimal x = true) (hy : is_decimal y = true)
    (hfit : (mouse_report btn x y 0x4d).length ≤ max_mouse_seq_len)
    (hbit : digits_value btn &&& 0x20 = 0)
    (hr : digits_value btn < 64 ∨ 128 ≤ digits_value btn)
    (hb : fetch s w arrived = some (mouse_report btn x y 0x4d ++ rest)) :
    (mouse_button_of (digits_value btn) = 0 → elapsed_s s now < s._double_click_duration →
        read s w arrived junk now =
          (Except.ok [Event.MouseButton 0 false false true (size_t_pred (digits_value x))
            (size_t_pred (digits_value y)) (mouse_mods (digits_value btn))],
            { s with _in := rest })) ∧
      (mouse_button_of (digits_value btn) = 0 → s._double_click_duration ≤ elapsed_s s now →
        read s w arrived junk now =
          (Except.ok [Event.MouseButton 0 true false false (size_t_pred (digits_value x))
            (size_t_pred (digits_value y)) (mouse_mods (digits_value btn))],
            { s with _in := rest, _mouse_button_press := now }) ∧
        elapsed_s { s with _in := rest, _mouse_button_press := now } now = 0) ∧
      (mouse_button_of (digits_value btn) ≠ 0 →
        read s w arrived junk now =
          (Except.ok [Event.MouseButton (mouse_button_of (digits_value btn)) true false false
            (size_t_pred (digits_value x)) (size_t_pred (digits_value y))
            (mouse_mods (digits_value btn))], { s with _in := rest })) := by
  have hev := mouse_event_button_press { s with _in := [] } now
    (size_t_pred (digits_value x)) (size_t_pred (digits_value y))
    (btn.length + x.length + y.length + 3) hbit hr
  refine ⟨?_, ?_, ?_⟩
  · intro hz he
    have he' : elapsed_s { s with _in := [] } now <
        ({ s with _in := [] } : Input)._double_click_duration := he
    rw [if_pos hz, if_pos he', hz] at hev
    rw [read_report s w arrived junk now rest hbtn hx hy (Or.inl rfl) hfit hb hev]
  · intro hz he
    have he' : ¬ elapsed_s { s with _in := [] } now <
        ({ s with _in := [] } : Input)._double_click_duration := Nat.not_lt.2 he
    rw [if_pos hz, if_neg he', hz] at hev
    rw [read_report s w arrived junk now rest hbtn hx hy (Or.inl rfl) hfit hb hev]
    exact ⟨rfl, by simp [elapsed_s]⟩
  · intro hz
    rw [if_neg hz] at hev
    rw [read_report s w arrived junk now rest hbtn hx hy (Or.inl rfl) hfit hb hev]

/-! ## Focus reports -/

/-- Claim C14. For every input that begins with `ESC [ I` (respectively `ESC [ O`), whatever
the key table holds, `read` returns exactly `[Focus{focused = true}]` (respectively
`[Focus{focused = false}]`), consumes exactly those three bytes and pushes the remaining bytes
back. -/
theorem read_focus (s : Input) (w : WaitResult) (arrived junk : List Nat) (now : Nat)
    (inp rest : List Nat) (hb : fetch s w arrived = some inp) :
    (inp = focus_in ++ rest →
        read s w arrived junk now = (Except.ok [Event.Focus true], { s with _in := rest })) ∧
      (inp = focus_out ++ rest →
        read s w arrived junk now = (Except.ok [Event.Focus false], { s with _in := rest })) := by
  constructor
  · rintro rfl
    have hm : mouse_stage { s with _in := [] } now (focus_in ++ rest) junk =
        Except.ok (none, { s with _in := [] }) := by
      unfold mouse_stage
      rw [if_neg]
      rintro ⟨-, hp⟩
      simp [List.isPrefixOf, focus_in, mouse_prefix] at hp
    rw [read_of_fetch junk now hb, decode_of_mouse_none hm,
      decode_rest_focus_in (List.prefix_append _ _)]
    simp [focus_in]
  · rintro rfl
    have hm : mouse_stage { s with _in := [] } now (focus_out ++ rest) junk =
        Except.ok (none, { s with _in := [] }) := by
      unfold mouse_stage
      rw [if_neg]
      rintro ⟨-, hp⟩
      simp [List.isPrefixOf, focus_out, mouse_prefix] at hp
    have hi : ¬ focus_in <+: focus_out ++ rest := by
      rintro ⟨t, ht⟩
      simp [focus_in, focus_out] at ht
    rw [read_of_fetch junk now hb, decode_of_mouse_none hm,
      decode_rest_focus_out hi (List.prefix_append _ _)]
    simp [focus_out]

end Input

end termic

namespace termic

open event (Event)
open key (Key Modifier)

namespace Input

/-- The scenario of claim C11: `ESC [ < 28 ; 1 ; 1 M`, whose `btn` has the bits `0x04`, `0x08`
and `0x10` set, yields an event with SHIFT, ALT and CTRL. -/
theorem read_mouse_modifiers_witness :
    ∃ ev s1 m,
      read (Input.mk [0x1b, 0x5b, 0x3c, 0x32, 0x38, 0x3b, 0x31, 0x3b, 0x31, 0x4d]
        (sort_sequences key_sequences_literal) 0 300) WaitResult.InputReceived [] [] 1000 =
          (Except.ok [ev], s1) ∧
      ev.mouse_modifiers = some m ∧
      (m.shift = true ↔ digits_value [0x32, 0x38] &&& 0x04 ≠ 0) ∧
      (m.alt = true ↔ digits_value [0x32, 0x38] &&& 0x08 ≠ 0) ∧
      (m.ctrl = true ↔ digits_value [0x32, 0x38] &&& 0x10 ≠ 0) :=
  read_mouse_modifiers _ WaitResult.InputReceived [] [] 1000 [0x32, 0x38] [0x31] [0x31] 0x4d []
    rfl rfl rfl (Or.inl rfl) (by decide) rfl

set_option maxRecDepth 100000 in
/-- The scenarios of claim C12: `ESC [ < 4 ; 1 ; 1 M` (Shift held with button 0) is reported
as button 4 with SHIFT, and `ESC [ < 128 ; 1 ; 1 M` as button 5. -/
theorem read_mouse_button_index_witness :
    (∃ pressed released double_clicked mx my m s1,
        read (Input.mk [0x1b, 0x5b, 0x3c, 0x34, 0x3b, 0x31, 0x3b, 0x31, 0x4d]
          (sort_sequences key_sequences_literal) 0 300) WaitResult.InputReceived [] [] 1000 =
            (Except.ok [Event.MouseButton 4 pressed released double_clicked mx my m], s1)) ∧
      read (Input.mk [0x1b, 0x5b, 0x3c, 0x34, 0x3b, 0x31, 0x3b, 0x31, 0x4d]
          (sort_sequences key_sequences_literal) 0 300) WaitResult.InputReceived [] [] 1000 =
        (Except.ok [Event.MouseButton 4 true false false 0 0 key.SHIFT],
          Input.mk [] (sort_sequences key_sequences_literal) 0 300) ∧
      (∃ pressed released double_clicked mx my m s1,
        read (Input.mk [0x1b, 0x5b, 0x3c, 0x31, 0x32, 0x38, 0x3b, 0x31, 0x3b, 0x31, 0x4d]
          (sort_sequences key_sequences_literal) 0 300) WaitResult.InputReceived [] [] 1000 =
            (Except.ok [Event.MouseButton 5 pressed released double_clicked mx my m], s1)) :=
  ⟨(read_mouse_button_index
      (Input.mk [0x1b, 0x5b, 0x3c, 0x34, 0x3b, 0x31, 0x3b, 0x31, 0x4d]
        (sort_sequences key_sequences_literal) 0 300) WaitResult.InputReceived [] [] 1000
      [0x34] [0x31] [0x31] 0x4d [] rfl rfl rfl (Or.inl rfl) (by decide) (by decide) rfl).1
      (by decide),
    by decide!,
    (read_mouse_button_index
      (Input.mk [0x1b, 0x5b, 0x3c, 0x31, 0x32, 0x38, 0x3b, 0x31, 0x3b, 0x31, 0x4d]
        (sort_sequences key_sequences_literal) 0 300) WaitResult.InputReceived [] [] 1000
      [0x31, 0x32, 0x38] [0x31] [0x31] 0x4d [] rfl rfl rfl (Or.inl rfl) (by decide) (by decide)
      rfl).2 (by decide)⟩

/-- The scenarios of claim C13 for `ESC [ < 0 ; 1 ; 1 M` with the stopwatch started at 0 and
the duration 300: at 100 the press is a double click and the stopwatch keeps its start, at
exactly 300 it is a new press and the stopwatch restarts at 300; `ESC [ < 1 ; 1 ; 1 M` at 100
is a plain press of button 1. -/
theorem read_double_click_witness :
    read (Input.mk [0x1b, 0x5b, 0x3c, 0x30, 0x3b, 0x31, 0x3b, 0x31, 0x4d]
          (sort_sequences key_sequences_literal) 0 300) WaitResult.InputReceived [] [] 100 =
        (Except.ok [Event.MouseButton 0 false false true 0 0 key.NoMod],
          Input.mk [] (sort_sequences key_sequences_literal) 0 300) ∧
      read (Input.mk [0x1b, 0x5b, 0x3c, 0x30, 0x3b, 0x31, 0x3b, 0x31, 0x4d]
          (sort_sequences key_sequences_literal) 0 300) WaitResult.InputReceived [] [] 300 =
        (Except.ok [Event.MouseButton 0 true false false 0 0 key.NoMod],
          Input.mk [] (sort_sequences key_sequences_literal) 300 300) ∧
      read (Input.mk [0x1b, 0x5b, 0x3c, 0x31, 0x3b, 0x31, 0x3b, 0x31, 0x4d]
          (sort_sequences key_sequences_literal) 0 300) WaitResult.InputReceived [] [] 100 =
        (Except.ok [Event.MouseButton 1 true false false 0 0 key.NoMod],
          Input.mk [] (sort_sequences key_sequences_literal) 0 300) :=
  ⟨(read_double_click
      (Input.mk [0x1b, 0x5b, 0x3c, 0x30, 0x3b, 0x31, 0x3b, 0x31, 0x4d]
        (sort_sequences key_sequences_literal) 0 300) WaitResult.InputReceived [] [] 100
      [0x30] [0x31] [0x31] [] rfl rfl rfl (by decide) (by decide) (Or.inl (by decide)) rfl).1
      (by decide) (by decide),
    ((read_double_click
      (Input.mk [0x1b, 0x5b, 0x3c, 0x30, 0x3b, 0x31, 0x3b, 0x31, 0x4d]
        (sort_sequences key_sequences_literal) 0 300) WaitResult.InputReceived [] [] 300
      [0x30] [0x31] [0x31] [] rfl rfl rfl (by decide) (by decide) (Or.inl (by decide)) rfl).2.1
      (by decide) (by decide)).1,
    (read_double_click
      (Input.mk [0x1b, 0x5b, 0x3c, 0x31, 0x3b, 0x31, 0x3b, 0x31, 0x4d]
        (sort_sequences key_sequences_literal) 0 300) WaitResult.InputReceived [] [] 100
      [0x31] [0x31] [0x31] [] rfl rfl rfl (by decide) (by decide) (Or.inl (by decide)) rfl).2.2
      (by decide)⟩

/-- The scenario of claim C14: `1b 5b 49` gives `Focus{focused = true}`, and `ESC [ O a b`
gives `Focus{focused = false}` with `a b` pushed back. -/
theorem read_focus_witness :
    read (Input.mk [0x1b, 0x5b, 0x49] (sort_sequences key_sequences_literal) 0 300)
          WaitResult.InputReceived [] [] 1000 =
        (Except.ok [Event.Focus true],
          Input.mk [] (sort_sequences key_sequences_literal) 0 300) ∧
      read (Input.mk [0x1b, 0x5b, 0x4f, 0x61, 0x62] (sort_sequences key_sequences_literal)
          0 300) WaitResult.InputReceived [] [] 1000 =
        (Except.ok [Event.Focus false],
          Input.mk [0x61, 0x62] (sort_sequences key_sequences_literal) 0 300) :=
  ⟨(read_focus (Input.mk [0x1b, 0x5b, 0x49] (sort_sequences key_sequences_literal) 0 300)
      WaitResult.InputReceived [] [] 1000 [0x1b, 0x5b, 0x49] [] rfl).1 rfl,
    (read_focus
      (Input.mk [0x1b, 0x5b, 0x4f, 0x61, 0x62] (sort_sequences key_sequences_literal) 0 300)
      WaitResult.InputReceived [] [] 1000 [0x1b, 0x5b, 0x4f, 0x61, 0x62] [0x61, 0x62] rfl).2
      rfl⟩

end Input

end termic

namespace termic

open event (Event)
open key (Key Modifier)

namespace Input

/-! ## Entries of the key table -/

/-- Every entry of the key table decodes to its own `Key` event, with nothing left on the
stream. -/
theorem read_table_entry (s : Input) (w : WaitResult) (arrived junk : List Nat) (now : Nat)
    (k : KeySequence) (ht : SortedTable s._key_sequences) (hk : k ∈ s._key_sequences)
    (hb : fetch s w arrived = some k.sequence) :
    read s w arrived junk now =
      (Except.ok [Event.Key k.key k.mods], { s with _in := [] }) := by
  obtain ⟨-, h7, hfi, hfo⟩ := ht.shape hk
  rw [read_of_fetch junk now hb, decode_of_mouse_none (mouse_stage_short (by omega)),
    decode_rest_key (s := { s with _in := [] }) hfi hfo (scan_keys_self ht.2 ht.nodup hk)]
  simp

set_option maxRecDepth 100000 in
theorem function_key_entries :
    ∀ n ∈ List.range' 1 12, ∀ m ∈ List.range' 1 8,
      KeySequence.mk (function_key_sequence n m) (modifier_of_mod m)
        (if n = 12 ∧ m = 8 then Key.F11 else function_key n) ∈ key_sequences_literal := by
  decide!

/-- The conventional sequence of `Fn` with modifier number `mod` decodes to `Key{Fn, S}`,
except that of F12 with all three modifiers, which decodes to `Key{F11, S}`. -/
theorem read_function_key_sequence (s : Input) (w : WaitResult) (arrived junk : List Nat)
    (now : Nat) (n m : Nat) (ht : SortedTable s._key_sequences)
    (hn : 1 ≤ n ∧ n ≤ 12) (hm : 1 ≤ m ∧ m ≤ 8)
    (hb : fetch s w arrived = some (function_key_sequence n m)) :
    read s w arrived junk now =
      (Except.ok [Event.Key (if n = 12 ∧ m = 8 then Key.F11 else function_key n)
        (modifier_of_mod m)], { s with _in := [] }) := by
  have hmem := function_key_entries n (List.mem_range'_1.2 (by omega)) m
    (List.mem_range'_1.2 (by omega))
  exact read_table_entry s w arrived junk now _ ht (ht.1.mem_iff.2 hmem) hb

set_option maxRecDepth 100000 in
/-- Claim C15, the code at its failing input.  `ESC [ 24 ; 8 ~`, the conventional sequence of
F12 with Shift, Alt and Ctrl, decodes to `Key{F11, ALT|CTRL|SHIFT}`; the conventional
sequence of every other function key and modifier set decodes to `Key{Fn, S}`, as
`ESC [ 24 ; 7 ~` does to `Key{F12, ALT|CTRL}`. -/
theorem read_f12_all_modifiers :
    read (Input.mk [0x1b, 0x5b, 0x32, 0x34, 0x3b, 0x38, 0x7e]
          (sort_sequences key_sequences_literal) 0 300) WaitResult.InputReceived [] [] 1000 =
        (Except.ok [Event.Key Key.F11 ALT_CTRL_SHIFT],
          Input.mk [] (sort_sequences key_sequences_literal) 0 300) ∧
      function_key_sequence 12 8 = [0x1b, 0x5b, 0x32, 0x34, 0x3b, 0x38, 0x7e] ∧
      read (Input.mk [0x1b, 0x5b, 0x32, 0x34, 0x3b, 0x37, 0x7e]
          (sort_sequences key_sequences_literal) 0 300) WaitResult.InputReceived [] [] 1000 =
        (Except.ok [Event.Key Key.F12 ALT_CTRL],
          Input.mk [] (sort_sequences key_sequences_literal) 0 300) ∧
      (∀ (s : Input) (w : WaitResult) (arrived junk : List Nat) (now n m : Nat),
        SortedTable s._key_sequences → 1 ≤ n ∧ n ≤ 12 → 1 ≤ m ∧ m ≤ 8 → ¬ (n = 12 ∧ m = 8) →
        fetch s w arrived = some (function_key_sequence n m) →
        read s w arrived junk now =
          (Except.ok [Event.Key (function_key n) (modifier_of_mod m)], { s with _in := [] })) := by
  refine ⟨by decide!, by decide, by decide!, ?_⟩
  intro s w arrived junk now n m ht hn hm hne hb
  have := read_function_key_sequence s w arrived junk now n m ht hn hm hb
  rwa [if_neg hne] at this

/-! ## Control bytes -/

set_option maxRecDepth 100000 in
theorem control_byte_entries :
    ∀ i ∈ List.range 26,
      KeySequence.mk [i + 1] (if i = 8 ∨ i = 9 ∨ i = 12 then key.NoMod else key.CTRL)
        (if i = 7 then Key.BACKSPACE else if i = 8 then Key.TAB
          else if i = 9 ∨ i = 12 then Key.ENTER else key.letter i) ∈ key_sequences_literal := by
  decide!

set_option maxRecDepth 100000 in
/-- Claim C16, the code at a counterexample.  The byte `09`, which is `0x01 + ('I' - 'A')`,
decodes to `Key{TAB, NoMod}` and not to `Key{I, CTRL}`. -/
theorem read_ctrl_i :
    read (Input.mk [0x09] (sort_sequences key_sequences_literal) 0 300)
          WaitResult.InputReceived [] [] 1000 =
        (Except.ok [Event.Key Key.TAB key.NoMod],
          Input.mk [] (sort_sequences key_sequences_literal) 0 300) ∧
      (read (Input.mk [0x09] (sort_sequences key_sequences_literal) 0 300)
          WaitResult.InputReceived [] [] 1000).1 ≠
        Except.ok [Event.Key (key.letter (0x09 - 0x01)) key.CTRL] := by
  decide!

/-- Claim C16, amended.  For every letter `L` in `A..Z` other than `H`, `I`, `J` and `M`, the
one-byte input `0x01 + (L - 'A')` decodes to `Key{L, CTRL}`; the bytes `08`, `09`, `0a` and
`0d` decode to `Key{BACKSPACE, CTRL}`, `Key{TAB, NoMod}`, `Key{ENTER, NoMod}` and
`Key{ENTER, NoMod}`. -/
theorem read_ctrl_letter (s : Input) (w : WaitResult) (arrived junk : List Nat) (now : Nat)
    (i : Nat) (ht : SortedTable s._key_sequences) (hi : i < 26)
    (hb : fetch s w arrived = some [i + 1]) :
    (i ≠ 7 → i ≠ 8 → i ≠ 9 → i ≠ 12 →
        read s w arrived junk now =
          (Except.ok [Event.Key (key.letter i) key.CTRL], { s with _in := [] })) ∧
      (i = 7 →
        read s w arrived junk now =
          (Except.ok [Event.Key Key.BACKSPACE key.CTRL], { s with _in := [] })) ∧
      (i = 8 →
        read s w arrived junk now =
          (Except.ok [Event.Key Key.TAB key.NoMod], { s with _in := [] })) ∧
      (i = 9 ∨ i = 12 →
        read s w arrived junk now =
          (Except.ok [Event.Key Key.ENTER key.NoMod], { s with _in := [] })) := by
  have hmem := control_byte_entries i (List.mem_range.2 hi)
  have hr := read_table_entry s w arrived junk now _ ht (ht.1.mem_iff.2 hmem) hb
  refine ⟨?_, ?_, ?_, ?_⟩
  · intro h7 h8 h9 h12
    have hn : ¬ (i = 8 ∨ i = 9 ∨ i = 12) := by omega
    have hn' : ¬ (i = 9 ∨ i = 12) := by omega
    simpa only [if_neg hn, if_neg h7, if_neg h8, if_neg hn'] using hr
  · rintro rfl
    simpa using hr
  · rintro rfl
    simpa using hr
  · rintro (rfl | rfl) <;> simpa using hr

/-- The amended claim C16 at the bytes `01` (Ctrl+A) and `1a` (Ctrl+Z). -/
theorem read_ctrl_letter_witness :
    read (Input.mk [0x01] (sort_sequences key_sequences_literal) 0 300)
          WaitResult.InputReceived [] [] 1000 =
        (Except.ok [Event.Key Key.A key.CTRL],
          Input.mk [] (sort_sequences key_sequences_literal) 0 300) ∧
      read (Input.mk [0x1a] (sort_sequences key_sequences_literal) 0 300)
          WaitResult.InputReceived [] [] 1000 =
        (Except.ok [Event.Key Key.Z key.CTRL],
          Input.mk [] (sort_sequences key_sequences_literal) 0 300) :=
  ⟨(read_ctrl_letter (Input.mk [0x01] (sort_sequences key_sequences_literal) 0 300)
      WaitResult.InputReceived [] [] 1000 0 sortedTable_sort (by decide) rfl).1
      (by decide) (by decide) (by decide) (by decide),
    (read_ctrl_letter (Input.mk [0x1a] (sort_sequences key_sequences_literal) 0 300)
      WaitResult.InputReceived [] [] 1000 25 sortedTable_sort (by decide) rfl).1
      (by decide) (by decide) (by decide) (by decide)⟩

/-! ## Conflicts in the key table -/

end Input

end termic

namespace termic

namespace Timers

/-! ## Timers -/

theorem map_erase_length_le {κ ν : Type} [DecidableEq κ] (m : List (κ × ν)) (k : κ) :
    (map_erase m k).length ≤ m.length :=
  List.length_filter_le _ _

theorem map_find_erase {κ ν : Type} [DecidableEq κ] (m : List (κ × ν)) (k : κ) :
    map_find (map_erase m k) k = none := by
  unfold map_find map_erase
  rw [Option.map_eq_none', List.find?_eq_none]
  intro e he
  have := (List.mem_filter.1 he).2
  simpa using this

theorem build_pollfds_timer_id_fd (s : Timers) :
    (build_pollfds s)._timer_id_fd = s._timer_id_fd := rfl

/-- The exceptions of `set_timer`: it throws exactly when 16 timers are registered, or both
durations are zero, or one of them is positive and smaller than 10 ms. -/
theorem set_timer_error_iff (s : Timers) (initial interval : Int) (callback : Option Nat)
    (fd rc now : Int) :
    (∃ e, (set_timer s initial interval callback fd rc now).1 = Except.error e) ↔
      (s._timer_id_fd.length = max_timers ∨ (initial = 0 ∧ interval = 0) ∨
        (0 < initial ∧ initial < min_timer_duration) ∨
        (0 < interval ∧ interval < min_timer_duration)) := by
  unfold set_timer
  by_cases h1 : s._timer_id_fd.length = max_timers
  · simp [h1]
  by_cases h2 : initial = 0 ∧ interval = 0
  · simp [h1, h2]
  by_cases h3 : initial > 0 ∧ initial < min_timer_duration
  · rw [if_neg h1, if_neg h2, if_pos h3]
    exact ⟨fun _ => Or.inr (Or.inr (Or.inl h3)), fun _ => ⟨_, rfl⟩⟩
  by_cases h4 : interval > 0 ∧ interval < min_timer_duration
  · rw [if_neg h1, if_neg h2, if_neg h3, if_pos h4]
    exact ⟨fun _ => Or.inr (Or.inr (Or.inr h4)), fun _ => ⟨_, rfl⟩⟩
  rw [if_neg h1, if_neg h2, if_neg h3, if_neg h4]
  constructor
  · rintro ⟨e, he⟩
    split at he <;> cases he
  · rintro (h | h | h | h)
    · exact absurd h h1
    · exact absurd h h2
    · exact absurd h h3
    · exact absurd h h4

/-- A call of `set_timer` that throws leaves the state as it was. -/
theorem set_timer_error_state (s : Timers) (initial interval : Int) (callback : Option Nat)
    (fd rc now : Int) (e : SetTimerError)
    (h : (set_timer s initial interval callback fd rc now).1 = Except.error e) :
    (set_timer s initial interval callback fd rc now).2 = s := by
  unfold set_timer at h ⊢
  split
  · rfl
  split
  · rfl
  split
  · rfl
  split
  · rfl
  split
  · rfl
  · rename_i h1 h2 h3 h4 h5
    rw [if_neg h1, if_neg h2, if_neg h3, if_neg h4, if_neg h5] at h
    cases h

theorem set_timer_full (s : Timers) (initial interval : Int) (callback : Option Nat)
    (fd rc now : Int) (h : s._timer_id_fd.length = max_timers) :
    set_timer s initial interval callback fd rc now =
      (Except.error SetTimerError.too_many_timers, s) := by
  unfold set_timer
  rw [if_pos h]

theorem set_timer_length (s : Timers) (initial interval : Int) (callback : Option Nat)
    (fd rc now : Int) (h : s._timer_id_fd.length ≤ max_timers) :
    (set_timer s initial interval callback fd rc now).2._timer_id_fd.length ≤ max_timers := by
  unfold set_timer
  split
  · exact h
  split
  · exact h
  split
  · exact h
  split
  · exact h
  split
  · exact h
  · rename_i h1 _ _ _ _
    show (map_assign s._timer_id_fd _ fd).length ≤ max_timers
    have := map_erase_length_le s._timer_id_fd ((s.s_timer_id + 1) % 2 ^ 64)
    simp only [map_assign, List.length_cons]
    omega

theorem _cancel_timer_length_le (s : Timers) (id : Nat) :
    (_cancel_timer s id)._timer_id_fd.length ≤ s._timer_id_fd.length := by
  unfold _cancel_timer
  split
  · exact le_rfl
  · exact map_erase_length_le _ _

theorem cancel_timer_length_le (s : Timers) (t : Timer) :
    (cancel_timer s t)._timer_id_fd.length ≤ s._timer_id_fd.length := by
  unfold cancel_timer
  split
  · exact le_rfl
  · exact _cancel_timer_length_le _ _

theorem cancel_fold_length_le (l : List (Nat × Int)) (s : Timers) :
    (l.foldl (fun st e => _cancel_timer st e.1) s)._timer_id_fd.length ≤
      s._timer_id_fd.length := by
  induction l generalizing s with
  | nil => exact le_rfl
  | cons e rest ih =>
    rw [List.foldl_cons]
    exact le_trans (ih _) (_cancel_timer_length_le s e.1)

theorem cancel_all_timers_length_le (s : Timers) :
    (cancel_all_timers s)._timer_id_fd.length ≤ s._timer_id_fd.length :=
  cancel_fold_length_le _ s

theorem fire_length_le (s : Timers) (fd now : Int) (count : Nat) :
    (fire s fd now count)._timer_id_fd.length ≤ s._timer_id_fd.length := by
  unfold fire
  split
  · exact le_rfl
  · dsimp only
    split
    · exact _cancel_timer_length_le _ _
    · exact le_rfl

theorem step_length (s : Timers) (op : Op) (h : s._timer_id_fd.length ≤ max_timers) :
    (step s op)._timer_id_fd.length ≤ max_timers := by
  cases op with
  | set_timer initial interval callback fd rc now =>
    exact set_timer_length s initial interval callback fd rc now h
  | cancel_timer t => exact le_trans (cancel_timer_length_le s t) h
  | cancel_all_timers => exact le_trans (cancel_all_timers_length_le s) h
  | fire fd now count => exact le_trans (fire_length_le s fd now count) h

theorem run_length (s : Timers) (ops : List Op) (h : s._timer_id_fd.length ≤ max_timers) :
    (run s ops)._timer_id_fd.length ≤ max_timers := by
  induction ops generalizing s with
  | nil => exact h
  | cons op rest ih => exact ih (step s op) (step_length s op h)

/-- Claim C18, the code at its failing input.  With no timer registered and the system calls
succeeding, `set_timer(-5ms, 100ms, cb)` does not throw, though -5 ms is a non-zero duration
smaller than 10 ms: it registers the timer and returns a valid handle.  `set_timer` throws
exactly when 16 timers are registered, or both durations are zero, or one of them is
positive and smaller than 10 ms. -/
theorem set_timer_negative_duration :
    (set_timer (fresh 3 (List.replicate 18 ⟨0, 0, 0⟩)) (-5) 100 none 4 0 0).1 =
        Except.ok ⟨1, true⟩ ∧
      (set_timer (fresh 3 (List.replicate 18 ⟨0, 0, 0⟩)) (-5) 100 none 4 0 0).2._timer_id_fd =
        [(1, 4)] ∧
      (∀ (s : Timers) (initial interval : Int) (callback : Option Nat) (fd rc now : Int),
        (∃ e, (set_timer s initial interval callback fd rc now).1 = Except.error e) ↔
          (s._timer_id_fd.length = max_timers ∨ (initial = 0 ∧ interval = 0) ∨
            (0 < initial ∧ initial < min_timer_duration) ∨
            (0 < interval ∧ interval < min_timer_duration))) :=
  ⟨by decide, by decide, set_timer_error_iff⟩

/-- Claim C19.  In every state reached from a fresh `Input` by `set_timer`, `cancel_timer`,
`cancel_all_timers` and timer fires, at most 16 timers are registered (and 16 are reached);
`set_timer` with 16 timers registered throws; and a `set_timer` that throws leaves the whole
state, so both timer tables, the poll set and the id counter, unchanged. -/
theorem timers_at_most_max (render_fd : Int) (mem : List pollfd) (ops : List Op) :
    (run (fresh render_fd mem) ops)._timer_id_fd.length ≤ max_timers ∧
      (∃ ops16 : List Op,
        (run (fresh 3 (List.replicate 18 ⟨0, 0, 0⟩)) ops16)._timer_id_fd.length =
          max_timers) ∧
      (∀ (s : Timers) (initial interval : Int) (callback : Option Nat) (fd rc now : Int),
        s._timer_id_fd.length = max_timers →
        set_timer s initial interval callback fd rc now =
          (Except.error SetTimerError.too_many_timers, s)) ∧
      (∀ (s : Timers) (initial interval : Int) (callback : Option Nat) (fd rc now : Int)
          (e : SetTimerError),
        (set_timer s initial interval callback fd rc now).1 = Except.error e →
        (set_timer s initial interval callback fd rc now).2 = s) := by
  refine ⟨run_length _ ops (Nat.zero_le max_timers), ?_, set_timer_full, set_timer_error_state⟩
  exact ⟨(List.range 16).map (fun i => Op.set_timer 10 0 none (4 + i) 0 0), by decide⟩

/-- Claim C20.  `cancel_timer` is idempotent: the state after `cancel_timer(t)` twice is the
state after `cancel_timer(t)` once; and for an invalid handle, or an id that is not
registered, `cancel_timer` leaves the whole state unchanged. -/
theorem cancel_timer_idempotent (s : Timers) (t : Timer) :
    cancel_timer (cancel_timer s t) t = cancel_timer s t ∧
      (t.valid = false → cancel_timer s t = s) ∧
      (map_find s._timer_id_fd t.id = none → cancel_timer s t = s) := by
  have hnone : map_find s._timer_id_fd t.id = none → cancel_timer s t = s := by
    intro h
    unfold cancel_timer _cancel_timer
    rw [h]
    simp
  have hinv : t.valid = false → cancel_timer s t = s := by
    intro h
    unfold cancel_timer
    rw [if_pos h]
  refine ⟨?_, hinv, hnone⟩
  by_cases hv : t.valid = false
  · rw [hinv hv, hinv hv]
  · cases hf : map_find s._timer_id_fd t.id with
    | none => rw [hnone hf, hnone hf]
    | some fd =>
      have h1 : cancel_timer s t = build_pollfds { s with
          closed := fd :: s.closed,
          _timer_info := map_erase s._timer_info fd,
          _timer_id_fd := map_erase s._timer_id_fd t.id } := by
        unfold cancel_timer _cancel_timer
        rw [if_neg hv, hf]
      rw [h1]
      unfold cancel_timer _cancel_timer
      rw [if_neg hv, build_pollfds_timer_id_fd]
      show (match map_find (map_erase s._timer_id_fd t.id) t.id with
        | none => _
        | some fd => _) = _
      rw [map_find_erase]

end Timers

end termic

namespace termic

namespace Timers

/-! ## The timer tables and the poll set -/

theorem map_find_eq_none {κ ν : Type} [DecidableEq κ] (m : List (κ × ν)) (k : κ) :
    map_find m k = none ↔ ∀ e ∈ m, e.1 ≠ k := by
  unfold map_find
  rw [Option.map_eq_none', List.find?_eq_none]
  simp

theorem map_find_cons {κ ν : Type} [DecidableEq κ] (m : List (κ × ν)) (e : κ × ν) (k : κ) :
    map_find (e :: m) k = if e.1 = k then some e.2 else map_find m k := by
  unfold map_find
  by_cases h : e.1 = k
  · simp [List.find?_cons, h]
  · simp [List.find?_cons, h]

theorem map_find_some_mem {κ ν : Type} [DecidableEq κ] {m : List (κ × ν)} {k : κ} {v : ν}
    (h : map_find m k = some v) : (k, v) ∈ m := by
  induction m with
  | nil => simp [map_find] at h
  | cons e rest ih =>
    rw [map_find_cons] at h
    by_cases he : e.1 = k
    · rw [if_pos he] at h
      cases h
      rw [← he]
      exact List.mem_cons_self _ _
    · rw [if_neg he] at h
      exact List.mem_cons_of_mem _ (ih h)

theorem map_find_of_mem {κ ν : Type} [DecidableEq κ] {m : List (κ × ν)} {k : κ} {v : ν}
    (hn : (m.map Prod.fst).Nodup) (h : (k, v) ∈ m) : map_find m k = some v := by
  induction m with
  | nil => cases h
  | cons e rest ih =>
    rw [map_find_cons]
    rw [List.map_cons, List.nodup_cons] at hn
    rcases List.mem_cons.1 h with h1 | h1
    · rw [← h1, if_pos rfl]
    · have hne : e.1 ≠ k := by
        intro hc
        exact hn.1 (hc ▸ List.mem_map_of_mem Prod.fst h1)
      rw [if_neg hne]
      exact ih hn.2 h1

theorem map_erase_of_find_none {κ ν : Type} [DecidableEq κ] {m : List (κ × ν)} {k : κ}
    (h : map_find m k = none) : map_erase m k = m := by
  unfold map_erase
  rw [List.filter_eq_self]
  intro e he
  simpa using (map_find_eq_none m k).1 h e he

theorem map_find_erase_ne {κ ν : Type} [DecidableEq κ] (m : List (κ × ν)) {k k' : κ}
    (h : k' ≠ k) : map_find (map_erase m k) k' = map_find m k' := by
  induction m with
  | nil => rfl
  | cons e rest ih =>
    unfold map_erase at ih ⊢
    by_cases he : e.1 = k
    · have hne : e.1 ≠ k' := fun hc => h (hc.symm.trans he)
      rw [List.filter_cons_of_neg (by simpa using he), ih, map_find_cons, if_neg hne]
    · rw [List.filter_cons_of_pos (by simpa using he), map_find_cons, map_find_cons, ih]

theorem mem_map_erase {κ ν : Type} [DecidableEq κ] {m : List (κ × ν)} {k : κ} {e : κ × ν} :
    e ∈ map_erase m k ↔ e ∈ m ∧ e.1 ≠ k := by
  unfold map_erase
  rw [List.mem_filter]
  simp

theorem _cancel_timer_id_fd (s : Timers) (id : Nat) :
    (_cancel_timer s id)._timer_id_fd = map_erase s._timer_id_fd id := by
  unfold _cancel_timer
  split
  · rename_i h
    exact (map_erase_of_find_none h).symm
  · rfl

theorem _cancel_timer_info (s : Timers) (id : Nat) (fd : Int)
    (h : map_find s._timer_id_fd id = some fd) :
    (_cancel_timer s id)._timer_info = map_erase s._timer_info fd := by
  unfold _cancel_timer
  rw [h]
  rfl

theorem write_timer_fds_eq (l : List (Nat × Int)) (p : List pollfd) (idx : Nat)
    (h : idx + l.length ≤ p.length) :
    write_timer_fds p idx l =
      p.take idx ++ l.map (fun e => (⟨e.2, POLLIN, 0⟩ : pollfd)) ++ p.drop (idx + l.length) := by
  induction l generalizing p idx with
  | nil => simp [write_timer_fds]
  | cons e rest ih =>
    obtain ⟨id, fd⟩ := e
    rw [List.length_cons] at h
    have hlt : idx < p.length := by omega
    rw [write_timer_fds, ih _ _ (by rw [List.length_set]; omega)]
    have h1 : (p.set idx ⟨fd, POLLIN, 0⟩).take (idx + 1) = p.take idx ++ [⟨fd, POLLIN, 0⟩] := by
      rw [List.set_eq_take_append_cons_drop, if_pos hlt]
      rw [List.take_append_eq_append_take]
      simp [List.length_take, Nat.min_eq_left (Nat.le_of_lt hlt)]
    have h2 : (p.set idx ⟨fd, POLLIN, 0⟩).drop (idx + 1 + rest.length) =
        p.drop (idx + (rest.length + 1)) := by
      rw [List.set_eq_take_append_cons_drop, if_pos hlt]
      rw [List.drop_append_eq_append_drop]
      simp [List.length_take, Nat.min_eq_left (Nat.le_of_lt hlt)]
      have : idx + 1 + rest.length - idx = rest.length + 1 := by omega
      rw [List.drop_eq_nil_of_le (by rw [List.length_take]; omega), this]
      simp [List.drop_drop]
      congr 1
      omega
    rw [h1, h2]
    simp

/-- The poll set after `build_pollfds`: standard input, the render trigger, and the
descriptors of the registered timers in the order of `_timer_id_fd`, all with `events =
POLLIN` and `revents = 0`. -/
theorem poll_set_build_pollfds (s : Timers)
    (hp : s._pollfds.length = first_timer_fd_idx + max_timers)
    (hn : s._timer_id_fd.length ≤ max_timers)
    (hi : s._timer_info.length = s._timer_id_fd.length) :
    poll_set (build_pollfds s) =
      ⟨STDIN_FILENO, POLLIN, 0⟩ :: ⟨s._render_trigger_fd, POLLIN, 0⟩ ::
        s._timer_id_fd.map (fun e => (⟨e.2, POLLIN, 0⟩ : pollfd)) := by
  unfold poll_set nfds build_pollfds
  simp only []
  have hlen : ((s._pollfds.set 0 ⟨STDIN_FILENO, POLLIN, 0⟩).set trigger_fd_idx
      ⟨s._render_trigger_fd, POLLIN, 0⟩).length = first_timer_fd_idx + max_timers := by
    rw [List.length_set, List.length_set, hp]
  rw [write_timer_fds_eq _ _ _ (by rw [hlen]; omega), hi]
  have h2 : ((s._pollfds.set 0 ⟨STDIN_FILENO, POLLIN, 0⟩).set trigger_fd_idx
      ⟨s._render_trigger_fd, POLLIN, 0⟩).take first_timer_fd_idx =
      [⟨STDIN_FILENO, POLLIN, 0⟩, ⟨s._render_trigger_fd, POLLIN, 0⟩] := by
    match hs : s._pollfds, hp with
    | a :: b :: rest, _ => rfl
    | [], hp => simp [first_timer_fd_idx, max_timers] at hp
    | [a], hp => simp [first_timer_fd_idx, max_timers] at hp
  rw [h2]
  have h3 : first_timer_fd_idx + s._timer_id_fd.length =
      (([⟨STDIN_FILENO, POLLIN, 0⟩, ⟨s._render_trigger_fd, POLLIN, 0⟩] : List pollfd) ++
        s._timer_id_fd.map (fun e => (⟨e.2, POLLIN, 0⟩ : pollfd))).length := by
    simp [first_timer_fd_idx]
    omega
  rw [h3, List.take_left']
  · rfl
  · rfl

end Timers

end termic

namespace termic

namespace Timers

/-! ## Well-formed timer states -/

theorem write_timer_fds_length (l : List (Nat × Int)) (p : List pollfd) (idx : Nat) :
    (write_timer_fds p idx l).length = p.length := by
  induction l generalizing p idx with
  | nil => rfl
  | cons e rest ih =>
    obtain ⟨id, fd⟩ := e
    rw [write_timer_fds, ih, List.length_set]

theorem build_pollfds_length (s : Timers) :
    (build_pollfds s)._pollfds.length = s._pollfds.length := by
  unfold build_pollfds
  simp only []
  rw [write_timer_fds_length, List.length_set, List.length_set]

theorem WellFormed.info_length {s : Timers} (h : WellFormed s) :
    s._timer_info.length = s._timer_id_fd.length := by
  have := h.2.2.1.length_eq
  rwa [List.length_map] at this

theorem WellFormed.info_nodup {s : Timers} (h : WellFormed s) :
    (s._timer_info.map Prod.fst).Nodup := by
  have hp := h.2.2.1.map Prod.snd
  rw [List.map_map] at hp
  exact hp.nodup_iff.2 h.2.1

theorem WellFormed.mem_info {s : Timers} (h : WellFormed s) {id : Nat} {fd : Int}
    (hm : (id, fd) ∈ s._timer_id_fd) : ∃ info, (fd, info) ∈ s._timer_info ∧ info.id = id := by
  have := h.2.2.1.mem_iff.2 hm
  obtain ⟨e, he, heq⟩ := List.mem_map.1 this
  obtain ⟨fd', info⟩ := e
  simp only [Prod.mk.injEq] at heq
  exact ⟨info, heq.2 ▸ he, heq.1⟩

theorem WellFormed.mem_id_fd {s : Timers} (h : WellFormed s) {fd : Int} {info : TimerInfo}
    (hm : (fd, info) ∈ s._timer_info) : (info.id, fd) ∈ s._timer_id_fd :=
  h.2.2.1.mem_iff.1 (List.mem_map.2 ⟨(fd, info), hm, rfl⟩)

/-- In a well-formed state a registered timer has its record in `_timer_info`, under its
descriptor and with its id. -/
theorem WellFormed.find_info {s : Timers} (h : WellFormed s) {id : Nat} {fd : Int}
    (hf : map_find s._timer_id_fd id = some fd) :
    ∃ info, map_find s._timer_info fd = some info ∧ info.id = id := by
  obtain ⟨info, hm, hid⟩ := h.mem_info (map_find_some_mem hf)
  exact ⟨info, map_find_of_mem h.info_nodup hm, hid⟩

/-- In a well-formed state the record under a descriptor names the timer that has the
descriptor. -/
theorem WellFormed.find_id_fd {s : Timers} (h : WellFormed s) {fd : Int} {info : TimerInfo}
    (hf : map_find s._timer_info fd = some info) :
    map_find s._timer_id_fd info.id = some fd :=
  map_find_of_mem h.1 (h.mem_id_fd (map_find_some_mem hf))

theorem WellFormed.fd_unique {s : Timers} (h : WellFormed s) {id id' : Nat} {fd : Int}
    (h1 : (id, fd) ∈ s._timer_id_fd) (h2 : (id', fd) ∈ s._timer_id_fd) : id = id' := by
  have := List.inj_on_of_nodup_map h.2.1 h1 h2 rfl
  exact (Prod.mk.inj this).1

theorem WellFormed.id_unique {s : Timers} (h : WellFormed s) {id : Nat} {fd fd' : Int}
    (h1 : (id, fd) ∈ s._timer_id_fd) (h2 : (id, fd') ∈ s._timer_id_fd) : fd = fd' := by
  have := List.inj_on_of_nodup_map h.1 h1 h2 rfl
  exact (Prod.mk.inj this).2

theorem WellFormed.erase_perm {s : Timers} (h : WellFormed s) {id : Nat} {fd : Int}
    (hf : map_find s._timer_id_fd id = some fd) :
    ((map_erase s._timer_info fd).map (fun e => (e.2.id, e.1))).Perm
      (map_erase s._timer_id_fd id) := by
  have hm := map_find_some_mem hf
  have h1 : (map_erase s._timer_info fd).map (fun e => (e.2.id, e.1)) =
      (s._timer_info.map (fun e => (e.2.id, e.1))).filter (fun p => p.2 ≠ fd) := by
    unfold map_erase
    rw [List.filter_map]
    rfl
  have h2 : map_erase s._timer_id_fd id = s._timer_id_fd.filter (fun p => p.2 ≠ fd) := by
    unfold map_erase
    apply List.filter_congr
    intro p hp
    obtain ⟨i, f⟩ := p
    by_cases hi : i = id
    · subst hi
      have := h.id_unique hp hm
      simp [this]
    · have hne : f ≠ fd := fun hc => hi (h.fd_unique (hc ▸ hp) hm)
      simp [hi, hne]
  rw [h1, h2]
  exact h.2.2.1.filter _

/-- `_cancel_timer` keeps the state well-formed. -/
theorem WellFormed._cancel_timer {s : Timers} (h : WellFormed s) (id : Nat) :
    WellFormed (_cancel_timer s id) := by
  cases hf : map_find s._timer_id_fd id with
  | none =>
    have : Timers._cancel_timer s id = s := by
      unfold Timers._cancel_timer
      rw [hf]
    rw [this]
    exact h
  | some fd =>
    have hs : Timers._cancel_timer s id = build_pollfds { s with
        closed := fd :: s.closed,
        _timer_info := map_erase s._timer_info fd,
        _timer_id_fd := map_erase s._timer_id_fd id } := by
      unfold Timers._cancel_timer
      rw [hf]
    rw [hs]
    refine ⟨?_, ?_, ?_, ?_, ?_⟩
    · exact h.1.sublist ((List.filter_sublist _).map _)
    · exact h.2.1.sublist ((List.filter_sublist _).map _)
    · exact h.erase_perm hf
    · exact le_trans (map_erase_length_le _ _) h.2.2.2.1
    · rw [build_pollfds_length]
      exact h.2.2.2.2

theorem WellFormed.cancel_timer {s : Timers} (h : WellFormed s) (t : Timer) :
    WellFormed (cancel_timer s t) := by
  unfold Timers.cancel_timer
  split
  · exact h
  · exact h._cancel_timer t.id

theorem WellFormed.cancel_fold (l : List (Nat × Int)) {s : Timers} (h : WellFormed s) :
    WellFormed (l.foldl (fun st e => Timers._cancel_timer st e.1) s) := by
  induction l generalizing s with
  | nil => exact h
  | cons e rest ih => exact ih (h._cancel_timer e.1)

theorem WellFormed.cancel_all_timers {s : Timers} (h : WellFormed s) :
    WellFormed (cancel_all_timers s) :=
  WellFormed.cancel_fold _ h

theorem cancel_fold_id_fd (l : List (Nat × Int)) (s : Timers) :
    (l.foldl (fun st e => _cancel_timer st e.1) s)._timer_id_fd =
      s._timer_id_fd.filter (fun e => e.1 ∉ l.map Prod.fst) := by
  induction l generalizing s with
  | nil => simp
  | cons e rest ih =>
    rw [List.foldl_cons, ih, _cancel_timer_id_fd]
    unfold map_erase
    rw [List.filter_filter]
    apply List.filter_congr
    intro p _
    simp only [List.map_cons, List.mem_cons, not_or, ne_eq, decide_not, Bool.and_eq_true,
      Bool.not_eq_true', decide_eq_false_iff_not, Bool.decide_and, decide_eq_true_eq]
    by_cases h1 : p.1 = e.1 <;> by_cases h2 : p.1 ∈ List.map Prod.fst rest <;> simp [h1, h2]

/-- `cancel_all_timers` empties `_timer_id_fd`. -/
theorem cancel_all_timers_id_fd (s : Timers) : (cancel_all_timers s)._timer_id_fd = [] := by
  unfold cancel_all_timers
  rw [cancel_fold_id_fd, List.filter_eq_nil_iff]
  intro e he
  simp only [decide_not, Bool.not_eq_true', decide_eq_false_iff_not, not_not]
  exact List.mem_map_of_mem Prod.fst he

/-- From a well-formed state `cancel_all_timers` empties `_timer_info` too. -/
theorem cancel_all_timers_info {s : Timers} (h : WellFormed s) :
    (cancel_all_timers s)._timer_info = [] := by
  have hl := h.cancel_all_timers.info_length
  rw [cancel_all_timers_id_fd] at hl
  exact List.length_eq_zero.1 hl

end Timers

end termic

namespace termic

namespace Timers

theorem set_data_keys (m : List (Int × TimerInfo)) (fd : Int) (data : Timer.Data) :
    (set_data m fd data).map (fun e => (e.2.id, e.1)) = m.map (fun e => (e.2.id, e.1)) := by
  unfold set_data
  rw [List.map_map]
  apply List.map_congr_left
  intro e _
  simp only [Function.comp]
  split <;> rfl

theorem WellFormed.of_same_keys {s s1 : Timers} (h : WellFormed s)
    (h1 : s1._timer_id_fd = s._timer_id_fd)
    (h2 : s1._timer_info.map (fun e => (e.2.id, e.1)) =
      s._timer_info.map (fun e => (e.2.id, e.1)))
    (h3 : s1._pollfds.length = s._pollfds.length) : WellFormed s1 := by
  unfold WellFormed
  rw [h1, h2, h3]
  exact h

theorem WellFormed.with_data {s : Timers} (h : WellFormed s) (fd : Int) (data : Timer.Data)
    (called : List Nat) :
    WellFormed { s with _timer_info := set_data s._timer_info fd data, called := called } :=
  h.of_same_keys rfl (set_data_keys _ _ _) rfl

/-- A timer fire keeps the state well-formed. -/
theorem WellFormed.fire {s : Timers} (h : WellFormed s) (fd now : Int) (count : Nat) :
    WellFormed (fire s fd now count) := by
  unfold Timers.fire
  split
  · exact h
  · dsimp only
    split
    · exact (h.with_data fd _ _)._cancel_timer _
    · exact h.of_same_keys rfl ((set_data_keys _ _ _).trans (set_data_keys _ _ _)) rfl

/-- A call of `set_timer` keeps the state well-formed when the descriptor that
`timerfd_create` returns is not that of a registered timer and the next id is not in use. -/
theorem WellFormed.set_timer {s : Timers} (h : WellFormed s) (initial interval : Int)
    (callback : Option Nat) (fd rc now : Int)
    (hfd : ∀ e ∈ s._timer_id_fd, e.2 ≠ fd)
    (hid : ∀ e ∈ s._timer_id_fd, e.1 ≠ (s.s_timer_id + 1) % 2 ^ 64) :
    WellFormed (set_timer s initial interval callback fd rc now).2 := by
  unfold Timers.set_timer
  split
  · exact h
  split
  · exact h
  split
  · exact h
  split
  · exact h
  split
  · exact h
  · rename_i hfull _ _ _ _
    have he1 : map_erase s._timer_id_fd ((s.s_timer_id + 1) % 2 ^ 64) = s._timer_id_fd :=
      map_erase_of_find_none ((map_find_eq_none _ _).2 hid)
    have hinfo : ∀ e ∈ s._timer_info, e.1 ≠ fd := by
      intro e he hc
      exact hfd _ (@WellFormed.mem_id_fd s h e.1 e.2 he) hc
    have he2 : map_erase s._timer_info fd = s._timer_info :=
      map_erase_of_find_none ((map_find_eq_none _ _).2 hinfo)
    refine ⟨?_, ?_, ?_, ?_, ?_⟩
    · show ((map_assign s._timer_id_fd _ fd).map Prod.fst).Nodup
      unfold map_assign
      rw [he1, List.map_cons, List.nodup_cons]
      refine ⟨?_, h.1⟩
      intro hc
      obtain ⟨e, he, heq⟩ := List.mem_map.1 hc
      exact hid e he heq
    · show ((map_assign s._timer_id_fd _ fd).map Prod.snd).Nodup
      unfold map_assign
      rw [he1, List.map_cons, List.nodup_cons]
      refine ⟨?_, h.2.1⟩
      intro hc
      obtain ⟨e, he, heq⟩ := List.mem_map.1 hc
      exact hfd e he heq
    · show ((map_assign s._timer_info fd _).map (fun e => (e.2.id, e.1))).Perm
        (map_assign s._timer_id_fd _ fd)
      unfold map_assign
      rw [he1, he2, List.map_cons]
      exact List.Perm.cons _ h.2.2.1
    · show (map_assign s._timer_id_fd _ fd).length ≤ max_timers
      unfold map_assign
      rw [he1, List.length_cons]
      have := h.2.2.2.1
      omega
    · rw [build_pollfds_length]
      exact h.2.2.2.2

/-- The state of a fresh `Input` is well-formed. -/
theorem WellFormed.fresh (render_fd : Int) (mem : List pollfd)
    (h : mem.length = first_timer_fd_idx + max_timers) : WellFormed (fresh render_fd mem) := by
  refine ⟨List.nodup_nil, List.nodup_nil, List.Perm.nil, Nat.zero_le _, ?_⟩
  unfold Timers.fresh
  rw [build_pollfds_length]
  exact h

/-- Every operation keeps the state well-formed, when the descriptor that a `set_timer`
receives from `timerfd_create` is not that of a registered timer and the next id is not in
use. -/
theorem WellFormed.step {s : Timers} (h : WellFormed s) (op : Op)
    (hop : ∀ (initial interval : Int) (callback : Option Nat) (fd rc now : Int),
      op = Op.set_timer initial interval callback fd rc now →
      (∀ e ∈ s._timer_id_fd, e.2 ≠ fd) ∧
      (∀ e ∈ s._timer_id_fd, e.1 ≠ (s.s_timer_id + 1) % 2 ^ 64)) :
    WellFormed (step s op) := by
  cases op with
  | set_timer initial interval callback fd rc now =>
    obtain ⟨h1, h2⟩ := hop initial interval callback fd rc now rfl
    exact h.set_timer initial interval callback fd rc now h1 h2
  | cancel_timer t => exact h.cancel_timer t
  | cancel_all_timers => exact h.cancel_all_timers
  | fire fd now count => exact h.fire fd now count

/-- Claim C21.  When a registered timer `t`, with descriptor `fd`, is cancelled, its id is
no longer in `_timer_id_fd` and `fd` no longer in `_timer_info`; the entries of every other
registered timer in both tables are as before; `fd` has been closed; and the poll set holds
standard input in slot 0, the render trigger in slot 1 and from slot 2 on the descriptors of
exactly the remaining timers.  `cancel_all_timers` leaves both tables empty. -/
theorem cancel_timer_frame (s : Timers) (t : Timer) (fd : Int) (hwf : WellFormed s)
    (hv : t.valid = true) (hreg : map_find s._timer_id_fd t.id = some fd) :
    map_find (cancel_timer s t)._timer_id_fd t.id = none ∧
      map_find (cancel_timer s t)._timer_info fd = none ∧
      (∀ (id : Nat) (fd1 : Int), id ≠ t.id → map_find s._timer_id_fd id = some fd1 →
        map_find (cancel_timer s t)._timer_id_fd id = some fd1 ∧
        map_find (cancel_timer s t)._timer_info fd1 = map_find s._timer_info fd1) ∧
      (cancel_timer s t)._timer_id_fd = s._timer_id_fd.filter (fun e => e.1 ≠ t.id) ∧
      (cancel_timer s t).closed = fd :: s.closed ∧
      poll_set (cancel_timer s t) =
        ⟨STDIN_FILENO, POLLIN, 0⟩ :: ⟨s._render_trigger_fd, POLLIN, 0⟩ ::
          (cancel_timer s t)._timer_id_fd.map (fun e => (⟨e.2, POLLIN, 0⟩ : pollfd)) ∧
      (cancel_all_timers s)._timer_id_fd = [] ∧ (cancel_all_timers s)._timer_info = [] := by
  have hnv : ¬ t.valid = false := by rw [hv]; exact Bool.noConfusion
  have hs : cancel_timer s t = build_pollfds { s with
      closed := fd :: s.closed,
      _timer_info := map_erase s._timer_info fd,
      _timer_id_fd := map_erase s._timer_id_fd t.id } := by
    unfold cancel_timer _cancel_timer
    rw [if_neg hnv, hreg]
  have hwf1 : WellFormed (cancel_timer s t) := hwf.cancel_timer t
  refine ⟨?_, ?_, ?_, ?_, ?_, ?_, cancel_all_timers_id_fd s, cancel_all_timers_info hwf⟩
  · rw [hs]
    exact map_find_erase _ _
  · rw [hs]
    exact map_find_erase _ _
  · intro id fd1 hne hf
    have hfd : fd1 ≠ fd := by
      intro hc
      subst hc
      exact hne (hwf.fd_unique (map_find_some_mem hf) (map_find_some_mem hreg))
    rw [hs]
    exact ⟨(map_find_erase_ne _ hne).trans hf, map_find_erase_ne _ hfd⟩
  · rw [hs]
    rfl
  · rw [hs]
    rfl
  · have hp := poll_set_build_pollfds { s with
      closed := fd :: s.closed,
      _timer_info := map_erase s._timer_info fd,
      _timer_id_fd := map_erase s._timer_id_fd t.id } hwf.2.2.2.2
      (le_trans (map_erase_length_le _ _) hwf.2.2.2.1)
      (by
        have := (hwf.erase_perm hreg).length_eq
        rwa [List.length_map] at this)
    rw [hs]
    exact hp

/-- Claim C21 on the state with the timers 1 (descriptor 4) and 2 (descriptor 5): after
`cancel_timer` of timer 1 the tables hold timer 2 alone and the poll set is the three slots
of standard input, the render trigger 3 and the descriptor 5. -/
theorem cancel_timer_frame_witness :
    (cancel_timer (run (fresh 3 (List.replicate 18 ⟨0, 0, 0⟩))
        [Op.set_timer 10 0 none 4 0 0, Op.set_timer 20 50 (some 7) 5 0 0])
        ⟨1, true⟩)._timer_id_fd = [(2, 5)] ∧
      poll_set (cancel_timer (run (fresh 3 (List.replicate 18 ⟨0, 0, 0⟩))
        [Op.set_timer 10 0 none 4 0 0, Op.set_timer 20 50 (some 7) 5 0 0]) ⟨1, true⟩) =
        [⟨0, 1, 0⟩, ⟨3, 1, 0⟩, ⟨5, 1, 0⟩] :=
  have h := cancel_timer_frame (run (fresh 3 (List.replicate 18 ⟨0, 0, 0⟩))
    [Op.set_timer 10 0 none 4 0 0, Op.set_timer 20 50 (some 7) 5 0 0]) ⟨1, true⟩ 4
    (by decide) rfl (by decide)
  ⟨h.2.2.2.1.trans (by decide), h.2.2.2.2.2.1.trans (by decide)⟩

end Timers

end termic

namespace termic

namespace Timers

/-! ## Timer fires and `wait` -/

theorem map_find_set_data (m : List (Int × TimerInfo)) (fd fd1 : Int) (data : Timer.Data) :
    map_find (set_data m fd data) fd1 =
      (map_find m fd1).map (fun info => if fd1 = fd then { info with data := data } else info) := by
  induction m with
  | nil => rfl
  | cons e rest ih =>
    have hc : set_data (e :: rest) fd data =
        (if e.1 = fd then (e.1, { e.2 with data := data }) else e) :: set_data rest fd data := rfl
    rw [hc, map_find_cons, map_find_cons, ih]
    by_cases h1 : e.1 = fd
    · rw [if_pos h1]
      by_cases h2 : e.1 = fd1
      · have h3 : fd1 = fd := h2.symm.trans h1
        simp [h2, h3]
      · simp [h2]
    · rw [if_neg h1]
      by_cases h2 : e.1 = fd1
      · have h3 : ¬ fd1 = fd := fun hc => h1 (h2.trans hc)
        simp [h2, h3]
      · simp [h2]

/-- The timers after the fire of a single-shot timer: the record is updated, the callback
invoked, and the timer cancelled. -/
theorem fire_single_shot {s : Timers} {fd : Int} {info : TimerInfo} (now : Int) (count : Nat)
    (hf : map_find s._timer_info fd = some info) (hs : info.single_shot = true) :
    fire s fd now count =
      _cancel_timer { s with
        _timer_info := set_data s._timer_info fd (triggered info.data now),
        called := (match info.callback with
          | some f => f :: s.called
          | none => s.called) } info.id := by
  unfold fire
  rw [hf]
  simp only [hs, if_true]
  rfl

/-- The timers after the fire of a periodic timer: the record is updated, with the number
read from the descriptor less one added to `triggers_missed`, and the callback invoked. -/
theorem fire_periodic {s : Timers} {fd : Int} {info : TimerInfo} (now : Int) (count : Nat)
    (hf : map_find s._timer_info fd = some info) (hs : info.single_shot = false) :
    fire s fd now count =
      { s with
        _timer_info := set_data (set_data s._timer_info fd (triggered info.data now)) fd
          { triggered info.data now with
            triggers_missed := (info.data.triggers_missed + count + (2 ^ 64 - 1)) % 2 ^ 64 },
        called := (match info.callback with
          | some f => f :: s.called
          | none => s.called) } := by
  unfold fire
  rw [hf]
  simp only [hs, Bool.false_eq_true, if_false]
  rfl

theorem fire_unknown {s : Timers} {fd : Int} (now : Int) (count : Nat)
    (hf : map_find s._timer_info fd = none) : fire s fd now count = s := by
  unfold fire
  rw [hf]

/-- The record that a successful `set_timer` stores: it is single-shot exactly when
`interval` is zero. -/
theorem set_timer_info (s : Timers) (initial interval : Int) (callback : Option Nat)
    (fd rc now : Int) (t : Timer)
    (h : (set_timer s initial interval callback fd rc now).1 = Except.ok t)
    (hv : t.valid = true) :
    map_find (set_timer s initial interval callback fd rc now).2._timer_info fd =
        some ⟨callback, decide (interval = 0), t.id, ⟨initial, interval, now, 0, 0, 0, 0⟩⟩ ∧
      map_find (set_timer s initial interval callback fd rc now).2._timer_id_fd t.id =
        some fd := by
  unfold set_timer at h ⊢
  split at h
  · cases h
  split at h
  · cases h
  split at h
  · cases h
  split at h
  · cases h
  split at h
  · cases h
    cases hv
  · rename_i h1 h2 h3 h4 h5
    simp only [Except.ok.injEq] at h
    subst h
    rw [if_neg h1, if_neg h2, if_neg h3, if_neg h4, if_neg h5]
    constructor
    · show map_find (map_assign s._timer_info fd _) fd = _
      unfold map_assign
      rw [map_find_cons, if_pos rfl]
    · show map_find (map_assign s._timer_id_fd _ fd) _ = _
      unfold map_assign
      rw [map_find_cons, if_pos rfl]

theorem poll_set__cancel_timer {s : Timers} (hwf : WellFormed s) {id : Nat} {fd : Int}
    (hreg : map_find s._timer_id_fd id = some fd) :
    poll_set (_cancel_timer s id) =
      ⟨STDIN_FILENO, POLLIN, 0⟩ :: ⟨s._render_trigger_fd, POLLIN, 0⟩ ::
        (_cancel_timer s id)._timer_id_fd.map (fun e => (⟨e.2, POLLIN, 0⟩ : pollfd)) := by
  have hs : _cancel_timer s id = build_pollfds { s with
      closed := fd :: s.closed,
      _timer_info := map_erase s._timer_info fd,
      _timer_id_fd := map_erase s._timer_id_fd id } := by
    unfold _cancel_timer
    rw [hreg]
  rw [hs]
  exact poll_set_build_pollfds _ hwf.2.2.2.2
    (le_trans (map_erase_length_le _ _) hwf.2.2.2.1)
    (by
      have := (hwf.erase_perm hreg).length_eq
      rwa [List.length_map] at this)

/-- Claim C22.  The record that `set_timer` stores is single-shot exactly when `interval` is
zero.  When a single-shot timer fires, its callback is invoked once and the timer is removed
from both tables and from the poll set, so that a later fire on its descriptor does nothing;
when a periodic timer fires, its callback is invoked once and the timer stays in both
tables. -/
theorem fire_single_shot_or_periodic (s : Timers) (fd now : Int) (count : Nat)
    (info : TimerInfo) (hwf : WellFormed s) (hf : map_find s._timer_info fd = some info) :
    (∀ (s0 : Timers) (initial interval : Int) (callback : Option Nat) (fd0 rc now0 : Int)
        (t : Timer),
        (set_timer s0 initial interval callback fd0 rc now0).1 = Except.ok t → t.valid = true →
        ∃ info0,
          map_find (set_timer s0 initial interval callback fd0 rc now0).2._timer_info fd0 =
            some info0 ∧
          info0.id = t.id ∧ info0.callback = callback ∧
          (info0.single_shot = true ↔ interval = 0)) ∧
      (fire s fd now count).called =
        (match info.callback with
          | some f => f :: s.called
          | none => s.called) ∧
      (info.single_shot = true →
        map_find (fire s fd now count)._timer_id_fd info.id = none ∧
        map_find (fire s fd now count)._timer_info fd = none ∧
        (∀ p ∈ (poll_set (fire s fd now count)).drop first_timer_fd_idx, p.fd ≠ fd) ∧
        (∀ (now1 : Int) (count1 : Nat),
          fire (fire s fd now count) fd now1 count1 = fire s fd now count)) ∧
      (info.single_shot = false →
        (fire s fd now count)._timer_id_fd = s._timer_id_fd ∧
        map_find (fire s fd now count)._timer_id_fd info.id = some fd ∧
        ∃ data, map_find (fire s fd now count)._timer_info fd =
          some { info with data := data }) := by
  have hid : map_find s._timer_id_fd info.id = some fd := hwf.find_id_fd hf
  refine ⟨?_, ?_, ?_, ?_⟩
  · intro s0 initial interval callback fd0 rc now0 t ht hv
    obtain ⟨h1, _⟩ := set_timer_info s0 initial interval callback fd0 rc now0 t ht hv
    exact ⟨_, h1, rfl, rfl, by simp⟩
  · cases hs : info.single_shot with
    | true =>
      rw [fire_single_shot now count hf hs]
      unfold _cancel_timer
      split <;> rfl
    | false => rw [fire_periodic now count hf hs]
  · intro hs
    have hwf1 : WellFormed (fire s fd now count) := hwf.fire fd now count
    obtain ⟨s1, hfire, h1, hwfs1⟩ : ∃ s1 : Timers,
        fire s fd now count = _cancel_timer s1 info.id ∧
        s1._timer_id_fd = s._timer_id_fd ∧ WellFormed s1 :=
      ⟨_, fire_single_shot now count hf hs, rfl, hwf.with_data fd _ _⟩
    have hid1 : map_find s1._timer_id_fd info.id = some fd := by rw [h1]; exact hid
    have hinfo : map_find (fire s fd now count)._timer_info fd = none := by
      rw [hfire, _cancel_timer_info s1 _ fd hid1]
      exact map_find_erase _ _
    have hidfd : map_find (fire s fd now count)._timer_id_fd info.id = none := by
      rw [hfire, _cancel_timer_id_fd]
      exact map_find_erase _ _
    refine ⟨hidfd, hinfo, ?_, fun now1 count1 => fire_unknown now1 count1 hinfo⟩
    intro p hp hc
    rw [hfire, poll_set__cancel_timer hwfs1 hid1, ← hfire] at hp
    simp only [first_timer_fd_idx, List.drop_succ_cons, List.drop_zero, List.mem_map] at hp
    obtain ⟨e, he, rfl⟩ := hp
    obtain ⟨i, f⟩ := e
    simp only at hc
    subst hc
    obtain ⟨info1, hm, _⟩ := hwf1.mem_info he
    have := (map_find_eq_none _ _).1 hinfo _ hm
    exact this rfl
  · intro hs
    rw [fire_periodic now count hf hs]
    refine ⟨rfl, hid, ?_⟩
    refine ⟨{ triggered info.data now with
      triggers_missed := (info.data.triggers_missed + count + (2 ^ 64 - 1)) % 2 ^ 64 }, ?_⟩
    show map_find (set_data (set_data s._timer_info fd _) fd _) fd = _
    rw [map_find_set_data, map_find_set_data, hf]
    simp

end Timers

end termic

namespace termic

namespace Timers

/-- Claim C22 on the state with the single-shot timer 1 (descriptor 4, callback 7) and the
periodic timer 2 (descriptor 5, callback 9): the fire of timer 1 removes it from both
tables and invokes callback 7; the fire of timer 2 leaves it registered; and `wait`, with
both ready, returns `TimerTriggered` with timer 2 alone left. -/
theorem fire_single_shot_or_periodic_witness :
    (map_find (fire (run (fresh 3 (List.replicate 18 ⟨0, 0, 0⟩))
          [Op.set_timer 100 0 (some 7) 4 0 5000000000,
            Op.set_timer 100 1000 (some 9) 5 0 5000000000]) 4 5200000000 1)._timer_id_fd 1 =
        none ∧
      map_find (fire (run (fresh 3 (List.replicate 18 ⟨0, 0, 0⟩))
          [Op.set_timer 100 0 (some 7) 4 0 5000000000,
            Op.set_timer 100 1000 (some 9) 5 0 5000000000]) 4 5200000000 1)._timer_info 4 =
        none) ∧
      (fire (run (fresh 3 (List.replicate 18 ⟨0, 0, 0⟩))
          [Op.set_timer 100 0 (some 7) 4 0 5000000000,
            Op.set_timer 100 1000 (some 9) 5 0 5000000000]) 4 5200000000 1).called = [7] ∧
      map_find (fire (run (fresh 3 (List.replicate 18 ⟨0, 0, 0⟩))
          [Op.set_timer 100 0 (some 7) 4 0 5000000000,
            Op.set_timer 100 1000 (some 9) 5 0 5000000000]) 5 5200000000 1)._timer_id_fd 2 =
        some 5 ∧
      ((wait_once (run (fresh 3 (List.replicate 18 ⟨0, 0, 0⟩))
          [Op.set_timer 100 0 (some 7) 4 0 5000000000,
            Op.set_timer 100 1000 (some 9) 5 0 5000000000])
          ⟨false, [0, 0, 1, 1], [5200000000, 5200000000], [1, 1]⟩).1 =
          some WaitResult.TimerTriggered ∧
        (wait_once (run (fresh 3 (List.replicate 18 ⟨0, 0, 0⟩))
          [Op.set_timer 100 0 (some 7) 4 0 5000000000,
            Op.set_timer 100 1000 (some 9) 5 0 5000000000])
          ⟨false, [0, 0, 1, 1], [5200000000, 5200000000], [1, 1]⟩).2.1._timer_id_fd =
          [(2, 5)]) :=
  have h4 := fire_single_shot_or_periodic (run (fresh 3 (List.replicate 18 ⟨0, 0, 0⟩))
    [Op.set_timer 100 0 (some 7) 4 0 5000000000,
      Op.set_timer 100 1000 (some 9) 5 0 5000000000]) 4 5200000000 1
    ⟨some 7, true, 1, ⟨100, 0, 5000000000, 0, 0, 0, 0⟩⟩ (by decide) (by decide)
  have h5 := fire_single_shot_or_periodic (run (fresh 3 (List.replicate 18 ⟨0, 0, 0⟩))
    [Op.set_timer 100 0 (some 7) 4 0 5000000000,
      Op.set_timer 100 1000 (some 9) 5 0 5000000000]) 5 5200000000 1
    ⟨some 9, false, 2, ⟨100, 1000, 5000000000, 0, 0, 0, 0⟩⟩ (by decide) (by decide)
  ⟨⟨(h4.2.2.1 rfl).1, (h4.2.2.1 rfl).2.1⟩, h4.2.1, (h5.2.2.2 rfl).2.1, by decide⟩

theorem lag_at_nonneg (data : Timer.Data) (now : Int) : 0 ≤ lag_at data now := by
  unfold lag_at
  split
  · rename_i h
    exact Int.tdiv_nonneg (by omega) (by decide)
  · split
    · rename_i h
      exact Int.tdiv_nonneg (by omega) (by decide)
    · exact le_rfl

theorem lag_at_first (data : Timer.Data) (now : Int) (h0 : data.trigger_count = 0)
    (hlate : now > data.creation_time + data.initial * 1000000) :
    lag_at data now =
      Int.tdiv (now - (data.creation_time + data.initial * 1000000)) 1000000 := by
  unfold lag_at
  rw [if_pos ⟨h0, hlate⟩, Int.sub_sub]

theorem lag_at_later (data : Timer.Data) (now : Int) (h0 : data.trigger_count ≠ 0) :
    lag_at data now =
      max 0 (Int.tdiv (now - (data.last_trigger_time + data.interval * 1000000)) 1000000) := by
  unfold lag_at
  rw [if_neg (fun hc => h0 hc.1)]
  split
  · rename_i h
    rw [Int.sub_sub, max_eq_right (Int.tdiv_nonneg (by omega) (by decide))]
  · rename_i h
    rw [max_eq_left]
    have hx : now - (data.last_trigger_time + data.interval * 1000000) ≤ 0 := by omega
    obtain ⟨n, hn⟩ := Int.exists_eq_neg_ofNat hx
    rw [hn, Int.neg_tdiv]
    have := Int.tdiv_nonneg (Int.ofNat_nonneg n) (show (0 : Int) ≤ 1000000 by decide)
    omega

/-- The first fire that is not late: the branch for the later fires is taken, with
`last_trigger_time` still at the epoch. -/
theorem lag_at_first_early (data : Timer.Data) (now : Int) (_h0 : data.trigger_count = 0)
    (hearly : now ≤ data.creation_time + data.initial * 1000000)
    (hl : data.last_trigger_time = 0) (hpos : now > data.interval * 1000000) :
    lag_at data now = Int.tdiv (now - data.interval * 1000000) 1000000 := by
  unfold lag_at
  rw [if_neg (fun hc => absurd hc.2 (by omega)), hl, if_pos (by omega)]
  congr 1
  omega

/-- Claim C23, the code at its failing input.  A timer with `initial` 100 ms and `interval`
1000 ms created at the instant 5000 ms fires for the first time exactly on schedule, at
5100 ms: `trigger_count` becomes 1 and `last_trigger_time` the instant of the fire, but
`lag` becomes 4100 ms and not `max(0, now - scheduled) = 0`: the first fire is not late, so
the branch of the later fires computes `now - last_trigger_time - interval` with
`last_trigger_time` at the epoch.  A first fire later than `creation_time + initial` and
every later fire get the lag that the claim states, and `lag` is never negative. -/
theorem fire_first_on_schedule :
    map_find (fire (run (fresh 3 (List.replicate 18 ⟨0, 0, 0⟩))
        [Op.set_timer 100 1000 (some 9) 5 0 5000000000]) 5 5100000000 1)._timer_info 5 =
      some ⟨some 9, false, 1, ⟨100, 1000, 5000000000, 1, 0, 5100000000, 4100⟩⟩ ∧
      (∀ (data : Timer.Data) (now : Int), data.trigger_count = 0 →
        now ≤ data.creation_time + data.initial * 1000000 → data.last_trigger_time = 0 →
        now > data.interval * 1000000 →
        lag_at data now = Int.tdiv (now - data.interval * 1000000) 1000000) ∧
      (∀ (data : Timer.Data) (now : Int), data.trigger_count = 0 →
        now > data.creation_time + data.initial * 1000000 →
        lag_at data now =
          Int.tdiv (now - (data.creation_time + data.initial * 1000000)) 1000000) ∧
      (∀ (data : Timer.Data) (now : Int), data.trigger_count ≠ 0 →
        lag_at data now =
          max 0 (Int.tdiv (now - (data.last_trigger_time + data.interval * 1000000))
            1000000)) ∧
      (∀ (data : Timer.Data) (now : Int), 0 ≤ lag_at data now) ∧
      (∀ (data : Timer.Data) (now : Int),
        (triggered data now).trigger_count = data.trigger_count + 1 ∧
        (triggered data now).last_trigger_time = now ∧
        (triggered data now).lag = lag_at data now) :=
  ⟨by decide, lag_at_first_early, lag_at_first, lag_at_later, lag_at_nonneg,
    fun _ _ => ⟨rfl, rfl, rfl⟩⟩

end Timers

end termic

namespace termic

open event (Event)
open key (Key Modifier)

namespace Input

/-! ## Wakeups without input, and parse failure -/

theorem mouse_event_ne_render {s s1 : Input} {now bm x y t len n : Nat} {ev : Event}
    (h : mouse_event s now bm x y t len = (some (ev, n), s1)) : ev ≠ Event.Render := by
  unfold mouse_event at h
  simp only [] at h
  split_ifs at h <;>
    (simp only [Prod.mk.injEq, Option.some.injEq] at h
     first
       | (rw [← h.1.1]; exact Event.noConfusion)
       | exact absurd h.1 (by simp))

theorem parse_mouse_ne_render {s s1 : Input} {now n : Nat} {v after : List Nat} {ev : Event}
    (h : parse_mouse s now v after = Except.ok (some (ev, n), s1)) : ev ≠ Event.Render := by
  unfold parse_mouse at h
  simp only [] at h
  split_ifs at h
  · cases h
  · cases h
  · cases h
  · split at h
    · cases h
    · split at h
      · cases h
      · split at h
        · cases h
        · simp only [Except.ok.injEq] at h
          exact mouse_event_ne_render h

theorem mouse_stage_ne_render {s s1 : Input} {now n : Nat} {inp junk : List Nat} {ev : Event}
    (h : mouse_stage s now inp junk = Except.ok (some (ev, n), s1)) : ev ≠ Event.Render := by
  unfold mouse_stage at h
  split_ifs at h
  · exact parse_mouse_ne_render h
  · cases h

theorem companion_key_ne_render (cp : Nat) : Event.Render ∉ companion_key cp := by
  unfold companion_key
  split_ifs <;> simp

theorem decode_rest_ne_render {s s1 : Input} {inp : List Nat} {evs : List Event}
    (h : decode_rest s inp = (Except.ok evs, s1)) : Event.Render ∉ evs := by
  unfold decode_rest at h
  split_ifs at h
  · obtain ⟨rfl, -, -⟩ := revert_substr_ok h
    simp
  · obtain ⟨rfl, -, -⟩ := revert_substr_ok h
    simp
  · split at h
    · obtain ⟨rfl, -, -⟩ := revert_substr_ok h
      simp
    · split at h
      · obtain ⟨rfl, -, -⟩ := revert_substr_ok h
        simp only [List.mem_cons, false_or]
        intro hc
        rcases hc with hc | hc
        · cases hc
        · exact companion_key_ne_render _ hc
      · simp only [Prod.mk.injEq, Except.ok.injEq] at h
        rw [← h.1]
        simp

/-- No event decoded from input bytes is a `Render` event. -/
theorem decode_ne_render {s s1 : Input} {now : Nat} {inp junk : List Nat} {evs : List Event}
    (h : decode s now inp junk = (Except.ok evs, s1)) : Event.Render ∉ evs := by
  unfold decode at h
  split at h
  · cases h
  · rename_i event eaten s2 hm
    split_ifs at h
    · obtain ⟨rfl, -, -⟩ := revert_substr_ok h
      simp only [List.mem_singleton]
      exact fun hc => mouse_stage_ne_render hm hc.symm
    · exact decode_rest_ne_render h
  · exact decode_rest_ne_render h

/-- Claim C25.  With no byte buffered, `read` returns exactly `[Render]` when `wait` reports
`RenderTriggered` and the empty list when it reports `TimerTriggered` or `SignalReceived`,
and leaves the state as it was.  In any state, a batch that holds a `Render` event is
`[Render]`, returned with no byte buffered and none read: no event decoded from input bytes
comes with it. -/
theorem read_render_alone (s : Input) (w : WaitResult) (arrived junk : List Nat) (now : Nat)
    (h0 : s._in = []) :
    (w = WaitResult.RenderTriggered →
        read s w arrived junk now = (Except.ok [Event.Render], s)) ∧
      (w = WaitResult.TimerTriggered ∨ w = WaitResult.SignalReceived →
        read s w arrived junk now = (Except.ok [], s)) ∧
      (∀ (s0 s1 : Input) (w0 : WaitResult) (arrived0 junk0 : List Nat) (now0 : Nat)
          (evs : List Event),
        read s0 w0 arrived0 junk0 now0 = (Except.ok evs, s1) → Event.Render ∈ evs →
        evs = [Event.Render] ∧ s0._in = [] ∧ w0 = WaitResult.RenderTriggered ∧ s1 = s0) := by
  have hl : s._in.length = 0 := by rw [h0]; rfl
  refine ⟨?_, ?_, ?_⟩
  · intro hw
    unfold read
    subst hw
    simp [hl]
  · intro hw
    unfold read
    rw [if_pos ⟨hl, hw⟩]
  · intro s0 s1 w0 arrived0 junk0 now0 evs hr hmem
    unfold read at hr
    split_ifs at hr with h1 h2
    · simp only [Prod.mk.injEq, Except.ok.injEq] at hr
      rw [← hr.1] at hmem
      cases hmem
    · simp only [Prod.mk.injEq, Except.ok.injEq] at hr
      exact ⟨hr.1.symm, List.length_eq_zero.1 h2.1, h2.2, hr.2.symm⟩
    all_goals exact absurd hmem (decode_ne_render hr)

set_option maxRecDepth 100000 in
/-- Claim C25 on a fresh decoder: the wakeup `RenderTriggered` gives `[Render]`, the wakeup
`TimerTriggered` gives no event. -/
theorem read_render_alone_witness :
    read (Input.mk [] (sort_sequences key_sequences_literal) 0 300)
        WaitResult.RenderTriggered [] [] 1000 =
        (Except.ok [Event.Render], Input.mk [] (sort_sequences key_sequences_literal) 0 300) ∧
      read (Input.mk [] (sort_sequences key_sequences_literal) 0 300)
        WaitResult.TimerTriggered [] [] 1000 =
        (Except.ok [], Input.mk [] (sort_sequences key_sequences_literal) 0 300) :=
  ⟨(read_render_alone (Input.mk [] (sort_sequences key_sequences_literal) 0 300)
      WaitResult.RenderTriggered [] [] 1000 rfl).1 rfl,
    (read_render_alone (Input.mk [] (sort_sequences key_sequences_literal) 0 300)
      WaitResult.TimerTriggered [] [] 1000 rfl).2.1 (Or.inl rfl)⟩

theorem decode_rest_parse_failure {s : Input} {inp : List Nat}
    (hfi : ¬ focus_in <+: inp) (hfo : ¬ focus_out <+: inp)
    (hscan : scan_keys s._key_sequences inp = none) (hu : (utf8.read_one inp).2 = 0) :
    decode_rest s inp = (Except.ok [], s) := by
  have hpi : ¬ (3 ≤ inp.length ∧ focus_in.isPrefixOf inp = true) :=
    fun hc => hfi (List.isPrefixOf_iff_prefix.1 hc.2)
  have hpo : ¬ (3 ≤ inp.length ∧ focus_out.isPrefixOf inp = true) :=
    fun hc => hfo (List.isPrefixOf_iff_prefix.1 hc.2)
  have hp : parse_utf8 inp = none := by
    unfold parse_utf8
    simp only [hu, if_true]
  unfold decode_rest
  rw [if_neg hpi, if_neg hpo, hscan, hp]

/-- Claim C29.  When the mouse stage yields no event, the bytes `inp` that `read` took off
the stream start with neither focus report, no sequence of the key table is a prefix of
them and `utf8::read_one` eats nothing, `read` returns no event, `parse_utf8` reports
failure (0 bytes eaten), and the stream is left empty: none of the bytes of `inp` is put
back, so all of them, and not the first alone, are discarded. -/
theorem read_parse_failure (s : Input) (w : WaitResult) (arrived junk : List Nat)
    (now : Nat) (inp : List Nat) (hb : fetch s w arrived = some inp)
    (hm : mouse_stage { s with _in := [] } now inp junk =
      Except.ok (none, { s with _in := [] }))
    (hfi : ¬ focus_in <+: inp) (hfo : ¬ focus_out <+: inp)
    (hscan : scan_keys s._key_sequences inp = none) (hu : (utf8.read_one inp).2 = 0) :
    read s w arrived junk now = (Except.ok [], { s with _in := [] }) ∧
      parse_utf8 inp = none ∧
      (read s w arrived junk now).2._in = [] := by
  have hp : parse_utf8 inp = none := by
    unfold parse_utf8
    simp only [hu, if_true]
  have hr : read s w arrived junk now = (Except.ok [], { s with _in := [] }) := by
    rw [read_of_fetch junk now hb, decode_of_mouse_none hm]
    exact decode_rest_parse_failure hfi hfo hscan hu
  exact ⟨hr, hp, by rw [hr]⟩

set_option maxRecDepth 100000 in
/-- Claim C29 on the bytes `ff 41`: no stage accepts the byte `ff`, no event is returned,
and the byte `41` (the letter `A`) is discarded with it. -/
theorem read_parse_failure_witness :
    read (Input.mk [0xff, 0x41] (sort_sequences key_sequences_literal) 0 300)
        WaitResult.InputReceived [] [] 1000 =
      (Except.ok [], Input.mk [] (sort_sequences key_sequences_literal) 0 300) :=
  (read_parse_failure (Input.mk [0xff, 0x41] (sort_sequences key_sequences_literal) 0 300)
    WaitResult.InputReceived [] [] 1000 [0xff, 0x41] rfl (mouse_stage_short (by decide))
    (by decide) (by decide) (by decide!) (by decide)).1

end Input

end termic

namespace termic

open event (Event)

namespace App

/-! ## The application loop -/

theorem dispatched_moves_append (l1 l2 : List Call) :
    dispatched_moves (l1 ++ l2) = dispatched_moves l1 ++ dispatched_moves l2 := by
  induction l1 with
  | nil => rfl
  | cons c rest ih =>
    cases c with
    | dispatch_event e => cases e <;> simp [dispatched_moves, ih]
    | _ => simp [dispatched_moves, ih]

theorem dispatched_append (l1 l2 : List Call) :
    dispatched (l1 ++ l2) = dispatched l1 ++ dispatched l2 := by
  induction l1 with
  | nil => rfl
  | cons c rest ih => cases c <;> simp [dispatched, ih]

theorem dispatched_map (evs : List Event) : dispatched (evs.map Call.dispatch_event) = evs := by
  induction evs with
  | nil => rfl
  | cons e rest ih => simp [dispatched, ih]

theorem dispatched_moves_map (evs : List Event) (h : ∀ e ∈ evs, is_mouse_move e = false) :
    dispatched_moves (evs.map Call.dispatch_event) = [] := by
  induction evs with
  | nil => rfl
  | cons e rest ih =>
    have h1 := h e (List.mem_cons_self _ _)
    have h2 := ih (fun e he => h e (List.mem_cons_of_mem _ he))
    cases e <;> first | (simpa [dispatched_moves] using h2) | exact Bool.noConfusion h1

theorem dispatch_input_move (a : App) (prev : Nat × Nat) (x y : Nat) (m : key.Modifier)
    (rest : List Event) :
    dispatch_input a prev (Event.MouseMove x y m :: rest) =
      if (x, y) = prev then dispatch_input a prev rest
      else dispatch_input (dispatch_event a (Event.MouseMove x y m)) (x, y) rest := by
  rw [dispatch_input]
  by_cases h : x = prev.1 ∧ y = prev.2
  · rw [if_pos h, if_pos (Prod.ext h.1 h.2)]
  · rw [if_neg h, if_neg]
    intro hc
    exact h ⟨congrArg Prod.fst hc, congrArg Prod.snd hc⟩

theorem dispatch_input_other (a : App) (prev : Nat × Nat) (e : Event) (rest : List Event)
    (h : is_mouse_move e = false) :
    dispatch_input a prev (e :: rest) = dispatch_input (dispatch_event a e) prev rest := by
  cases e <;> first | exact Bool.noConfusion h | rfl

theorem dispatch_event_calls (a : App) (e : Event) :
    dispatch_event a e = { a with calls := a.calls ++ [Call.dispatch_event e] } := rfl

/-- The loop over one batch of events: it only adds calls of `dispatch_event`; the events
dispatched are events of the batch, in the order of the batch, and every event that is not
a `MouseMove` is among them; no dispatched `MouseMove` has the coordinates of the one
dispatched before it (of `prev` for the first); and the coordinates remembered at the end
are those of the last `MouseMove` dispatched (`prev` when there was none). -/
theorem dispatch_input_spec (evs : List Event) (a : App) (prev : Nat × Nat) :
    ∃ added : List Call,
      (dispatch_input a prev evs).1 = { a with calls := a.calls ++ added } ∧
      added = (dispatched added).map Call.dispatch_event ∧
      (dispatched added).Sublist evs ∧
      (dispatched added).filter (fun e => !is_mouse_move e) =
        evs.filter (fun e => !is_mouse_move e) ∧
      List.Chain (fun p q => p ≠ q) prev (dispatched_moves added) ∧
      (dispatch_input a prev evs).2 = (dispatched_moves added).getLastD prev := by
  induction evs generalizing a prev with
  | nil => exact ⟨[], by simp [dispatch_input], rfl, List.Sublist.refl _, rfl, List.Chain.nil, rfl⟩
  | cons e rest ih =>
    cases hm : is_mouse_move e with
    | false =>
      rw [dispatch_input_other a prev e rest hm]
      obtain ⟨added, h1, h2, h3, h4, h5, h6⟩ := ih (dispatch_event a e) prev
      have hd : dispatched_moves (Call.dispatch_event e :: added) = dispatched_moves added := by
        cases e <;> first | exact Bool.noConfusion hm | rfl
      refine ⟨Call.dispatch_event e :: added, ?_, ?_, ?_, ?_, ?_, ?_⟩
      · rw [h1, dispatch_event_calls]
        simp
      · simp only [dispatched, List.map_cons]
        rw [← h2]
      · simp only [dispatched]
        exact h3.cons₂ e
      · simp only [dispatched]
        rw [List.filter_cons_of_pos (by simp [hm]), List.filter_cons_of_pos (by simp [hm]), h4]
      · rw [hd]
        exact h5
      · rw [hd]
        exact h6
    | true =>
      obtain ⟨x, y, m, rfl⟩ : ∃ x y m, e = Event.MouseMove x y m := by
        cases e <;> first | exact Bool.noConfusion hm | exact ⟨_, _, _, rfl⟩
      rw [dispatch_input_move]
      by_cases hp : (x, y) = prev
      · rw [if_pos hp]
        obtain ⟨added, h1, h2, h3, h4, h5, h6⟩ := ih a prev
        refine ⟨added, h1, h2, h3.cons _, ?_, h5, h6⟩
        rw [List.filter_cons_of_neg (by simp [is_mouse_move]), h4]
      · rw [if_neg hp]
        obtain ⟨added, h1, h2, h3, h4, h5, h6⟩ :=
          ih (dispatch_event a (Event.MouseMove x y m)) (x, y)
        refine ⟨Call.dispatch_event (Event.MouseMove x y m) :: added, ?_, ?_, ?_, ?_, ?_, ?_⟩
        · rw [h1, dispatch_event_calls]
          simp
        · simp only [dispatched, List.map_cons]
          rw [← h2]
        · simp only [dispatched]
          exact h3.cons₂ _
        · simp only [dispatched]
          rw [List.filter_cons_of_neg (by simp [is_mouse_move]),
            List.filter_cons_of_neg (by simp [is_mouse_move]), h4]
        · simp only [dispatched_moves]
          exact List.Chain.cons (fun hc => hp hc.symm) h5
        · simp only [dispatched_moves]
          rw [h6]
          cases dispatched_moves added <;> rfl

theorem drain_fold (evs : List Event) (a : App) :
    evs.foldl dispatch_event a = { a with calls := a.calls ++ evs.map Call.dispatch_event } := by
  induction evs generalizing a with
  | nil => simp
  | cons e rest ih =>
    rw [List.foldl_cons, ih, dispatch_event_calls]
    simp

theorem drain_internal_events_eq (a : App) :
    drain_internal_events a =
      { a with calls := a.calls ++ a._internal_events.map Call.dispatch_event,
               _internal_events := [] } := by
  unfold drain_internal_events
  rw [drain_fold]

/-- The block `if(_emit_resize_event)` when the flag is set. -/
theorem resize_block_pending (a : App) (size : Nat × Nat) (h : a._emit_resize_event = true) :
    resize_block a size =
      { a with
        _emit_resize_event := false,
        _internal_events := a._internal_events ++ [Event.Resize size a.screen_size],
        screen_size := size,
        calls := a.calls ++ [Call.get_terminal_size, Call.set_size size] ++
          (if a.screen_size.1 = 0 ∧ a.screen_size.2 = 0 then [Call.on_app_start] else []) } := by
  unfold resize_block enqueue_resize_event
  rw [if_pos h]
  by_cases hf : a.screen_size.1 = 0 ∧ a.screen_size.2 = 0
  · simp [hf]
  · simp [hf]

theorem resize_block_idle (a : App) (size : Nat × Nat) (h : a._emit_resize_event = false) :
    resize_block a size = a := by
  unfold resize_block
  rw [if_neg (by rw [h]; exact Bool.noConfusion)]

end App

end termic

namespace termic

open event (Event)

namespace App

theorem chain_append_getLastD {α : Type} {R : α → α → Prop} (l1 l2 : List α) (a : α)
    (h1 : List.Chain R a l1) (h2 : List.Chain R (l1.getLastD a) l2) :
    List.Chain R a (l1 ++ l2) := by
  induction l1 generalizing a with
  | nil => exact h2
  | cons b rest ih =>
    rw [List.chain_cons] at h1
    rw [List.cons_append, List.chain_cons]
    refine ⟨h1.1, ih b h1.2 ?_⟩
    cases rest <;> exact h2

theorem getLastD_append {α : Type} (l1 l2 : List α) (a : α) :
    (l1 ++ l2).getLastD a = l2.getLastD (l1.getLastD a) := by
  induction l1 generalizing a with
  | nil => rfl
  | cons b rest ih =>
    have h1 : ∀ (l : List α) (c : α), (b :: l).getLastD c = l.getLastD b := by
      intro l c
      cases l <;> rfl
    rw [List.cons_append, h1, h1, ih]

/-- One iteration of the loop of `run`: the calls made are those of the resize block, the
dispatch of the internal events, `update`, and the calls `added` of the loop over the events
read, for which `dispatch_input_spec` holds. -/
theorem iteration_spec (a : App) (prev : Nat × Nat) (t : Tick) :
    ∃ added : List Call,
      (iteration a prev t).1.calls =
        (resize_block a t.terminal_size).calls ++
          (resize_block a t.terminal_size)._internal_events.map Call.dispatch_event ++
          [Call.update] ++ added ∧
      (iteration a prev t).1._internal_events = [] ∧
      added = (dispatched added).map Call.dispatch_event ∧
      (dispatched added).Sublist t.events ∧
      (dispatched added).filter (fun e => !is_mouse_move e) =
        t.events.filter (fun e => !is_mouse_move e) ∧
      List.Chain (fun p q => p ≠ q) prev (dispatched_moves added) ∧
      (iteration a prev t).2 = (dispatched_moves added).getLastD prev := by
  unfold iteration
  simp only []
  rw [drain_internal_events_eq]
  obtain ⟨added, h1, h2, h3, h4, h5, h6⟩ := dispatch_input_spec t.events
    { calls := (resize_block a t.terminal_size).calls ++
        (resize_block a t.terminal_size)._internal_events.map Call.dispatch_event ++
        [Call.update],
      _internal_events := [],
      _initialized := (resize_block a t.terminal_size)._initialized,
      _should_quit := (resize_block a t.terminal_size)._should_quit,
      _emit_resize_event := (resize_block a t.terminal_size)._emit_resize_event,
      screen_size := (resize_block a t.terminal_size).screen_size } prev
  refine ⟨added, ?_, ?_, h2, h3, h4, h5, h6⟩
  · simp only []
    rw [h1]
  · simp only []
    rw [h1]

theorem resize_block_no_moves (a : App) (size : Nat × Nat)
    (h : ∀ e ∈ a._internal_events, is_mouse_move e = false) :
    ∀ e ∈ (resize_block a size)._internal_events, is_mouse_move e = false := by
  cases hp : a._emit_resize_event with
  | false =>
    rw [resize_block_idle a size hp]
    exact h
  | true =>
    rw [resize_block_pending a size hp]
    intro e he
    simp only [List.mem_append, List.mem_singleton] at he
    rcases he with he | he
    · exact h e he
    · rw [he]
      rfl

theorem resize_block_calls_no_moves (a : App) (size : Nat × Nat) :
    ∃ pre, (resize_block a size).calls = a.calls ++ pre ∧ dispatched pre = [] := by
  cases hp : a._emit_resize_event with
  | false =>
    rw [resize_block_idle a size hp]
    exact ⟨[], by simp, rfl⟩
  | true =>
    rw [resize_block_pending a size hp]
    refine ⟨[Call.get_terminal_size, Call.set_size size] ++
      (if a.screen_size.1 = 0 ∧ a.screen_size.2 = 0 then [Call.on_app_start] else []), ?_, ?_⟩
    · simp
    · split_ifs <;> rfl

theorem dispatched_moves_of_dispatched_nil (l : List Call) (h : dispatched l = []) :
    dispatched_moves l = [] := by
  induction l with
  | nil => rfl
  | cons c rest ih =>
    cases c with
    | dispatch_event e => simp [dispatched] at h
    | _ => simpa [dispatched_moves] using ih (by simpa [dispatched] using h)

/-- The loop of `run`: among the calls it adds, no dispatched `MouseMove` has the
coordinates of the one dispatched before it (of `prev` for the first), when the queue of
internal events holds no `MouseMove` at the start. -/
theorem run_loop_spec (ticks : List Tick) (a : App) (prev : Nat × Nat)
    (h : ∀ e ∈ a._internal_events, is_mouse_move e = false) :
    ∃ added : List Call,
      (run_loop a prev ticks).1.calls = a.calls ++ added ∧
      List.Chain (fun p q => p ≠ q) prev (dispatched_moves added) ∧
      (run_loop a prev ticks).2 = (dispatched_moves added).getLastD prev := by
  induction ticks generalizing a prev with
  | nil => exact ⟨[], by simp [run_loop], List.Chain.nil, rfl⟩
  | cons t rest ih =>
    rw [run_loop]
    split_ifs with hq
    · exact ⟨[], by simp, List.Chain.nil, rfl⟩
    · obtain ⟨added, h1, h2, -, -, -, h6, h7⟩ := iteration_spec a prev t
      obtain ⟨pre, hp1, hp2⟩ := resize_block_calls_no_moves a t.terminal_size
      obtain ⟨added2, g1, g2, g3⟩ := ih (iteration a prev t).1 (iteration a prev t).2
        (by rw [h2]; intro e he; cases he)
      have hm : dispatched_moves (pre ++
          (resize_block a t.terminal_size)._internal_events.map Call.dispatch_event ++
          [Call.update] ++ added) = dispatched_moves added := by
        rw [dispatched_moves_append, dispatched_moves_append, dispatched_moves_append,
          dispatched_moves_of_dispatched_nil pre hp2,
          dispatched_moves_map _ (resize_block_no_moves a t.terminal_size h)]
        rfl
      refine ⟨pre ++
          (resize_block a t.terminal_size)._internal_events.map Call.dispatch_event ++
          [Call.update] ++ added ++ added2, ?_, ?_, ?_⟩
      · rw [g1, h1, hp1]
        simp only [List.append_assoc]
      · rw [dispatched_moves_append, hm]
        rw [h7] at g2
        exact chain_append_getLastD _ _ _ h6 g2
      · rw [g3, h7, dispatched_moves_append, hm, getLastD_append]

/-- Claim C26.  In the loop of `run` over the events that `read` returned, a `MouseMove`
whose coordinates are those remembered (`prev`) is skipped, and any other `MouseMove` is
dispatched and its coordinates are remembered; an event of another kind is always
dispatched and leaves the remembered coordinates as they are.  The coordinates remembered
after a batch are those of the last `MouseMove` dispatched.  Hence in the whole run, which
starts with `(SIZE_MAX, SIZE_MAX)` remembered, no dispatched `MouseMove` has the coordinates
of the `MouseMove` dispatched before it, nor the first those of `(SIZE_MAX, SIZE_MAX)`. -/
theorem run_skips_repeated_mouse_move (a : App) (ticks : List Tick)
    (h : ∀ e ∈ a._internal_events, is_mouse_move e = false) :
    (∀ (b : App) (prev : Nat × Nat) (x y : Nat) (m : key.Modifier) (rest : List Event),
        dispatch_input b prev (Event.MouseMove x y m :: rest) =
          if (x, y) = prev then dispatch_input b prev rest
          else dispatch_input (dispatch_event b (Event.MouseMove x y m)) (x, y) rest) ∧
      (∀ (b : App) (prev : Nat × Nat) (e : Event) (rest : List Event),
        is_mouse_move e = false →
        dispatch_input b prev (e :: rest) = dispatch_input (dispatch_event b e) prev rest) ∧
      (∀ (b : App) (prev : Nat × Nat) (evs : List Event),
        ∃ added : List Call,
          (dispatch_input b prev evs).1 = { b with calls := b.calls ++ added } ∧
          added = (dispatched added).map Call.dispatch_event ∧
          (dispatched added).Sublist evs ∧
          (dispatched added).filter (fun e => !is_mouse_move e) =
            evs.filter (fun e => !is_mouse_move e) ∧
          List.Chain (fun p q => p ≠ q) prev (dispatched_moves added) ∧
          (dispatch_input b prev evs).2 = (dispatched_moves added).getLastD prev) ∧
      ∃ added : List Call,
        (run a ticks).calls = a.calls ++ added ∧
        List.Chain (fun p q => p ≠ q) (SIZE_MAX, SIZE_MAX) (dispatched_moves added) := by
  refine ⟨dispatch_input_move, dispatch_input_other, fun b prev evs => dispatch_input_spec evs b prev, ?_⟩
  obtain ⟨added, h1, h2, -⟩ := run_loop_spec ticks { a with _emit_resize_event := true }
    (SIZE_MAX, SIZE_MAX) h
  exact ⟨added, h1, h2⟩

/-- Claim C26 on a run of two iterations: of the moves to (3, 4), (3, 4), (5, 6) read in the
first and the move to (5, 6) read in the second, with a key between them, the moves to
(3, 4) and (5, 6) are dispatched once each. -/
theorem run_skips_repeated_mouse_move_witness :
    dispatched (run ⟨true, false, false, [], (80, 24), []⟩
        [⟨(80, 24), [Event.MouseMove 3 4 key.NoMod, Event.MouseMove 3 4 key.NoMod,
            Event.MouseMove 5 6 key.NoMod], false, false⟩,
          ⟨(80, 24), [Event.Key key.Key.A key.NoMod, Event.MouseMove 5 6 key.NoMod],
            false, false⟩]).calls =
        [Event.Resize (80, 24) (80, 24), Event.MouseMove 3 4 key.NoMod,
          Event.MouseMove 5 6 key.NoMod, Event.Key key.Key.A key.NoMod] ∧
      ∃ added : List Call,
        (run ⟨true, false, false, [], (80, 24), []⟩
          [⟨(80, 24), [Event.MouseMove 3 4 key.NoMod, Event.MouseMove 3 4 key.NoMod,
              Event.MouseMove 5 6 key.NoMod], false, false⟩,
            ⟨(80, 24), [Event.Key key.Key.A key.NoMod, Event.MouseMove 5 6 key.NoMod],
              false, false⟩]).calls = [] ++ added ∧
        List.Chain (fun p q => p ≠ q) (SIZE_MAX, SIZE_MAX) (dispatched_moves added) :=
  ⟨by decide, (run_skips_repeated_mouse_move ⟨true, false, false, [], (80, 24), []⟩
    [⟨(80, 24), [Event.MouseMove 3 4 key.NoMod, Event.MouseMove 3 4 key.NoMod,
        Event.MouseMove 5 6 key.NoMod], false, false⟩,
      ⟨(80, 24), [Event.Key key.Key.A key.NoMod, Event.MouseMove 5 6 key.NoMod],
        false, false⟩] (fun e he => by cases he)).2.2.2⟩

/-- Claim C27.  An iteration of the loop of `run` that starts with a resize pending queries
the size of the terminal, enqueues one `Resize` event, whose size is the size queried and
whose old size is the size of the screen before `set_size`, and sets the size of the screen;
the internal events, the `Resize` event last, are dispatched before `update` is called, and
the events that `read` returns are dispatched after it. -/
theorem iteration_resize_first (a : App) (prev : Nat × Nat) (t : Tick)
    (h : a._emit_resize_event = true) :
    (resize_block a t.terminal_size)._internal_events =
        a._internal_events ++ [Event.Resize t.terminal_size a.screen_size] ∧
      (resize_block a t.terminal_size).screen_size = t.terminal_size ∧
      ∃ added : List Call,
        (iteration a prev t).1.calls =
          a.calls ++ [Call.get_terminal_size, Call.set_size t.terminal_size] ++
            (if a.screen_size.1 = 0 ∧ a.screen_size.2 = 0 then [Call.on_app_start] else []) ++
            (a._internal_events ++ [Event.Resize t.terminal_size a.screen_size]).map
              Call.dispatch_event ++
            [Call.update] ++ added ∧
        added = (dispatched added).map Call.dispatch_event ∧
        (dispatched added).Sublist t.events ∧
        (iteration a prev t).1._internal_events = [] := by
  obtain ⟨added, h1, h2, h3, h4, -, -, -⟩ := iteration_spec a prev t
  rw [resize_block_pending a t.terminal_size h] at h1 ⊢
  exact ⟨rfl, rfl, added, h1, h3, h4, h2⟩

/-- Claim C27 on an iteration that starts with a resize pending on a screen of 80 by 24 and
reads a key: the event `Resize{100x30, old 80x24}` is enqueued and dispatched, then `update`
is called, then the key is dispatched. -/
theorem iteration_resize_first_witness :
    (resize_block ⟨true, false, true, [], (80, 24), []⟩ (100, 30))._internal_events =
        [] ++ [Event.Resize (100, 30) (80, 24)] ∧
      (iteration ⟨true, false, true, [], (80, 24), []⟩ (SIZE_MAX, SIZE_MAX)
        ⟨(100, 30), [Event.Key key.Key.A key.NoMod], false, false⟩).1.calls =
      [Call.get_terminal_size, Call.set_size (100, 30),
        Call.dispatch_event (Event.Resize (100, 30) (80, 24)), Call.update,
        Call.dispatch_event (Event.Key key.Key.A key.NoMod)] :=
  ⟨(iteration_resize_first ⟨true, false, true, [], (80, 24), []⟩ (SIZE_MAX, SIZE_MAX)
    ⟨(100, 30), [Event.Key key.Key.A key.NoMod], false, false⟩ rfl).1, by decide⟩

/-- Claim C28, the code at its failing input.  On an initialised `App`, `shutdown` called
twice invokes `on_app_exit` twice and `restore_terminal` once: the second call invokes
`on_app_exit` again.  For every state, the second call adds the call `on_app_exit(0)` and
nothing else, and changes nothing but the record of the calls. -/
theorem shutdown_twice :
    (shutdown ⟨true, false, false, [], (80, 24), []⟩).calls =
        [Call.on_app_exit 0, Call.restore_terminal] ∧
      (shutdown (shutdown ⟨true, false, false, [], (80, 24), []⟩)).calls =
        [Call.on_app_exit 0, Call.restore_terminal, Call.on_app_exit 0] ∧
      (∀ a : App, shutdown (shutdown a) =
        { shutdown a with calls := (shutdown a).calls ++ [Call.on_app_exit 0] }) ∧
      (∀ a : App, (shutdown a)._initialized = false) := by
  refine ⟨by decide, by decide, ?_, ?_⟩
  · intro a
    unfold shutdown
    cases a._initialized <;> simp
  · intro a
    unfold shutdown
    cases h : a._initialized <;> simp [h]

end App

end termic

namespace termic

namespace Screen

/-! ## The screen buffers -/

theorem flush_row_front (y : Nat) (back : List Cell) :
    ∀ (st : Cursor × List Out) (x : Nat) (front : List Cell), back.length = front.length →
      (flush_row st y x back front).2 = back := by
  induction back with
  | nil =>
    intro st x front h
    cases front with
    | nil => rfl
    | cons f rest => cases h
  | cons b rest ih =>
    intro st x front h
    cases front with
    | nil => cases h
    | cons f frest =>
      rw [flush_row]
      simp only []
      rw [ih _ _ _ (Nat.succ.inj h)]
      by_cases hc : b = f
      · simp [hc]
      · simp [hc]

theorem flush_rows_front (back : List (List Cell)) :
    ∀ (st : Cursor × List Out) (y : Nat) (front : List (List Cell)),
      front.map List.length = back.map List.length → (flush_rows st y back front).2 = back := by
  induction back with
  | nil =>
    intro st y front h
    cases front with
    | nil => rfl
    | cons f rest => cases h
  | cons b rest ih =>
    intro st y front h
    cases front with
    | nil => cases h
    | cons f frest =>
      rw [List.map_cons, List.map_cons, List.cons.injEq] at h
      rw [flush_rows]
      simp only []
      rw [ih _ _ _ h.2, flush_row_front y b _ _ _ h.1.symm]

/-- After `update` the rows of the front buffer are those of the back buffer, which `update`
leaves as it was. -/
theorem update_front (s : Screen) (h : SameSize s) :
    (update s)._front_buffer._rows = s._back_buffer._rows ∧
      (update s)._back_buffer = s._back_buffer := by
  unfold update
  exact ⟨flush_rows_front _ _ _ _ h, rfl⟩

theorem put_lengths (b : ScreenBuffer) (x y : Nat) (c : Cell) :
    (b.put x y c)._rows.map List.length = b._rows.map List.length := by
  unfold ScreenBuffer.put
  simp only []
  apply List.ext_getElem
  · simp
  · intro i h1 h2
    simp only [List.getElem_map, List.getElem_set]
    split
    · rename_i hy
      subst hy
      simp only [List.length_set]
      rw [List.getD_eq_getElem?_getD, List.getElem?_eq_getElem (by simpa using h2)]
      rfl
    · rfl

theorem set_cell_lengths (s : Screen) (pos : Pos) (ch : List Byte) (width : Nat) (lk : Look) :
    (set_cell s pos ch width lk)._back_buffer._rows.map List.length =
        s._back_buffer._rows.map List.length ∧
      (set_cell s pos ch width lk)._front_buffer = s._front_buffer := by
  unfold set_cell
  simp only []
  split_ifs <;> simp only [put_lengths, and_self]

theorem clear_lengths (s : Screen) (rect : Rectangle) (bg fg : Color) :
    (clear s rect bg fg)._back_buffer._rows.map List.length =
        s._back_buffer._rows.map List.length ∧
      (clear s rect bg fg)._front_buffer = s._front_buffer := by
  unfold clear
  simp only [and_true]
  apply List.ext_getElem
  · simp [List.enum]
  · intro i h1 h2
    simp [List.enum]

theorem print_lengths (text : List (List Byte × Nat)) (lk : Look) (s : Screen) :
    (text.foldl (fun st g =>
        { set_cell st st._client_cursor g.1 g.2 lk with
          _client_cursor := ⟨st._client_cursor.x + g.2, st._client_cursor.y⟩ }) s
      )._back_buffer._rows.map List.length = s._back_buffer._rows.map List.length ∧
      (text.foldl (fun st g =>
        { set_cell st st._client_cursor g.1 g.2 lk with
          _client_cursor := ⟨st._client_cursor.x + g.2, st._client_cursor.y⟩ }) s
      )._front_buffer = s._front_buffer := by
  induction text generalizing s with
  | nil => exact ⟨rfl, rfl⟩
  | cons g rest ih =>
    rw [List.foldl_cons]
    obtain ⟨h1, h2⟩ := ih { set_cell s s._client_cursor g.1 g.2 lk with
      _client_cursor := ⟨s._client_cursor.x + g.2, s._client_cursor.y⟩ }
    obtain ⟨h3, h4⟩ := set_cell_lengths s s._client_cursor g.1 g.2 lk
    exact ⟨h1.trans h3, h2.trans h4⟩

/-- A write to the back buffer changes neither the size of the back buffer nor the front
buffer. -/
theorem write_lengths (s : Screen) (w : Write) :
    (write s w)._back_buffer._rows.map List.length = s._back_buffer._rows.map List.length ∧
      (write s w)._front_buffer = s._front_buffer := by
  cases w with
  | set_cell pos ch width lk => exact set_cell_lengths s pos ch width lk
  | clear rect bg fg => exact clear_lengths s rect bg fg
  | print pos text lk => exact print_lengths text lk { s with _client_cursor := pos }

theorem SameSize.write {s : Screen} (h : SameSize s) (w : Write) : SameSize (write s w) := by
  unfold SameSize at h ⊢
  rw [(write_lengths s w).1, (write_lengths s w).2]
  exact h

theorem SameSize.writes {s : Screen} (h : SameSize s) (ws : List Write) :
    SameSize (ws.foldl Screen.write s) := by
  induction ws generalizing s with
  | nil => exact h
  | cons w rest ih => exact ih (h.write w)

theorem SameSize.blank (fd : Int) (width height : Nat) : SameSize (blank fd width height) :=
  rfl

/-- Claim C30.  On a screen whose two buffers have the same size, after any sequence of
writes to the back buffer (`set_cell`, `clear`, `print`) followed by `update`, the front
buffer holds the cells of the back buffer, which `update` has not changed, and no cell is
dirty. -/
theorem update_front_eq_back (s : Screen) (ws : List Write) (h : SameSize s) :
    (update (ws.foldl write s))._front_buffer._rows =
        (update (ws.foldl write s))._back_buffer._rows ∧
      (update (ws.foldl write s))._back_buffer = (ws.foldl write s)._back_buffer ∧
      (∀ x y : Nat, (update (ws.foldl write s))._front_buffer.cell x y =
        (update (ws.foldl write s))._back_buffer.cell x y) ∧
      (∀ x y : Nat, dirty (update (ws.foldl write s)) x y = false) := by
  obtain ⟨h1, h2⟩ := update_front (ws.foldl write s) (h.writes ws)
  have h3 : (update (ws.foldl write s))._front_buffer._rows =
      (update (ws.foldl write s))._back_buffer._rows := by rw [h1, h2]
  have h4 : ∀ x y : Nat, (update (ws.foldl write s))._front_buffer.cell x y =
      (update (ws.foldl write s))._back_buffer.cell x y := by
    intro x y
    unfold ScreenBuffer.cell
    rw [h3]
  refine ⟨h3, h2, h4, ?_⟩
  intro x y
  unfold dirty
  rw [h4]
  simp

/-- Claim C30 on a screen of 3 by 2 cells: after a `print` of a grapheme of width 2 and one
of width 1, a `clear` of one cell and `update`, the front buffer holds the cells of the back
buffer, among them the grapheme printed at (0, 0). -/
theorem update_front_eq_back_witness :
    (update ([Write.print ⟨0, 0⟩ [([0xe4, 0xb8, 0xad], 2), ([0x61], 1)] ⟨2, 0, 0⟩,
        Write.clear ⟨⟨0, 1⟩, 1, 1⟩ 4 1].foldl write (blank 1 3 2)))._front_buffer._rows =
      (update ([Write.print ⟨0, 0⟩ [([0xe4, 0xb8, 0xad], 2), ([0x61], 1)] ⟨2, 0, 0⟩,
        Write.clear ⟨⟨0, 1⟩, 1, 1⟩ 4 1].foldl write (blank 1 3 2)))._back_buffer._rows ∧
      (update ([Write.print ⟨0, 0⟩ [([0xe4, 0xb8, 0xad], 2), ([0x61], 1)] ⟨2, 0, 0⟩,
        Write.clear ⟨⟨0, 1⟩, 1, 1⟩ 4 1].foldl write (blank 1 3 2)))._front_buffer.cell 0 0 =
        ⟨[0xe4, 0xb8, 0xad], 2, ⟨2, 0, 0⟩, false⟩ :=
  ⟨(update_front_eq_back (blank 1 3 2)
      [Write.print ⟨0, 0⟩ [([0xe4, 0xb8, 0xad], 2), ([0x61], 1)] ⟨2, 0, 0⟩,
        Write.clear ⟨⟨0, 1⟩, 1, 1⟩ 4 1] (SameSize.blank 1 3 2)).1, by decide⟩

end Screen

end termic

namespace termic

open event (Event)
open key (Key Modifier)

namespace Input

/-! ## The modifier convention of the key table -/

set_option maxRecDepth 100000 in
/-- Claim C31, the code at its failing input.  `ESC [ 1 ; 6 A` decodes to `Key{UP, ALT|CTRL}`
though the modifier number 6 encodes `CTRL|SHIFT`.  Of the 128 entries of the key table of
the form `ESC [ <n> ; <m> <final byte>`, all carry the modifier set that `m` encodes except
five: `ESC [ 1 ; 3 E`, which carries `CTRL`, and `ESC [ 1 ; 6 D`, `C`, `B` and `A`, which
carry `ALT|CTRL`. -/
theorem read_ctrl_shift_up :
    read (Input.mk [0x1b, 0x5b, 0x31, 0x3b, 0x36, 0x41]
          (sort_sequences key_sequences_literal) 0 300) WaitResult.InputReceived [] [] 1000 =
        (Except.ok [Event.Key Key.UP ALT_CTRL],
          Input.mk [] (sort_sequences key_sequences_literal) 0 300) ∧
      modifier_of_mod 6 = CTRL_SHIFT ∧
      (key_sequences_literal.filter
        (fun k => (modifier_parameter k.sequence).isSome)).length = 128 ∧
      (∀ k ∈ key_sequences_literal, ∀ m, modifier_parameter k.sequence = some m →
        2 ≤ m ∧ m ≤ 8 ∧
        k.mods =
          if k.sequence = [0x1b, 0x5b, 0x31, 0x3b, 0x33, 0x45] then key.CTRL
          else if k.sequence ∈ [[0x1b, 0x5b, 0x31, 0x3b, 0x36, 0x44],
              [0x1b, 0x5b, 0x31, 0x3b, 0x36, 0x43], [0x1b, 0x5b, 0x31, 0x3b, 0x36, 0x42],
              [0x1b, 0x5b, 0x31, 0x3b, 0x36, 0x41]] then ALT_CTRL
          else modifier_of_mod m) := by
  refine ⟨by decide!, by decide, by decide!, ?_⟩
  have h : key_sequences_literal.all (fun k =>
      match modifier_parameter k.sequence with
      | none => true
      | some m => decide (2 ≤ m ∧ m ≤ 8 ∧
        k.mods =
          if k.sequence = [0x1b, 0x5b, 0x31, 0x3b, 0x33, 0x45] then key.CTRL
          else if k.sequence ∈ [[0x1b, 0x5b, 0x31, 0x3b, 0x36, 0x44],
              [0x1b, 0x5b, 0x31, 0x3b, 0x36, 0x43], [0x1b, 0x5b, 0x31, 0x3b, 0x36, 0x42],
              [0x1b, 0x5b, 0x31, 0x3b, 0x36, 0x41]] then ALT_CTRL
          else modifier_of_mod m)) = true := by
    decide!
  intro k hk m hm
  have := List.all_eq_true.1 h k hk
  simp only [hm] at this
  exact of_decide_eq_true this

/-! ## The order of entries of equal length -/

/-- Claim C35.  For any two orderings of the built-in table that are sorted longest sequence
first, the scan of `read` finds the same entry for every input (or none in both); two
sequences of equal length that are both prefixes of one input are equal. -/
theorem scan_keys_order_independent (t1 t2 : List KeySequence) (inp : List Byte)
    (h1 : SortedTable t1) (h2 : SortedTable t2) :
    scan_keys t1 inp = scan_keys t2 inp ∧
      (∀ a b l : List Byte, a <+: l → b <+: l → a.length = b.length → a = b) := by
  refine ⟨?_, fun a b l ha hb h => prefix_eq_of_length_eq ha hb h⟩
  have hperm : t1.Perm t2 := h1.1.trans h2.1.symm
  cases hs1 : scan_keys t1 inp with
  | none =>
    cases hs2 : scan_keys t2 inp with
    | none => rfl
    | some k2 =>
      obtain ⟨hk2, hpre2⟩ := scan_keys_some hs2
      obtain ⟨k, hk⟩ := @scan_keys_exists t1 inp ⟨k2, hperm.mem_iff.2 hk2, hpre2⟩
      rw [hs1] at hk
      cases hk
  | some k =>
    obtain ⟨hk, hpre⟩ := scan_keys_some hs1
    obtain ⟨k2, hs2⟩ := @scan_keys_exists t2 inp ⟨k, hperm.mem_iff.1 hk, hpre⟩
    obtain ⟨hk2, hpre2⟩ := scan_keys_some hs2
    have hlen := scan_keys_longest h2.2 hs2 k (hperm.mem_iff.1 hk) hpre
    have := scan_keys_unique h1.2 h1.nodup hs1 (hperm.mem_iff.2 hk2) hpre2 hlen
    rw [hs2, this]

set_option maxRecDepth 100000 in
/-- Claim C35 on two orderings that differ: the table sorted from the literal and the table
sorted from the reversed literal give the same entry for `ESC [ A`. -/
theorem scan_keys_order_independent_witness :
    sort_sequences key_sequences_literal ≠ sort_sequences key_sequences_literal.reverse ∧
      scan_keys (sort_sequences key_sequences_literal) [0x1b, 0x5b, 0x41] =
        scan_keys (sort_sequences key_sequences_literal.reverse) [0x1b, 0x5b, 0x41] :=
  ⟨by decide!,
    (scan_keys_order_independent (sort_sequences key_sequences_literal)
      (sort_sequences key_sequences_literal.reverse) [0x1b, 0x5b, 0x41] sortedTable_sort
      ⟨(sort_sequences_perm _).trans (List.reverse_perm _), sort_sequences_sorted _⟩).1⟩

end Input

namespace utf8

/-! ## The tables of spaces -/

/-- On a strictly ascending table the loop of `is_brk_space` decides membership. -/
theorem is_brk_space_loop_iff (table : List Nat) (c : Nat) (h : table.Pairwise (· < ·)) :
    is_brk_space_loop table c = true ↔ c ∈ table := by
  induction table with
  | nil => simp [is_brk_space_loop]
  | cons sc rest ih =>
    rw [List.pairwise_cons] at h
    rw [is_brk_space_loop]
    by_cases h1 : sc > c
    · rw [if_pos h1]
      simp only [Bool.false_eq_true, List.mem_cons, false_iff, not_or]
      refine ⟨by omega, fun hc => ?_⟩
      have := h.1 c hc
      omega
    · rw [if_neg h1]
      by_cases h2 : sc = c
      · rw [if_pos h2]
        simp [h2]
      · rw [if_neg h2, ih h.2]
        simp only [List.mem_cons]
        constructor
        · exact Or.inr
        · rintro (hc | hc)
          · exact absurd hc.symm h2
          · exact hc

/-- On a strictly ascending table the loop of `is_space` decides membership in the table or
`is_brk_space`. -/
theorem is_space_loop_iff (table : List Nat) (c : Nat) (h : table.Pairwise (· < ·)) :
    is_space_loop table c = true ↔ c ∈ table ∨ is_brk_space c = true := by
  induction table with
  | nil => simp [is_space_loop]
  | cons sc rest ih =>
    rw [List.pairwise_cons] at h
    rw [is_space_loop]
    by_cases h1 : sc > c
    · rw [if_pos h1]
      constructor
      · exact Or.inr
      · rintro (hc | hc)
        · rcases List.mem_cons.1 hc with hc | hc
          · omega
          · have := h.1 c hc
            omega
        · exact hc
    · rw [if_neg h1]
      by_cases h2 : sc = c
      · rw [if_pos h2]
        simp [h2]
      · rw [if_neg h2, ih h.2]
        simp only [List.mem_cons]
        constructor
        · rintro (hc | hc)
          · exact Or.inl (Or.inr hc)
          · exact Or.inr hc
        · rintro ((hc | hc) | hc)
          · exact absurd hc.symm h2
          · exact Or.inl hc
          · exact Or.inr hc

/-- Claim C33.  For every codepoint `c`, `is_brk_space(c)` is true exactly when `c` is one of
the 17 breaking spaces `0x0020`, `0x1680`, `0x180E`, `0x2000` to `0x200B`, `0x205F`,
`0x3000`, and `is_space(c)` is true exactly when `c` is `0x00A0`, `0x202F` or `0xFEFF` or
`is_brk_space(c)` is true.  Both tables are strictly ascending, and on every strictly
ascending table the early exit of the loops skips no match. -/
theorem is_space_iff_member (c : Nat) :
    (is_brk_space c = true ↔
        c = 0x0020 ∨ c = 0x1680 ∨ c = 0x180E ∨ (0x2000 ≤ c ∧ c ≤ 0x200B) ∨ c = 0x205F ∨
          c = 0x3000) ∧
      (is_space c = true ↔
        c = 0x00A0 ∨ c = 0x202F ∨ c = 0xFEFF ∨ is_brk_space c = true) ∧
      breaking_spacechars.length = 17 ∧
      breaking_spacechars.Pairwise (· < ·) ∧ spacechars.Pairwise (· < ·) ∧
      (∀ (table : List Nat) (d : Nat), table.Pairwise (· < ·) →
        (is_brk_space_loop table d = true ↔ d ∈ table) ∧
        (is_space_loop table d = true ↔ d ∈ table ∨ is_brk_space d = true)) := by
  have hb : breaking_spacechars.Pairwise (· < ·) := by decide
  have hs : spacechars.Pairwise (· < ·) := by decide
  refine ⟨?_, ?_, rfl, hb, hs, fun table d h =>
    ⟨is_brk_space_loop_iff table d h, is_space_loop_iff table d h⟩⟩
  · unfold is_brk_space
    rw [is_brk_space_loop_iff _ _ hb]
    simp only [breaking_spacechars, List.mem_cons, List.mem_singleton, List.not_mem_nil,
      or_false]
    omega
  · unfold is_space
    rw [is_space_loop_iff _ _ hs]
    simp only [spacechars, List.mem_cons, List.mem_singleton, List.not_mem_nil, or_false,
      or_assoc]

end utf8

end termic

namespace termic

namespace Timers

/-! ## The slots that `build_pollfds` writes -/

theorem timer_slots_lt (l : List (Nat × Int)) (idx : Nat) :
    ∀ i ∈ timer_slots idx l, idx ≤ i ∧ i < idx + l.length := by
  induction l generalizing idx with
  | nil => intro i hi; cases hi
  | cons e rest ih =>
    intro i hi
    rw [timer_slots, List.mem_cons] at hi
    rw [List.length_cons]
    rcases hi with rfl | hi
    · omega
    · have := ih (idx + 1) i hi
      omega

theorem timer_slots_length (l : List (Nat × Int)) (idx : Nat) :
    (timer_slots idx l).length = l.length := by
  induction l generalizing idx with
  | nil => rfl
  | cons e rest ih => rw [timer_slots, List.length_cons, List.length_cons, ih]

/-- Claim C32.  In a well-formed state with `n` registered timers, after `build_pollfds`
the poll set, which is what `wait` hands to `ppoll`, has `2 + n` slots: standard input, the
render trigger, and the descriptors of the registered timers, each once, all with `events =
POLLIN` and `revents = 0`.  Every index that `build_pollfds` writes to is below 18, the
length of the array, which stays 18; the tables are left as they were. -/
theorem build_pollfds_slots (s : Timers) (hwf : WellFormed s) :
    poll_set (build_pollfds s) =
        ⟨STDIN_FILENO, POLLIN, 0⟩ :: ⟨s._render_trigger_fd, POLLIN, 0⟩ ::
          s._timer_id_fd.map (fun e => (⟨e.2, POLLIN, 0⟩ : pollfd)) ∧
      nfds (build_pollfds s) = 2 + s._timer_id_fd.length ∧
      (poll_set (build_pollfds s)).length = 2 + s._timer_id_fd.length ∧
      (s._timer_id_fd.map Prod.snd).Nodup ∧
      (∀ i ∈ written_slots s, i < first_timer_fd_idx + max_timers) ∧
      (written_slots s).length = 2 + s._timer_id_fd.length ∧
      (build_pollfds s)._pollfds.length = first_timer_fd_idx + max_timers ∧
      first_timer_fd_idx + max_timers = 18 ∧
      (build_pollfds s)._timer_id_fd = s._timer_id_fd ∧
      (build_pollfds s)._timer_info = s._timer_info := by
  have hp := poll_set_build_pollfds s hwf.2.2.2.2 hwf.2.2.2.1 hwf.info_length
  have hn : nfds (build_pollfds s) = 2 + s._timer_id_fd.length := by
    show first_timer_fd_idx + s._timer_info.length = _
    rw [hwf.info_length]
    rfl
  refine ⟨hp, hn, ?_, hwf.2.1, ?_, ?_, ?_, rfl, rfl, rfl⟩
  · rw [hp]
    simp only [List.length_cons, List.length_map]
    omega
  · intro i hi
    unfold written_slots at hi
    have hle := hwf.2.2.2.1
    simp only [List.mem_cons] at hi
    rcases hi with rfl | rfl | hi
    · decide
    · decide
    · have := (timer_slots_lt _ _ i hi).2
      omega
  · unfold written_slots
    simp only [List.length_cons, timer_slots_length]
    omega
  · rw [build_pollfds_length]
    exact hwf.2.2.2.2

/-- Claim C32 on the state with the timers 1 and 2 (descriptors 4 and 5): the poll set holds
standard input, the render trigger 3 and the two descriptors, and the slots 0 to 3 are
written. -/
theorem build_pollfds_slots_witness :
    poll_set (build_pollfds (run (fresh 3 (List.replicate 18 ⟨0, 0, 0⟩))
        [Op.set_timer 10 0 none 4 0 0, Op.set_timer 20 50 (some 7) 5 0 0])) =
        [⟨0, 1, 0⟩, ⟨3, 1, 0⟩, ⟨5, 1, 0⟩, ⟨4, 1, 0⟩] ∧
      written_slots (run (fresh 3 (List.replicate 18 ⟨0, 0, 0⟩))
        [Op.set_timer 10 0 none 4 0 0, Op.set_timer 20 50 (some 7) 5 0 0]) = [0, 1, 2, 3] :=
  ⟨(build_pollfds_slots (run (fresh 3 (List.replicate 18 ⟨0, 0, 0⟩))
      [Op.set_timer 10 0 none 4 0 0, Op.set_timer 20 50 (some 7) 5 0 0]) (by decide)).1.trans
      (by decide), by decide⟩

end Timers

end termic

namespace termic

open event (Event)
open key (Key Modifier)

namespace Input

/-! ## `parse_mouse` on fields that begin with a digit -/

theorem takeWhile_append_stop {p : Nat → Bool} (a : List Nat) {c : Nat} (r : List Nat)
    (hc : p c = false) : (a ++ c :: r).takeWhile p = a.takeWhile p := by
  induction a with
  | nil => simp [List.takeWhile_cons, hc]
  | cons x xs ih =>
    simp only [List.cons_append, List.takeWhile_cons]
    split
    · rw [ih]
    · rfl

theorem takeWhile_isdigit_c_str (l : List Nat) :
    (c_str l).takeWhile isdigit = l.takeWhile isdigit := by
  unfold c_str
  induction l with
  | nil => rfl
  | cons x xs ih =>
    by_cases hx : x = 0
    · subst hx
      simp [List.takeWhile_cons, isdigit]
    · simp only [List.takeWhile_cons, hx, ne_eq, not_false_eq_true, decide_True, if_true]
      split
      · rw [ih]
      · rfl

theorem digits_value_lt_of_length_le (ds : List Nat) (h : ∀ c ∈ ds, isdigit c = true)
    (hl : ds.length ≤ 19) : digits_value ds < 2 ^ 64 :=
  calc digits_value ds < 10 ^ ds.length := digits_value_lt h
    _ ≤ 10 ^ 19 := Nat.pow_le_pow_right (by norm_num) hl
    _ < 2 ^ 64 := by norm_num

/-- The leading digits of a field of at most 19 bytes are a number below `2 ^ 64`. -/
theorem leading_digits_lt (f : List Nat) (hl : f.length ≤ 19) :
    digits_value (f.takeWhile isdigit) < 2 ^ 64 :=
  digits_value_lt_of_length_le _ (fun _ hc => (List.mem_takeWhile_imp hc))
    (le_trans (List.takeWhile_sublist _).length_le hl)

/-- The call `std::stoul` on a C string that starts with a field beginning with a digit,
followed by a byte that is not a digit, returns the value of the leading digits of the
field. -/
theorem stoul_leading {d : Nat} {f : List Nat} {c : Nat} (r : List Nat)
    (hd : isdigit d = true) (hc : isdigit c = false)
    (hv : digits_value ((d :: f).takeWhile isdigit) < 2 ^ 64) :
    stoul (c_str ((d :: f) ++ c :: r)) =
      Except.ok (digits_value ((d :: f).takeWhile isdigit)) := by
  have hd' := isdigit_iff.1 hd
  have hd0 : d ≠ 0 := by omega
  have hsp : isspace d = false := by
    have h1 : ¬ d = 32 := by omega
    have h2 : ¬ d ≤ 13 := by omega
    simp [isspace, h1, h2]
  have hds : (c_str ((d :: f) ++ c :: r)).takeWhile isdigit = (d :: f).takeWhile isdigit := by
    rw [takeWhile_isdigit_c_str, takeWhile_append_stop _ _ hc]
  have hcs : c_str ((d :: f) ++ c :: r) = d :: c_str (f ++ c :: r) := by
    rw [List.cons_append, c_str_cons hd0]
  have hne : ((d :: f).takeWhile isdigit).isEmpty = false := by
    simp [List.takeWhile_cons, hd]
  have hsign : stoul_sign (d :: c_str (f ++ c :: r)) = (false, d :: c_str (f ++ c :: r)) := by
    unfold stoul_sign
    split
    · rename_i heq; cases heq; omega
    · rename_i heq; cases heq; omega
    · rfl
  unfold stoul
  rw [hcs] at hds ⊢
  simp only [List.dropWhile_cons, hsp, Bool.false_eq_true, if_false, hsign, hds, hne,
    Nat.not_le.2 hv]

theorem mouse_event_len {s s1 : Input} {now bm x y t len n : Nat} {ev : Event}
    (h : mouse_event s now bm x y t len = (some (ev, n), s1)) : n = len := by
  unfold mouse_event at h
  simp only [] at h
  split_ifs at h <;>
    first
      | (simp only [Prod.mk.injEq, Option.some.injEq] at h; exact h.1.2.symm)
      | exact absurd (congrArg Prod.fst h) (by simp)

/-- When `parse_mouse` returns an event, `eaten` is the number of bytes up to and including
the first `M` or `m` of the view. -/
theorem parse_mouse_eaten {s s1 : Input} {now n : Nat} {v after : List Nat} {ev : Event}
    (h : parse_mouse s now v after = Except.ok (some (ev, n), s1)) : n = scan_len v := by
  unfold parse_mouse at h
  simp only [] at h
  split_ifs at h
  · cases h
  · cases h
  · cases h
  · split at h
    · cases h
    · split at h
      · cases h
      · split at h
        · cases h
        · simp only [Except.ok.injEq] at h
          exact mouse_event_len h

/-- On a view that starts with three fields, each beginning with a digit and holding no
`;`, `M` or `m`, separated by `;` and followed by `M` or `m`, `parse_mouse` reads the
leading digits of the three fields and hands them to the second half of the function. -/
theorem parse_mouse_fields (s : Input) (now : Nat) {f0 f1 f2 : List Nat} {t : Nat}
    (pad after : List Nat)
    (hs0 : ∀ c ∈ f0, c ≠ 0x3b ∧ c ≠ 0x4d ∧ c ≠ 0x6d)
    (hs1 : ∀ c ∈ f1, c ≠ 0x3b ∧ c ≠ 0x4d ∧ c ≠ 0x6d)
    (hs2 : ∀ c ∈ f2, c ≠ 0x3b ∧ c ≠ 0x4d ∧ c ≠ 0x6d)
    (hb0 : ∃ d r, f0 = d :: r ∧ isdigit d = true)
    (hb1 : ∃ d r, f1 = d :: r ∧ isdigit d = true)
    (hb2 : ∃ d r, f2 = d :: r ∧ isdigit d = true)
    (ht : t = 0x4d ∨ t = 0x6d)
    (hv0 : digits_value (f0.takeWhile isdigit) < 2 ^ 64)
    (hv1 : digits_value (f1.takeWhile isdigit) < 2 ^ 64)
    (hv2 : digits_value (f2.takeWhile isdigit) < 2 ^ 64) :
    parse_mouse s now (f0 ++ 0x3b :: (f1 ++ 0x3b :: (f2 ++ t :: pad))) after =
      Except.ok (mouse_event s now (digits_value (f0.takeWhile isdigit))
        (size_t_pred (digits_value (f1.takeWhile isdigit)))
        (size_t_pred (digits_value (f2.takeWhile isdigit)))
        t (f0.length + f1.length + f2.length + 3)) := by
  have hst : ∀ (f : List Nat), (∃ d r, f = d :: r ∧ isdigit d = true) →
      digits_value (f.takeWhile isdigit) < 2 ^ 64 → ∀ (c : Nat) (r : List Nat),
      isdigit c = false →
      stoul (c_str (f ++ c :: r)) = Except.ok (digits_value (f.takeWhile isdigit)) := by
    intro f hb hval c r hc
    obtain ⟨d, r1, rfl, hd⟩ := hb
    exact stoul_leading r hd hc hval
  have hpos : ∀ (f : List Nat), (∃ d r, f = d :: r ∧ isdigit d = true) → 1 ≤ f.length := by
    intro f hb
    obtain ⟨d, r1, rfl, -⟩ := hb
    simp
  have hp0 := hpos f0 hb0
  have hp1 := hpos f1 hb1
  have hp2 := hpos f2 hb2
  have hv : f0 ++ 0x3b :: (f1 ++ 0x3b :: (f2 ++ t :: pad)) =
      (f0 ++ 0x3b :: (f1 ++ 0x3b :: f2)) ++ t :: pad := by simp
  have hfl : (f0 ++ 0x3b :: (f1 ++ 0x3b :: f2)).length =
      f0.length + f1.length + f2.length + 2 := by
    simp only [List.length_append, List.length_cons]; omega
  have hfront : ∀ c ∈ f0 ++ 0x3b :: (f1 ++ 0x3b :: f2), c ≠ 0x4d ∧ c ≠ 0x6d := by
    intro c hc
    simp only [List.mem_append, List.mem_cons] at hc
    rcases hc with hc | rfl | hc | rfl | hc
    · exact (hs0 c hc).2
    · exact ⟨by norm_num, by norm_num⟩
    · exact (hs1 c hc).2
    · exact ⟨by norm_num, by norm_num⟩
    · exact (hs2 c hc).2
  have hlen : scan_len (f0 ++ 0x3b :: (f1 ++ 0x3b :: (f2 ++ t :: pad))) =
      f0.length + f1.length + f2.length + 3 := by
    rw [hv, scan_len_append pad hfront ht, hfl]
  have hlen1 : f0.length + f1.length + f2.length + 3 - 1 =
      (f0 ++ 0x3b :: (f1 ++ 0x3b :: f2)).length := by rw [hfl]; rfl
  have htail : (f0 ++ 0x3b :: (f1 ++ 0x3b :: (f2 ++ t :: pad))).getD
      (f0.length + f1.length + f2.length + 3 - 1) 0 = t := by
    rw [hlen1, hv, getD_append_length]
  have hseq : (f0 ++ 0x3b :: (f1 ++ 0x3b :: (f2 ++ t :: pad))).take
      (f0.length + f1.length + f2.length + 3 - 1) = f0 ++ 0x3b :: (f1 ++ 0x3b :: f2) := by
    rw [hlen1, hv, List.take_left]
  have hsplit : split (f0 ++ 0x3b :: (f1 ++ 0x3b :: f2)) 0x3b =
      [(0, 0 + f0.length), (0 + f0.length + 1, 0 + f0.length + 1 + f1.length),
        (0 + f0.length + 1 + f1.length + 1, 0 + f0.length + 1 + f1.length + 1 + f2.length)] := by
    unfold split
    rw [split_from_append _ (fun c hc => (hs0 c hc).1),
      split_from_append _ (fun c hc => (hs1 c hc).1),
      split_from_no_sep (fun c hc => (hs2 c hc).1)]
  have hnt : isdigit t = false := by
    rcases ht with rfl | rfl <;> rfl
  have hx0 : stoul (c_str (((f0 ++ 0x3b :: (f1 ++ 0x3b :: (f2 ++ t :: pad))) ++ after).drop 0)) =
      Except.ok (digits_value (f0.takeWhile isdigit)) := by
    rw [List.drop_zero, List.append_assoc, List.cons_append]
    exact hst f0 hb0 hv0 _ _ rfl
  have hx1 : stoul (c_str (((f0 ++ 0x3b :: (f1 ++ 0x3b :: (f2 ++ t :: pad))) ++ after).drop
      (0 + f0.length + 1))) = Except.ok (digits_value (f1.takeWhile isdigit)) := by
    rw [List.append_assoc, List.cons_append, Nat.zero_add, drop_append_cons,
      List.append_assoc, List.cons_append]
    exact hst f1 hb1 hv1 _ _ rfl
  have hx2 : stoul (c_str (((f0 ++ 0x3b :: (f1 ++ 0x3b :: (f2 ++ t :: pad))) ++ after).drop
      (0 + f0.length + 1 + f1.length + 1))) = Except.ok (digits_value (f2.takeWhile isdigit)) := by
    have : 0 + f0.length + 1 + f1.length + 1 = (f0 ++ 0x3b :: f1).length + 1 := by
      simp only [List.length_append, List.length_cons]; omega
    rw [this]
    have hre : (f0 ++ 0x3b :: (f1 ++ 0x3b :: (f2 ++ t :: pad))) ++ after =
        (f0 ++ 0x3b :: f1) ++ 0x3b :: (f2 ++ t :: (pad ++ after)) := by simp
    rw [hre, drop_append_cons]
    exact hst f2 hb2 hv2 _ _ hnt
  have hge : ¬ (f0.length + f1.length + f2.length + 3 < 6) := by omega
  have htl : ¬ (t ≠ 0x4d ∧ t ≠ 0x6d) := by
    rcases ht with rfl | rfl <;> simp
  unfold parse_mouse
  simp only [hlen, hge, if_false, htail, htl, hseq, hsplit, List.length_cons, List.length_nil,
    List.getD_cons_zero, List.getD_cons_succ, hx0, hx1, hx2, ne_eq, not_true_eq_false]

end Input

end termic

namespace termic

open event (Event)
open key (Key Modifier)

namespace Input

/-- The view that `read` hands to `parse_mouse` has at most 13 bytes. -/
theorem mouse_window_length_le (inp junk : List Nat) :
    (mouse_window inp junk).length ≤ max_mouse_seq_len - List.length mouse_prefix := by
  unfold mouse_window
  rw [List.length_drop, List.length_take]
  exact Nat.sub_le_sub_right (Nat.min_le_left _ _) _

/-- Claim C34.  The interior handed to `parse_mouse` is a view of at most 13 bytes (16 less
the prefix), as every view that `read` hands over is.  When it consists of three fields
separated by `;` and followed by `M` or `m`, so that the first `M` or `m` lies at the index
`t` = the lengths of the fields plus 2, and each field begins with a decimal digit and
holds no `;`, `M` or `m`, `parse_mouse` returns an event that carries a position (a
`MouseMove`, `MouseButton` or `MouseWheel`), with `eaten = t + 1 > 0`.  In the wheel range
the delta is odd, and the second half of the function returns an event whenever the final
byte is `M` or `m`, so the branch `eaten = 0; return -1` is not reached. -/
theorem parse_mouse_total (s : Input) (now : Nat) (f0 f1 f2 : List Nat) (t : Nat)
    (pad after : List Nat)
    (hs0 : ∀ c ∈ f0, c ≠ 0x3b ∧ c ≠ 0x4d ∧ c ≠ 0x6d)
    (hs1 : ∀ c ∈ f1, c ≠ 0x3b ∧ c ≠ 0x4d ∧ c ≠ 0x6d)
    (hs2 : ∀ c ∈ f2, c ≠ 0x3b ∧ c ≠ 0x4d ∧ c ≠ 0x6d)
    (hb0 : ∃ d r, f0 = d :: r ∧ isdigit d = true)
    (hb1 : ∃ d r, f1 = d :: r ∧ isdigit d = true)
    (hb2 : ∃ d r, f2 = d :: r ∧ isdigit d = true)
    (ht : t = 0x4d ∨ t = 0x6d)
    (hview : (f0 ++ 0x3b :: (f1 ++ 0x3b :: (f2 ++ t :: pad))).length ≤
      max_mouse_seq_len - List.length mouse_prefix) :
    (∃ ev s1,
        parse_mouse s now (f0 ++ 0x3b :: (f1 ++ 0x3b :: (f2 ++ t :: pad))) after =
          Except.ok (some (ev, f0.length + f1.length + f2.length + 2 + 1), s1) ∧
        ((∃ x y m, ev = Event.MouseMove x y m) ∨
          (∃ b p r dc x y m, ev = Event.MouseButton b p r dc x y m) ∨
          (∃ dl x y m, ev = Event.MouseWheel dl x y m))) ∧
      scan_len (f0 ++ 0x3b :: (f1 ++ 0x3b :: (f2 ++ t :: pad))) =
        f0.length + f1.length + f2.length + 2 + 1 ∧
      5 ≤ f0.length + f1.length + f2.length + 2 ∧
      (∀ inp junk : List Nat,
        (mouse_window inp junk).length ≤ max_mouse_seq_len - List.length mouse_prefix) ∧
      (∀ bm : Nat, 64 ≤ bm → bm < 128 → mouse_wheel_of bm % 2 = 1 ∧ mouse_wheel_of bm ≠ 0) ∧
      (∀ (s0 : Input) (now0 bm x y t0 len : Nat), t0 = 0x4d ∨ t0 = 0x6d →
        (mouse_event s0 now0 bm x y t0 len).1 ≠ none) := by
  have hlen : f0.length + f1.length + f2.length + 3 + pad.length ≤ 13 := by
    simp only [List.length_append, List.length_cons, max_mouse_seq_len, mouse_prefix,
      List.length_nil] at hview
    omega
  have hv0 := leading_digits_lt f0 (by omega)
  have hv1 := leading_digits_lt f1 (by omega)
  have hv2 := leading_digits_lt f2 (by omega)
  have hp := parse_mouse_fields s now pad after hs0 hs1 hs2 hb0 hb1 hb2 ht hv0 hv1 hv2
  obtain ⟨ev, s1, hev, hpos, -⟩ := mouse_event_some s now (digits_value (f0.takeWhile isdigit))
    (size_t_pred (digits_value (f1.takeWhile isdigit)))
    (size_t_pred (digits_value (f2.takeWhile isdigit))) t
    (f0.length + f1.length + f2.length + 3) ht
  have hpos0 : ∀ (f : List Nat), (∃ d r, f = d :: r ∧ isdigit d = true) → 1 ≤ f.length := by
    intro f hb
    obtain ⟨d, r1, rfl, -⟩ := hb
    simp
  have h0 := hpos0 f0 hb0
  have h1 := hpos0 f1 hb1
  have h2 := hpos0 f2 hb2
  refine ⟨⟨ev, s1, ?_, ?_⟩, ?_, by omega, mouse_window_length_le, ?_, ?_⟩
  · rw [hp, hev]
  · cases ev with
    | MouseMove x y m => exact Or.inl ⟨x, y, m, rfl⟩
    | MouseButton b p r dc x y m => exact Or.inr (Or.inl ⟨b, p, r, dc, x, y, m, rfl⟩)
    | MouseWheel dl x y m => exact Or.inr (Or.inr ⟨dl, x, y, m, rfl⟩)
    | _ => simp [Event.position] at hpos
  · have := parse_mouse_eaten (hp.trans (congrArg Except.ok hev))
    exact this.symm
  · intro bm h64 h128
    have hne := mouse_wheel_of_ne_zero (Nat.not_le.2 h128) h64
    refine ⟨?_, hne⟩
    unfold mouse_wheel_of
    rw [if_neg (Nat.not_le.2 h128), if_pos h64]
    omega
  · intro s0 now0 bm x y t0 len ht0
    obtain ⟨ev0, s2, h, -⟩ := mouse_event_some s0 now0 bm x y t0 len ht0
    rw [h]
    simp

/-- Claim C34 on the view `9x;1 ;1M` followed by NULs, whose fields only begin with a digit:
`parse_mouse` returns the press of button 9 at (0, 0) with `eaten = 8`. -/
theorem parse_mouse_total_witness :
    parse_mouse (Input.mk [] [] 0 300) 1000
        ([0x39, 0x78] ++ 0x3b :: ([0x31, 0x20] ++ 0x3b :: ([0x31] ++ 0x4d :: [0, 0, 0, 0, 0])))
        [] =
      Except.ok (some (Event.MouseButton 9 true false false 0 0 key.ALT, 8),
        Input.mk [] [] 0 300) ∧
    scan_len ([0x39, 0x78] ++ 0x3b :: ([0x31, 0x20] ++ 0x3b ::
        ([0x31] ++ 0x4d :: [0, 0, 0, 0, 0]))) =
      [0x39, 0x78].length + [0x31, 0x20].length + [0x31].length + 2 + 1 :=
  ⟨by decide,
    (parse_mouse_total (Input.mk [] [] 0 300) 1000 [0x39, 0x78] [0x31, 0x20] [0x31] 0x4d
      [0, 0, 0, 0, 0] [] (by decide) (by decide) (by decide) ⟨0x39, [0x78], rfl, rfl⟩
      ⟨0x31, [0x20], rfl, rfl⟩ ⟨0x31, [], rfl, rfl⟩ (Or.inl rfl) (by decide)).2.1⟩

/-! ## The view of the mouse stage -/

theorem mouse_window_long (inp junk : List Nat) (h : max_mouse_seq_len ≤ inp.length) :
    mouse_window inp junk = (inp.take max_mouse_seq_len).drop (List.length mouse_prefix) := by
  unfold mouse_window
  rw [List.take_append_of_le_length h]

theorem mouse_window_short (inp junk : List Nat) (h3 : 3 ≤ inp.length)
    (h : inp.length < max_mouse_seq_len) :
    mouse_window inp junk =
      inp.drop 3 ++ (0 :: junk).take (max_mouse_seq_len - inp.length) := by
  unfold mouse_window
  rw [List.take_append_eq_append_take, List.take_of_length_le (le_of_lt h),
    List.drop_append_of_le_length (by simpa [List.length_cons, mouse_prefix] using h3)]
  rfl

theorem mouse_stage_eaten_le {s s1 : Input} {now n : Nat} {inp junk : List Nat} {ev : Event}
    (h : mouse_stage s now inp junk = Except.ok (some (ev, n), s1))
    (hl : max_mouse_seq_len ≤ inp.length) : 3 + n ≤ inp.length := by
  unfold mouse_stage at h
  split_ifs at h
  · have hn := parse_mouse_eaten h
    have hle := scan_len_le (mouse_window inp junk)
    have hwl : (mouse_window inp junk).length ≤ 13 := by
      rw [mouse_window_long inp junk hl]
      simp only [List.length_drop, List.length_take, mouse_prefix, List.length_cons,
        List.length_nil, max_mouse_seq_len]
      omega
    unfold max_mouse_seq_len at hl
    omega
  · cases h

set_option maxRecDepth 100000 in
/-- Claim C36, the code at its failing input.  The input `ESC [ < 0 ; 1 ; 1 0` has 9 bytes;
the view handed to `parse_mouse` spans 16 bytes from the start of the input, so behind the 6
bytes of the input after the prefix it covers the terminating NUL and what lies in memory
after it, here the byte `M`.  `parse_mouse` finds that `M` and reports `eaten = 8`, so that
`3 + eaten = 11` exceeds the 9 bytes read and `in.substr(11)` raises `std::out_of_range`.
For every input of fewer than 16 bytes the view reaches past the input; for an input of 16
bytes or more it lies inside the input and `3 + eaten` is at most its length. -/
theorem read_mouse_view_past_input :
    mouse_window [0x1b, 0x5b, 0x3c, 0x30, 0x3b, 0x31, 0x3b, 0x31, 0x30] [0x4d] =
        [0x30, 0x3b, 0x31, 0x3b, 0x31, 0x30, 0, 0x4d] ∧
      (mouse_stage (Input.mk [] (sort_sequences key_sequences_literal) 0 300) 1000
          [0x1b, 0x5b, 0x3c, 0x30, 0x3b, 0x31, 0x3b, 0x31, 0x30] [0x4d]).toOption.map
          Prod.fst =
        some (some (Event.MouseButton 0 true false false 0 9 key.NoMod, 8)) ∧
      (read (Input.mk [0x1b, 0x5b, 0x3c, 0x30, 0x3b, 0x31, 0x3b, 0x31, 0x30]
          (sort_sequences key_sequences_literal) 0 300) WaitResult.InputReceived [] [0x4d]
          1000).1 = Except.error Exn.out_of_range ∧
      (∀ inp junk : List Nat, 3 ≤ inp.length → inp.length < max_mouse_seq_len →
        mouse_window inp junk =
          inp.drop 3 ++ (0 :: junk).take (max_mouse_seq_len - inp.length)) ∧
      (∀ inp junk : List Nat, max_mouse_seq_len ≤ inp.length →
        mouse_window inp junk =
          (inp.take max_mouse_seq_len).drop (List.length mouse_prefix)) ∧
      (∀ (s s1 : Input) (now n : Nat) (inp junk : List Nat) (ev : Event),
        mouse_stage s now inp junk = Except.ok (some (ev, n), s1) →
        max_mouse_seq_len ≤ inp.length → 3 + n ≤ inp.length) := by
  refine ⟨by decide, by decide!, by decide!, mouse_window_short, mouse_window_long, ?_⟩
  intro s s1 now n inp junk ev h hl
  exact mouse_stage_eaten_le h hl

end Input

end termic
